import Mathlib

/-! BadgerDB buffer manager and B+ tree index

A shallow embedding of `buffer.cpp` (BufMgr) and `btree.cpp` (BTreeIndex).

* A `File*` is a `FileId`; a null `File*` in a descriptor is `none`.
* A `Page*` handed out by the buffer manager is the number of the frame it
  points into; reading through the pointer reads the current image of that frame.
* C++ arrays are total functions from indices to values.
* An operation yields a `Res`: it returns, it throws (the state reached at the
  throw is kept, nothing is rolled back), it uses an indeterminate value
  (`undef`), or the fuel of the model ran out (`nofuel`).
-/

namespace BadgerDB

abbrev FileId := Nat
abbrev PageId := Nat
abbrev FrameId := Nat

/-- The sentinel `Page::INVALID_NUMBER`. -/
def INVALID_NUMBER : PageId := 0

/-- A record identifier `{page_number, slot_number}`. -/
structure RecordId where
  page_number : PageId
  slot_number : Nat
deriving DecidableEq, Repr

/-- The image of one page.  `page_number` is the page's own header field (what
`Page::page_number()` returns); the other fields are the views that `btree.cpp`
casts a page to: `LeafNodeInt` (`level`, `numKeys`, `keyArray`, `ridArray`,
`rightSibPageNo`), `NonLeafNodeInt` (`level`, `numKeys`, `keyArray`,
`pageNoArray`) and `IndexMetaInfo` (`relationName`, `attrByteOffset`,
`attrType`, `rootPageNo`).  `level`, `numKeys` and `keyArray` are shared by the
two node views, as `isLeaf` reads `level` through the leaf view of any node;
`ridArray` and `pageNoArray` are kept apart, no page being written through one
node view and read through the other. -/
structure Page where
  page_number : PageId
  level : Int
  numKeys : Int
  keyArray : Int → Int
  ridArray : Int → RecordId
  pageNoArray : Int → PageId
  rightSibPageNo : PageId
  relationName : String
  attrByteOffset : Int
  attrType : Nat
  rootPageNo : PageId

/-- A zero-filled page carrying the page number `n`. -/
def Page.zero (n : PageId) : Page :=
  { page_number := n, level := 0, numKeys := 0, keyArray := fun _ => 0,
    ridArray := fun _ => ⟨0, 0⟩, pageNoArray := fun _ => 0, rightSibPageNo := 0,
    relationName := "", attrByteOffset := 0, attrType := 0, rootPageNo := 0 }

/-- The exceptions of the two components and of the file layer. -/
inductive Exn where
  | BufferExceeded | PageNotPinned | PagePinned | BadBuffer
  | HashNotFound | HashAlreadyPresent | InvalidPage
  | BadOpcodes | BadScanrange | NoSuchKeyFound
  | ScanNotInitialized | IndexScanCompleted
deriving DecidableEq, Repr

/-- Outcome of an operation on a state of type `σ`. -/
inductive Res (σ α : Type) where
  | ok (a : α) (s : σ)
  | throw (e : Exn) (s : σ)
  | undef
  | nofuel

/-- The state an operation leaves behind, when it returns or throws. -/
def Res.state? {σ α : Type} : Res σ α → Option σ
  | .ok _ s => some s
  | .throw _ s => some s
  | .undef => none
  | .nofuel => none

/-- The exception an operation ends with, if it throws. -/
def Res.exn? {σ α : Type} : Res σ α → Option Exn
  | .throw e _ => some e
  | _ => none

/-- The value an operation returns, if it returns. -/
def Res.val? {σ α : Type} : Res σ α → Option α
  | .ok a _ => some a
  | _ => none

/-- Sequencing: the continuation runs only after a normal return. -/
def Res.bind {σ α β : Type} (r : Res σ α) (k : α → σ → Res σ β) : Res σ β :=
  match r with
  | .ok a s => k a s
  | .throw e s => .throw e s
  | .undef => .undef
  | .nofuel => .nofuel

/-! ## Buffer manager -/

/-- A frame descriptor (class `BufDesc`). `pinCnt` is an unbounded natural
number: a count only leaves the 32-bit range after `2^32` unmatched pins of one
page.  `readPage32` is `readPage` with the count kept in 32 bits. -/
structure BufDesc where
  file : Option FileId
  pageNo : PageId
  frameNo : FrameId
  pinCnt : Nat
  dirty : Bool
  valid : Bool
  refbit : Bool
deriving DecidableEq, Repr

/-- Modelled from the spec: `BufDesc::Clear()` (declared in `buffer.h`, which is
not among the sources) releases a descriptor; a frame that is not valid has
`pinCnt == 0` and `dirty == false`, no file and no page. -/
def BufDesc.Clear (d : BufDesc) : BufDesc :=
  { d with pinCnt := 0, file := none, pageNo := INVALID_NUMBER, dirty := false,
           refbit := false, valid := false }

/-- Modelled from the spec: `BufDesc::Set(file, pageNo)` (declared in `buffer.h`)
sets `valid = true, pinCnt = 1, dirty = false, refbit = true`. -/
def BufDesc.Set (d : BufDesc) (file : FileId) (pageNo : PageId) : BufDesc :=
  { d with file := some file, pageNo := pageNo, pinCnt := 1, dirty := false,
           valid := true, refbit := true }

/-- The buffer manager together with the file layer below it: `disk f p` is the
stored image of page `p` of file `f` (`none`: no such page), `nextPageNo f` the
next page number `File::allocatePage` hands out. -/
structure BufMgr where
  numBufs : Nat
  bufDescTable : FrameId → BufDesc
  bufPool : FrameId → Page
  hashTable : FileId → PageId → Option FrameId
  clockHand : FrameId
  disk : FileId → PageId → Option Page
  nextPageNo : FileId → PageId

/-- Overwrite the descriptor of frame `k`. -/
def BufMgr.setDesc (s : BufMgr) (k : FrameId) (d : BufDesc) : BufMgr :=
  { s with bufDescTable := Function.update s.bufDescTable k d }

/-- Overwrite the page image of frame `k`. -/
def BufMgr.setPage (s : BufMgr) (k : FrameId) (p : Page) : BufMgr :=
  { s with bufPool := Function.update s.bufPool k p }

/-- Modelled from the spec: `BufHashTbl::insert` (the hash table class is not
among the sources) adds the entry `(file, pageNo) → frameNo` to the mapping. -/
def BufMgr.hashInsert (s : BufMgr) (file : FileId) (pageNo : PageId) (k : FrameId) : BufMgr :=
  { s with
    hashTable := Function.update s.hashTable file (Function.update (s.hashTable file) pageNo (some k)) }

/-- Modelled from the spec: `BufHashTbl::remove` deletes the entry of
`(file, pageNo)` from the mapping. -/
def BufMgr.hashRemove (s : BufMgr) (file : FileId) (pageNo : PageId) : BufMgr :=
  { s with
    hashTable := Function.update s.hashTable file (Function.update (s.hashTable file) pageNo none) }

/-- Modelled from the spec: `File::writePage(page)` of the external file layer
stores the image under the page's own number. -/
def BufMgr.writePage (s : BufMgr) (file : FileId) (p : Page) : BufMgr :=
  { s with
    disk := Function.update s.disk file (Function.update (s.disk file) p.page_number (some p)) }

/-- Constructor `BufMgr::BufMgr(bufs)` over a given file layer: the loop sets
`frameNo = i` and `valid = false` in every descriptor, the table is empty and
the clock hand is `bufs - 1`.  Modelled from the spec: the other descriptor
fields start as `BufDesc`'s own constructor (in `buffer.h`, not part of the
sources at hand) leaves them, which by (I4) is the cleared state. -/
def BufMgr.fresh (bufs : Nat) (disk : FileId → PageId → Option Page)
    (nextPageNo : FileId → PageId) : BufMgr :=
  { numBufs := bufs
    bufDescTable := fun i =>
      { file := none, pageNo := INVALID_NUMBER, frameNo := i, pinCnt := 0,
        dirty := false, valid := false, refbit := false }
    bufPool := fun _ => Page.zero 0
    hashTable := fun _ _ => none
    clockHand := bufs - 1
    disk := disk
    nextPageNo := nextPageNo }

/-- `BufMgr::advanceClock`. -/
def advanceClock (s : BufMgr) : BufMgr :=
  { s with clockHand := (s.clockHand + 1) % s.numBufs }

/-- The loop of `BufMgr::flushFile`, `n` frames remaining from frame `i` on. -/
def flushFileLoop (file : FileId) : Nat → FrameId → BufMgr → Res BufMgr Unit
  | 0, _, s => .ok () s
  | n + 1, i, s =>
    let d := s.bufDescTable i
    if d.file = some file then
      if d.pinCnt > 0 then .throw .PagePinned s
      else if d.valid = false then .throw .BadBuffer s
      else
        let s1 := if d.dirty = true then
            (s.writePage file (s.bufPool i)).setDesc i { d with dirty := false }
          else s
        match s1.hashTable file d.pageNo with
        | none => .throw .HashNotFound s1
        | some _ =>
          let s2 := s1.hashRemove file d.pageNo
          flushFileLoop file n (i + 1) (s2.setDesc i (s2.bufDescTable i).Clear)
    else flushFileLoop file n (i + 1) s

/-- `BufMgr::flushFile`. -/
def flushFile (s : BufMgr) (file : FileId) : Res BufMgr Unit :=
  flushFileLoop file s.numBufs 0 s

/-- The `while (counter <= numBufs)` loop of `BufMgr::allocBuf` with `n`
iterations left.  The result is the value of the out-parameter `frame`
(`none`: never assigned) and of `pinCounter` when the loop is left. -/
def allocBufLoop : Nat → Nat → BufMgr → Res BufMgr (Option FrameId × Nat)
  | 0, pinCounter, s => .ok (none, pinCounter) s
  | n + 1, pinCounter, s =>
    let d := s.bufDescTable s.clockHand
    if d.valid = false then
      .ok (some s.clockHand, pinCounter) (s.setDesc s.clockHand d.Clear)
    else if d.refbit = true then
      allocBufLoop n pinCounter (advanceClock (s.setDesc s.clockHand { d with refbit := false }))
    else if d.pinCnt > 0 then
      allocBufLoop n (pinCounter + 1) (advanceClock s)
    else
      match d.file with
      | none => .undef
      | some f =>
        match flushFile s f with
        | .ok _ s1 => .ok (some s1.clockHand, pinCounter) s1
        | .throw e s1 => .throw e s1
        | .undef => .undef
        | .nofuel => .nofuel

/-- `BufMgr::allocBuf(frame)`: the value left in `frame`, `none` when the
function returns without having assigned it. -/
def allocBuf (s : BufMgr) : Res BufMgr (Option FrameId) :=
  match allocBufLoop (s.numBufs + 1) 0 s with
  | .ok (frame, pinCounter) s1 =>
    if pinCounter ≥ s1.numBufs then .throw .BufferExceeded s1 else .ok frame s1
  | .throw e s1 => .throw e s1
  | .undef => .undef
  | .nofuel => .nofuel

/-- `BufMgr::readPage(file, pageNo, page)`; the page pointer returned is the
frame number.  When `allocBuf` leaves the local `frameNo` unassigned, the frame
written to is indeterminate. -/
def readPage (s : BufMgr) (file : FileId) (pageNo : PageId) : Res BufMgr FrameId :=
  match s.hashTable file pageNo with
  | some frameNo =>
    let d := s.bufDescTable frameNo
    .ok frameNo (s.setDesc frameNo { d with refbit := true, pinCnt := d.pinCnt + 1 })
  | none =>
    match allocBuf s with
    | .ok (some frameNo) s1 =>
      match s1.disk file pageNo with
      | none => .throw .InvalidPage s1
      | some pg =>
        let s2 := s1.setPage frameNo pg
        match s2.hashTable file pageNo with
        | some _ => .throw .HashAlreadyPresent s2
        | none =>
          let s3 := s2.hashInsert file pageNo frameNo
          .ok frameNo (s3.setDesc frameNo ((s3.bufDescTable frameNo).Set file pageNo))
    | .ok none _ => .undef
    | .throw e s1 => .throw e s1
    | .undef => .undef
    | .nofuel => .nofuel

/-- `BufMgr::unPinPage(file, pageNo, dirty)`. -/
def unPinPage (s : BufMgr) (file : FileId) (pageNo : PageId) (dirty : Bool) : Res BufMgr Unit :=
  match s.hashTable file pageNo with
  | none => .throw .HashNotFound s
  | some temp =>
    let d := s.bufDescTable temp
    if d.pinCnt < 1 then .throw .PageNotPinned s
    else
      let s1 := s.setDesc temp { d with pinCnt := d.pinCnt - 1 }
      if dirty = true then
        .ok () (s1.setDesc temp { s1.bufDescTable temp with dirty := true })
      else .ok () s1

/-- `BufMgr::allocPage(file, pageNo, page)`: the new page number and the frame.
`File::allocatePage` (file layer, modelled from the spec) returns a zero-filled
page with a fresh number. -/
def allocPage (s : BufMgr) (file : FileId) : Res BufMgr (PageId × FrameId) :=
  let pageNo := s.nextPageNo file
  let new_page := Page.zero pageNo
  let s0 : BufMgr :=
    { s with
      disk := Function.update s.disk file (Function.update (s.disk file) pageNo (some new_page))
      nextPageNo := Function.update s.nextPageNo file (pageNo + 1) }
  match allocBuf s0 with
  | .ok (some new_frame) s1 =>
    match s1.hashTable file pageNo with
    | some _ => .throw .HashAlreadyPresent s1
    | none =>
      let s2 := s1.hashInsert file pageNo new_frame
      let s3 := s2.setPage new_frame new_page
      .ok (pageNo, new_frame) (s3.setDesc new_frame ((s3.bufDescTable new_frame).Set file pageNo))
  | .ok none _ => .undef
  | .throw e s1 => .throw e s1
  | .undef => .undef
  | .nofuel => .nofuel

/-- `BufMgr::disposePage(file, PageNo)`; `File::deletePage` (file layer,
modelled from the spec) removes the page from the file. -/
def disposePage (s : BufMgr) (file : FileId) (pageNo : PageId) : Res BufMgr Unit :=
  match s.hashTable file pageNo with
  | none => .throw .HashNotFound s
  | some frameNo =>
    let s1 := if frameNo ≠ s.numBufs then
        (s.setDesc frameNo (s.bufDescTable frameNo).Clear).hashRemove file pageNo
      else s
    match s1.disk file pageNo with
    | none => .throw .InvalidPage s1
    | some _ =>
      .ok () { s1 with
        disk := Function.update s1.disk file (Function.update (s1.disk file) pageNo none) }

/-! ## Well-formed pool states -/

/-- Well-formedness of a pool state. -/
structure Inv (s : BufMgr) : Prop where
  hand : s.clockHand < s.numBufs
  clear : ∀ k, k < s.numBufs → (s.bufDescTable k).valid = false →
    (s.bufDescTable k).file = none ∧ (s.bufDescTable k).pinCnt = 0 ∧
      (s.bufDescTable k).dirty = false
  hash : ∀ f p k, s.hashTable f p = some k ↔
    (k < s.numBufs ∧ (s.bufDescTable k).valid = true ∧
      (s.bufDescTable k).file = some f ∧ (s.bufDescTable k).pageNo = p)
  file : ∀ k, k < s.numBufs → (s.bufDescTable k).valid = true →
    ∃ f, (s.bufDescTable k).file = some f
  pageno : ∀ k, k < s.numBufs → (s.bufDescTable k).valid = true →
    (s.bufPool k).page_number = (s.bufDescTable k).pageNo
  disk : ∀ f p pg, s.disk f p = some pg → pg.page_number = p

/-- What a sweep (of `flushFile` or `allocBuf`) may do to one descriptor: keep
it up to clearing the reference bit, or release it when it is not pinned. -/
def FrameKept (d d' : BufDesc) : Prop :=
  (d'.file = d.file ∧ d'.pageNo = d.pageNo ∧ d'.pinCnt = d.pinCnt ∧ d'.dirty = d.dirty ∧
    d'.valid = d.valid ∧ (d'.refbit = true → d.refbit = true)) ∨
  (d.pinCnt = 0 ∧ d'.valid = false)

/-- What a sweep may do to the pool. -/
structure Kept (s s' : BufMgr) : Prop where
  numBufs : s'.numBufs = s.numBufs
  bufPool : s'.bufPool = s.bufPool
  nextPageNo : s'.nextPageNo = s.nextPageNo
  frames : ∀ k, k < s.numBufs → FrameKept (s.bufDescTable k) (s'.bufDescTable k)

/-- Postcondition of the flush loop of file `f` started at frame `i` in state `s`. -/
def FlushPost (f : FileId) (i : Nat) (s : BufMgr) : Res BufMgr Unit → Prop
  | .ok _ s' =>
    Inv s' ∧ Kept s s' ∧ s'.clockHand = s.clockHand ∧
    (∀ k, i ≤ k → k < s.numBufs → (s.bufDescTable k).file = some f →
      (s.bufDescTable k).pinCnt = 0) ∧
    (∀ k, k < s.numBufs → s'.bufDescTable k =
      if i ≤ k ∧ (s.bufDescTable k).file = some f then (s.bufDescTable k).Clear
      else s.bufDescTable k) ∧
    (∀ k, i ≤ k → k < s.numBufs → (s.bufDescTable k).file = some f →
      (s.bufDescTable k).dirty = true →
      s'.disk f (s.bufDescTable k).pageNo = some (s.bufPool k)) ∧
    (∀ f' p', (∀ k, i ≤ k → k < s.numBufs → (s.bufDescTable k).file = some f →
        (s.bufDescTable k).dirty = true → ¬ (f' = f ∧ (s.bufDescTable k).pageNo = p')) →
      s'.disk f' p' = s.disk f' p')
  | .throw e s' =>
    Inv s' ∧ Kept s s' ∧ s'.clockHand = s.clockHand ∧ e = .PagePinned ∧
    ∃ k, i ≤ k ∧ k < s.numBufs ∧ (s.bufDescTable k).file = some f ∧
      0 < (s.bufDescTable k).pinCnt
  | .undef => False
  | .nofuel => False

/-- Postcondition of the sweep of `allocBuf` started in state `s`. -/
def AllocPost (s : BufMgr) : Res BufMgr (Option FrameId × Nat) → Prop
  | .ok r s' =>
    Inv s' ∧ Kept s s' ∧
    (∀ k, r.1 = some k →
      k = s'.clockHand ∧ k < s.numBufs ∧ (s'.bufDescTable k).valid = false) ∧
    (∀ f p, (∀ k, k < s.numBufs → (s.bufDescTable k).file ≠ some f) →
      s'.disk f p = s.disk f p)
  | .throw e s' => Inv s' ∧ Kept s s' ∧ e = .PagePinned
  | .undef => False
  | .nofuel => False

/-- Postcondition of `allocBuf` called in state `s`. -/
def AllocBufPost (s : BufMgr) : Res BufMgr (Option FrameId) → Prop
  | .ok r s' =>
    Inv s' ∧ Kept s s' ∧
    (∀ k, r = some k →
      k = s'.clockHand ∧ k < s.numBufs ∧ (s'.bufDescTable k).valid = false) ∧
    (∀ f p, (∀ k, k < s.numBufs → (s.bufDescTable k).file ≠ some f) →
      s'.disk f p = s.disk f p)
  | .throw e s' => Inv s' ∧ Kept s s' ∧ (e = .PagePinned ∨ e = .BufferExceeded)
  | .undef => False
  | .nofuel => False

/-- The pool states that calls of the public interface produce from a freshly
constructed buffer manager of at least one frame over a file layer whose pages
carry their own numbers: each call may return or throw, and the holder of a
pin may rewrite the image of the pinned page. -/
inductive Reachable : BufMgr → Prop where
  | fresh (bufs : Nat) (disk : FileId → PageId → Option Page) (next : FileId → PageId) :
      1 ≤ bufs → (∀ f p pg, disk f p = some pg → pg.page_number = p) →
      Reachable (BufMgr.fresh bufs disk next)
  | readPage (s s' : BufMgr) (f : FileId) (p : PageId) :
      Reachable s → (readPage s f p).state? = some s' → Reachable s'
  | allocPage (s s' : BufMgr) (f : FileId) :
      Reachable s → (allocPage s f).state? = some s' → Reachable s'
  | unPinPage (s s' : BufMgr) (f : FileId) (p : PageId) (d : Bool) :
      Reachable s → (unPinPage s f p d).state? = some s' → Reachable s'
  | flushFile (s s' : BufMgr) (f : FileId) :
      Reachable s → (flushFile s f).state? = some s' → Reachable s'
  | disposePage (s s' : BufMgr) (f : FileId) (p : PageId) :
      Reachable s → (disposePage s f p).state? = some s' → Reachable s'
  | write (s : BufMgr) (k : FrameId) (pg : Page) :
      Reachable s → k < s.numBufs → 0 < (s.bufDescTable k).pinCnt →
      pg.page_number = (s.bufPool k).page_number → Reachable (s.setPage k pg)

/-- The state after page image `pg` of `(f, p)` has been put into frame `k`:
the tail of the miss path of `readPage` and of `allocPage`. -/
def BufMgr.install (s : BufMgr) (k : FrameId) (f : FileId) (p : PageId) (pg : Page) : BufMgr :=
  let s3 := (s.setPage k pg).hashInsert f p k
  s3.setDesc k ((s3.bufDescTable k).Set f p)

/-- The file layer after `File::allocatePage` on file `f`. -/
def BufMgr.fileAlloc (s : BufMgr) (f : FileId) : BufMgr :=
  { s with
    disk := Function.update s.disk f
      (Function.update (s.disk f) (s.nextPageNo f) (some (Page.zero (s.nextPageNo f))))
    nextPageNo := Function.update s.nextPageNo f (s.nextPageNo f + 1) }

/-- Sum of `f 0 .. f (n - 1)`. -/
def sumTo (f : Nat → Nat) : Nat → Nat
  | 0 => 0
  | n + 1 => sumTo f n + f n

/-- The number of pins held on the frames of the pool. -/
def totalPins (s : BufMgr) : Nat := sumTo (fun k => (s.bufDescTable k).pinCnt) s.numBufs

/-- The pool after a cache hit of `readPage` on frame `j`. -/
def BufMgr.pin (s : BufMgr) (j : FrameId) : BufMgr :=
  s.setDesc j { s.bufDescTable j with
    refbit := true, pinCnt := (s.bufDescTable j).pinCnt + 1 }

/-- The pool after `unPinPage` has released a pin of frame `j`. -/
def BufMgr.unpin (s : BufMgr) (j : FrameId) (d : Bool) : BufMgr :=
  s.setDesc j { s.bufDescTable j with
    pinCnt := (s.bufDescTable j).pinCnt - 1, dirty := ((s.bufDescTable j).dirty || d) }

/-! ## B+ tree index -/

/-- The scan operators (`enum Operator`). -/
inductive Operator where
  | LT | LTE | GTE | GT
deriving DecidableEq, Repr

/-- Wrap-around of 32-bit `int` arithmetic. -/
def wrap32 (x : Int) : Int := (x + 2147483648) % 4294967296 - 2147483648

/-- The members of `BTreeIndex`.  `currentPageData` is a page pointer (`none`:
`nullptr`); `leafOccupancy` and `nodeOccupancy` hold `INTARRAYLEAFSIZE` and
`INTARRAYNONLEAFSIZE`, constants of `btree.h`, which is not among the sources. -/
structure BTreeIndex where
  bufMgr : BufMgr
  file : FileId
  headerPageNum : PageId
  rootPageNum : PageId
  leafOccupancy : Int
  nodeOccupancy : Int
  attrByteOffset : Int
  attributeType : Nat
  scanExecuting : Bool
  nextEntry : Int
  currentPageNum : PageId
  currentPageData : Option FrameId
  lowValInt : Int
  highValInt : Int
  lowOp : Operator
  highOp : Operator
  inclLow : Int
  inclHigh : Int
  newNonLeafNodePageNum : PageId
  newNonLeafNodeKey : Int

/-- A buffer manager call made by the index: the outcome carries the index
with the new pool. -/
def BTreeIndex.call {α : Type} (t : BTreeIndex) (r : Res BufMgr α) : Res BTreeIndex α :=
  match r with
  | .ok a b => .ok a { t with bufMgr := b }
  | .throw e b => .throw e { t with bufMgr := b }
  | .undef => .undef
  | .nofuel => .nofuel

/-- `bufMgr->readPage(file, pageNo, page)`. -/
def BTreeIndex.readPage (t : BTreeIndex) (pageNo : PageId) : Res BTreeIndex FrameId :=
  t.call (BadgerDB.readPage t.bufMgr t.file pageNo)

/-- `bufMgr->allocPage(file, pageNo, page)`. -/
def BTreeIndex.allocPage (t : BTreeIndex) : Res BTreeIndex (PageId × FrameId) :=
  t.call (BadgerDB.allocPage t.bufMgr t.file)

/-- `bufMgr->unPinPage(file, pageNo, dirty)`. -/
def BTreeIndex.unPinPage (t : BTreeIndex) (pageNo : PageId) (dirty : Bool) :
    Res BTreeIndex Unit :=
  t.call (BadgerDB.unPinPage t.bufMgr t.file pageNo dirty)

/-- The page a page pointer points to. -/
def BTreeIndex.page (t : BTreeIndex) (k : FrameId) : Page := t.bufMgr.bufPool k

/-- A write through a page pointer. -/
def BTreeIndex.edit (t : BTreeIndex) (k : FrameId) (f : Page → Page) : BTreeIndex :=
  { t with bufMgr := t.bufMgr.setPage k (f (t.bufMgr.bufPool k)) }

/-- The assignments `newNonLeafNodePageNum = pageNum; newNonLeafNodeKey = key`. -/
def BTreeIndex.setPromotion (t : BTreeIndex) (pageNum : PageId) (key : Int) : BTreeIndex :=
  { t with newNonLeafNodePageNum := pageNum, newNonLeafNodeKey := key }

/-- `BTreeIndex::isLeaf`. -/
def isLeaf (pg : Page) : Bool := pg.level = -1

/-- The shift loop of `findIndexAndInsertLeaf`:
`for (j = numKeys - 1; j >= i; j--)`, `n` iterations left at index `j`. -/
def shiftLeaf : Nat → Int → Page → Page
  | 0, _, pg => pg
  | n + 1, j, pg =>
    shiftLeaf n (j - 1)
      { pg with
        keyArray := Function.update pg.keyArray (j + 1) (pg.keyArray j)
        ridArray := Function.update pg.ridArray (j + 1) (pg.ridArray j) }

/-- The search loop of `findIndexAndInsertLeaf`: `for (i = 0; i <= numKeys; i++)`,
`n` iterations left at index `i`. -/
def insertLeafLoop : Nat → Int → Page → Int → RecordId → Page
  | 0, _, cur, _, _ => cur
  | n + 1, i, cur, key, rid =>
    if i = cur.numKeys then
      { cur with
        keyArray := Function.update cur.keyArray i key
        ridArray := Function.update cur.ridArray i rid
        numKeys := cur.numKeys + 1 }
    else if cur.keyArray i < key then insertLeafLoop n (i + 1) cur key rid
    else
      let cur1 := shiftLeaf (cur.numKeys - i).toNat (cur.numKeys - 1) cur
      { cur1 with
        keyArray := Function.update cur1.keyArray i key
        ridArray := Function.update cur1.ridArray i rid
        numKeys := cur1.numKeys + 1 }

/-- `BTreeIndex::findIndexAndInsertLeaf(curNode, newNode)` on the page `curNode`
points to. -/
def findIndexAndInsertLeaf (cur : Page) (key : Int) (rid : RecordId) : Page :=
  if cur.numKeys = 0 then
    { cur with
      keyArray := Function.update cur.keyArray 0 key
      ridArray := Function.update cur.ridArray 0 rid
      numKeys := cur.numKeys + 1 }
  else insertLeafLoop (cur.numKeys + 1).toNat 0 cur key rid

/-- The shift loop of `findIndexAndInsertNonLeaf`:
`for (j = numKeys; j > i; j--)`, `n` iterations left at index `j`. -/
def shiftNonLeaf : Nat → Int → Page → Page
  | 0, _, pg => pg
  | n + 1, j, pg =>
    shiftNonLeaf n (j - 1)
      { pg with
        keyArray := Function.update pg.keyArray j (pg.keyArray (j - 1))
        pageNoArray := Function.update pg.pageNoArray (j + 1) (pg.pageNoArray j) }

/-- The loop of `findIndexAndInsertNonLeaf`: `for (i = 0; i <= numKeys; i++)` with
at most `n` iterations left at index `i`; `key` and `pageNum` are the members
`newNonLeafNodeKey` and `newNonLeafNodePageNum`, `m` is `nodeOccupancy`.  The
second branch has no `break`. -/
def insertNonLeafLoop : Nat → Int → Page → Int → PageId → Int → Page × Int × PageId
  | 0, _, cur, key, pageNum, _ => (cur, key, pageNum)
  | n + 1, i, cur, key, pageNum, m =>
    if ¬ (i ≤ cur.numKeys) then (cur, key, pageNum)
    else if cur.keyArray i = key then (cur, key, pageNum)
    else if i = cur.numKeys ∧ cur.numKeys < m - 1 then
      insertNonLeafLoop n (i + 1)
        { cur with
          keyArray := Function.update cur.keyArray i key
          pageNoArray := Function.update cur.pageNoArray (i + 1) pageNum
          numKeys := cur.numKeys + 1 }
        0 INVALID_NUMBER m
    else if cur.keyArray i < key then insertNonLeafLoop n (i + 1) cur key pageNum m
    else
      let cur1 := shiftNonLeaf (cur.numKeys - i).toNat cur.numKeys cur
      ({ cur1 with
          keyArray := Function.update cur1.keyArray i key
          pageNoArray := Function.update cur1.pageNoArray (i + 1) pageNum
          numKeys := cur1.numKeys + 1 },
        0, INVALID_NUMBER)

/-- `BTreeIndex::findIndexAndInsertNonLeaf(curNode)`, `curNode` pointing into
frame `c`.  The index `i` never exceeds `numKeys`, which the loop raises at most
up to `nodeOccupancy - 1`, so `numKeys + nodeOccupancy + 2` iterations suffice. -/
def findIndexAndInsertNonLeaf (t : BTreeIndex) (c : FrameId) : BTreeIndex :=
  let cur := t.page c
  let r := insertNonLeafLoop (cur.numKeys + t.nodeOccupancy + 2).toNat 0 cur
    t.newNonLeafNodeKey t.newNonLeafNodePageNum t.nodeOccupancy
  let t1 : BTreeIndex :=
    { t with
      bufMgr := t.bufMgr.setPage c r.1
      newNonLeafNodeKey := r.2.1
      newNonLeafNodePageNum := r.2.2 }
  t1.edit c fun pg => { pg with level := 1 }

/-- The move loop of the leaf branch of `split`:
`for (i = midIndex; i < leafOccupancy; i++)`, `n` iterations left at index `i`;
`c` is the frame of `curNode`, `nw` the frame of `newLeafNode`. -/
def splitLeafMove : Nat → Int → Int → FrameId → FrameId → BTreeIndex → BTreeIndex
  | 0, _, _, _, _, t => t
  | n + 1, i, mid, c, nw, t =>
    let t1 := t.edit nw fun pg =>
      { pg with keyArray := Function.update pg.keyArray (i - mid) ((t.page c).keyArray i) }
    let t2 := t1.edit c fun pg => { pg with keyArray := Function.update pg.keyArray i 0 }
    let t3 := t2.edit nw fun pg =>
      { pg with ridArray := Function.update pg.ridArray (i - mid) ((t2.page c).ridArray i) }
    let t4 := t3.edit c fun pg =>
      { pg with
        ridArray := Function.update pg.ridArray i { pg.ridArray i with page_number := 0 } }
    let t5 := t4.edit nw fun pg => { pg with numKeys := pg.numKeys + 1 }
    let t6 := t5.edit c fun pg => { pg with numKeys := pg.numKeys - 1 }
    splitLeafMove n (i + 1) mid c nw t6

/-- The leaf branch of `BTreeIndex::split` between the allocation of the new
leaf (page `newPageNum` in frame `nw`) and the root test: the upper half moves to
the new leaf, the new entry goes into one of the two, the siblings are linked
and the promotion channel is set. -/
def splitLeafBody (t1 : BTreeIndex) (c nw : FrameId) (newPageNum : PageId) (key : Int)
    (rid : RecordId) : BTreeIndex :=
  let midIndex := t1.leafOccupancy / 2
  let t2 := splitLeafMove (t1.leafOccupancy - midIndex).toNat midIndex midIndex c nw t1
  let t3 :=
    if key < (t2.page nw).keyArray 0 then
      t2.edit c fun pg => findIndexAndInsertLeaf pg key rid
    else t2.edit nw fun pg => findIndexAndInsertLeaf pg key rid
  let t4 := t3.edit nw fun pg => { pg with rightSibPageNo := (t3.page c).rightSibPageNo }
  let t5 := t4.edit c fun pg => { pg with rightSibPageNo := newPageNum }
  let t6 := t5.edit nw fun pg => { pg with level := -1 }
  t6.setPromotion newPageNum ((t6.page nw).keyArray 0)

/-- The fields of a new root written by `split`: `level = 1`,
`pageNoArray[0] = nodePageId`, `pageNoArray[1] = right`,
`keyArray[0] = newNonLeafNodeKey`, `numKeys = 1`. -/
def initNewRoot (t : BTreeIndex) (nr : FrameId) (nodePageId right : PageId) : BTreeIndex :=
  let t1 := t.edit nr fun pg => { pg with level := 1 }
  let t2 := t1.edit nr fun pg =>
    { pg with pageNoArray := Function.update pg.pageNoArray 0 nodePageId }
  let t3 := t2.edit nr fun pg => { pg with pageNoArray := Function.update pg.pageNoArray 1 right }
  let t4 := t3.edit nr fun pg =>
    { pg with keyArray := Function.update pg.keyArray 0 t3.newNonLeafNodeKey }
  t4.edit nr fun pg => { pg with numKeys := 1 }

/-- The leaf branch of `BTreeIndex::split`. -/
def splitLeaf (t : BTreeIndex) (c : FrameId) (nodePageId : PageId) (key : Int)
    (rid : RecordId) : Res BTreeIndex Unit :=
  t.allocPage.bind fun a t1 =>
    let newPageNum := a.1
    let t7 := splitLeafBody t1 c a.2 newPageNum key rid
    if nodePageId = t7.rootPageNum then
      t7.allocPage.bind fun b t8 =>
        let newRootId := b.1
        let t13 := initNewRoot t8 b.2 nodePageId newPageNum
        (t13.unPinPage nodePageId true).bind fun _ t14 =>
          let t15 : BTreeIndex := { t14 with rootPageNum := newRootId }
          (t15.readPage t15.headerPageNum).bind fun h t16 =>
            let t17 := t16.edit h fun pg => { pg with rootPageNo := newRootId }
            (t17.unPinPage t17.headerPageNum false).bind fun _ t18 =>
              t18.unPinPage newPageNum true
    else t7.unPinPage newPageNum true

/-- The move loop of the non-leaf branch of `split`:
`for (i = midIndex; i < nodeOccupancy; i++)`, `n` iterations left at index `i`. -/
def splitNonLeafMove : Nat → Int → Int → FrameId → FrameId → BTreeIndex → BTreeIndex
  | 0, _, _, _, _, t => t
  | n + 1, i, mid, c, nw, t =>
    let t1 := t.edit nw fun pg =>
      { pg with keyArray := Function.update pg.keyArray (i - mid) ((t.page c).keyArray i) }
    let t2 := t1.edit nw fun pg =>
      { pg with
        pageNoArray := Function.update pg.pageNoArray (i - mid) ((t1.page c).pageNoArray i) }
    let t3 := t2.edit nw fun pg => { pg with numKeys := pg.numKeys + 1 }
    let t4 := t3.edit c fun pg => { pg with keyArray := Function.update pg.keyArray (i - mid) 0 }
    let t5 := t4.edit c fun pg =>
      { pg with pageNoArray := Function.update pg.pageNoArray (i - mid) 0 }
    let t6 := t5.edit c fun pg => { pg with numKeys := pg.numKeys - 1 }
    splitNonLeafMove n (i + 1) mid c nw t6

/-- The loop `for (i = 0; i < numKeys - 1; i++) keyArray[i] = keyArray[i + 1]` of
the non-leaf branch of `split`, `n` iterations left at index `i`. -/
def shiftDown : Nat → Int → Page → Page
  | 0, _, pg => pg
  | n + 1, i, pg =>
    shiftDown n (i + 1) { pg with keyArray := Function.update pg.keyArray i (pg.keyArray (i + 1)) }

/-- The non-leaf branch of `BTreeIndex::split` between the allocation of the new
node (page `newPageNum` in frame `nw`) and the root test; `key` is `newNode.key`. -/
def splitNonLeafBody (t1 : BTreeIndex) (c nw : FrameId) (newPageNum : PageId) (key : Int) :
    BTreeIndex :=
  let m := t1.nodeOccupancy
  let midIndex := m / 2
  let t2 := splitNonLeafMove (m - midIndex).toNat midIndex midIndex c nw t1
  let t3 := t2.edit nw fun pg =>
    { pg with
      pageNoArray := Function.update pg.pageNoArray (m - midIndex - 1)
        ((t2.page c).pageNoArray m) }
  let t4 := t3.edit c fun pg =>
    { pg with pageNoArray := Function.update pg.pageNoArray m INVALID_NUMBER }
  if key < (t4.page c).keyArray (midIndex - 1) then
    let pushUpKey := (t4.page c).keyArray (midIndex - 1)
    let u1 := t4.edit c fun pg =>
      { pg with keyArray := Function.update pg.keyArray (midIndex - 1) 0 }
    let u2 := u1.edit c fun pg => { pg with numKeys := pg.numKeys - 1 }
    findIndexAndInsertNonLeaf (u2.setPromotion newPageNum pushUpKey) c
  else
    let pushUpKey := (t4.page nw).keyArray 0
    let u1 := t4.edit nw fun pg => shiftDown (pg.numKeys - 1).toNat 0 pg
    let u2 := u1.edit nw fun pg =>
      { pg with keyArray := Function.update pg.keyArray (midIndex - 1) 0 }
    let u3 := u2.edit nw fun pg => { pg with numKeys := pg.numKeys - 1 }
    findIndexAndInsertNonLeaf (u3.setPromotion newPageNum pushUpKey) nw

/-- The non-leaf branch of `BTreeIndex::split`; `key` is `newNode.key`. -/
def splitNonLeaf (t : BTreeIndex) (c : FrameId) (nodePageId : PageId) (key : Int) :
    Res BTreeIndex Unit :=
  t.allocPage.bind fun a t1 =>
    let newPageNum := a.1
    let t5 := splitNonLeafBody t1 c a.2 newPageNum key
    if nodePageId = t5.rootPageNum then
      t5.allocPage.bind fun b t6 =>
        let newRootId := b.1
        let t11 := initNewRoot t6 b.2 nodePageId t6.newNonLeafNodePageNum
        let t12 : BTreeIndex := { t11 with rootPageNum := newRootId }
        (t12.readPage t12.headerPageNum).bind fun h t13 =>
          let t14 := t13.edit h fun pg => { pg with rootPageNo := newRootId }
          (t14.unPinPage t14.headerPageNum true).bind fun _ t15 =>
            (t15.unPinPage newRootId true).bind fun _ t16 =>
              t16.unPinPage newPageNum false
    else t5.unPinPage newPageNum false

/-- `BTreeIndex::split(isLeaf, nodePage, nodePageId, newNode)`. -/
def split (t : BTreeIndex) (leaf : Bool) (c : FrameId) (nodePageId : PageId) (key : Int)
    (rid : RecordId) : Res BTreeIndex Unit :=
  if leaf then splitLeaf t c nodePageId key rid else splitNonLeaf t c nodePageId key

/-- The child search of `recursionInsert`: `for (i = 0; i < numKeys; i++)`, `n`
iterations left at index `i`; the result is the local `nextPage` (`none`: never
assigned). -/
def findChild : Nat → Int → Page → Int → Option PageId → Option PageId
  | 0, _, _, _, nextPage => nextPage
  | n + 1, i, cur, key, nextPage =>
    if cur.keyArray i < key then
      findChild n (i + 1) cur key
        (if i + 1 = cur.numKeys then some (cur.pageNoArray (i + 1)) else nextPage)
    else some (cur.pageNoArray i)

/-- The part of the non-leaf case of `recursionInsert` after the recursive call:
a pending promotion is taken into the current node (frame `c`), which is split
when it is full. -/
def absorbPromotion (t2 : BTreeIndex) (c : FrameId) (nextPage : PageId) (key : Int)
    (rid : RecordId) : Res BTreeIndex Unit :=
  if t2.newNonLeafNodePageNum ≠ INVALID_NUMBER ∧ t2.newNonLeafNodeKey ≠ 0 then
    if (t2.page c).numKeys < t2.nodeOccupancy then .ok () (findIndexAndInsertNonLeaf t2 c)
    else split t2 false c nextPage key rid
  else .ok () t2

/-- `BTreeIndex::recursionInsert(nodePage, leaf, nodePageId, newNode)`; `fuel`
bounds the depth of the recursion. -/
def recursionInsert : Nat → BTreeIndex → FrameId → Bool → PageId → Int → RecordId →
    Res BTreeIndex Unit
  | 0, _, _, _, _, _, _ => .nofuel
  | fuel + 1, t, c, leaf, nodePageId, key, rid =>
    if leaf = false then
      match findChild (t.page c).numKeys.toNat 0 (t.page c) key none with
      | none => .undef
      | some nextPage =>
        (t.readPage nextPage).bind fun child t1 =>
          (recursionInsert fuel t1 child (isLeaf (t1.page child)) nextPage key rid).bind
            fun _ t2 =>
              (absorbPromotion t2 c nextPage key rid).bind fun _ t3 =>
                t3.unPinPage nextPage false
    else
      if (t.page c).numKeys < t.leafOccupancy then
        .ok () (t.edit c fun pg => findIndexAndInsertLeaf pg key rid)
      else split t true c nodePageId key rid

/-- `BTreeIndex::insertEntry(key, rid)`. -/
def insertEntry (fuel : Nat) (t : BTreeIndex) (key : Int) (rid : RecordId) :
    Res BTreeIndex Unit :=
  (t.readPage t.rootPageNum).bind fun root t1 =>
    (recursionInsert fuel t1 root (isLeaf (t1.page root)) t1.rootPageNum key rid).bind
      fun _ t2 => t2.unPinPage t2.rootPageNum true

/-- `BTreeIndex::setNextScan(nextPage)`. -/
def setNextScan (t : BTreeIndex) (nextPage : PageId) : Res BTreeIndex Unit :=
  let t1 : BTreeIndex := { t with nextEntry := 0, currentPageNum := nextPage }
  (t1.readPage t1.currentPageNum).bind fun curPage t2 =>
    .ok () { t2 with currentPageData := some curPage }

/-- `BTreeIndex::recurScan()`; the local `curPage` keeps the pointer read at
entry.  Every loop iteration and every recursive call takes one unit of `fuel`. -/
def recurScanLoop : Nat → BTreeIndex → FrameId → Bool → Res BTreeIndex Unit
  | 0, _, _, _ => .nofuel
  | fuel + 1, t, curPage, leaf =>
    let cur := t.page curPage
    if leaf then
      if cur.keyArray t.nextEntry < t.inclLow then
        if t.nextEntry = cur.numKeys - 1 then
          if cur.rightSibPageNo ≠ INVALID_NUMBER then
            let old_page := t.currentPageNum
            (setNextScan t cur.rightSibPageNo).bind fun _ t1 =>
              (t1.unPinPage old_page false).bind fun _ t2 =>
                recurScanLoop fuel t2 curPage leaf
          else .throw .NoSuchKeyFound t
        else recurScanLoop fuel { t with nextEntry := t.nextEntry + 1 } curPage leaf
      else
        if cur.keyArray t.nextEntry ≤ t.inclHigh then .ok () t
        else .throw .NoSuchKeyFound t
    else
      let enter : BTreeIndex → Res BTreeIndex Unit := fun t2 =>
        match t2.currentPageData with
        | none => .undef
        | some p => recurScanLoop fuel t2 p (isLeaf (t2.page p))
      if cur.keyArray t.nextEntry < t.inclLow then
        if t.nextEntry = cur.numKeys - 1 then
          let old_page := t.currentPageNum
          (setNextScan t (cur.pageNoArray (t.nextEntry + 1))).bind fun _ t1 =>
            (t1.unPinPage old_page false).bind fun _ t2 => enter t2
        else recurScanLoop fuel { t with nextEntry := t.nextEntry + 1 } curPage leaf
      else if cur.keyArray t.nextEntry = t.inclLow then
        (t.unPinPage t.currentPageNum false).bind fun _ t1 =>
          (setNextScan t1 ((t1.page curPage).pageNoArray (t1.nextEntry + 1))).bind
            fun _ t2 => enter t2
      else
        (t.unPinPage t.currentPageNum false).bind fun _ t1 =>
          (setNextScan t1 ((t1.page curPage).pageNoArray t1.nextEntry)).bind
            fun _ t2 => enter t2

/-- `BTreeIndex::recurScan()`. -/
def recurScan (fuel : Nat) (t : BTreeIndex) : Res BTreeIndex Unit :=
  match t.currentPageData with
  | none => .undef
  | some p => recurScanLoop fuel t p (isLeaf (t.page p))

/-- `BTreeIndex::endScan()`. -/
def endScan (t : BTreeIndex) : Res BTreeIndex Unit :=
  if t.scanExecuting = false then .throw .ScanNotInitialized t
  else
    let t1 : BTreeIndex := { t with scanExecuting := false }
    (t1.unPinPage t1.currentPageNum false).bind fun _ t2 =>
      .ok () { t2 with currentPageNum := INVALID_NUMBER, currentPageData := none,
                       nextEntry := -1 }

/-- The assignments of `startScan` between `setNextScan(rootPageNum)` and the
call of `recurScan`. -/
def setScanBounds (t2 : BTreeIndex) (lowVal : Int) (lowOp : Operator) (highVal : Int)
    (highOp : Operator) : BTreeIndex :=
  let t3 : BTreeIndex :=
    { t2 with lowValInt := lowVal, highValInt := highVal, lowOp := lowOp, highOp := highOp }
  let t4 : BTreeIndex := if t3.lowOp = .GTE then { t3 with inclLow := t3.lowValInt } else t3
  let t5 : BTreeIndex :=
    if t4.lowOp = .GT then { t4 with inclLow := wrap32 (t4.lowValInt + 1) } else t4
  let t6 : BTreeIndex :=
    if t5.highOp = .LTE then { t5 with inclHigh := t5.highValInt } else t5
  if t6.highOp = .LT then { t6 with inclHigh := wrap32 (t6.highValInt - 1) } else t6

/-- The part of `startScan` before the call of `recurScan`: the checks, the end
of a running scan, the pin of the root and the bounds. -/
def startScanSetup (t : BTreeIndex) (lowVal : Int) (lowOp : Operator) (highVal : Int)
    (highOp : Operator) : Res BTreeIndex Unit :=
  if lowOp ≠ .GT ∧ lowOp ≠ .GTE then .throw .BadOpcodes t
  else if highOp ≠ .LT ∧ highOp ≠ .LTE then .throw .BadOpcodes t
  else if lowVal > highVal then .throw .BadScanrange t
  else
    let r0 : Res BTreeIndex Unit := if t.scanExecuting then endScan t else .ok () t
    r0.bind fun _ t0 =>
      let t1 : BTreeIndex := { t0 with scanExecuting := true }
      (setNextScan t1 t1.rootPageNum).bind fun _ t2 =>
        .ok () (setScanBounds t2 lowVal lowOp highVal highOp)

/-- `BTreeIndex::startScan(lowValParm, lowOpParm, highValParm, highOpParm)`. -/
def startScan (fuel : Nat) (t : BTreeIndex) (lowVal : Int) (lowOp : Operator)
    (highVal : Int) (highOp : Operator) : Res BTreeIndex Unit :=
  (startScanSetup t lowVal lowOp highVal highOp).bind fun _ t7 => recurScan fuel t7

/-- `BTreeIndex::scanNext(outRid)`: the record id returned.  When `nextEntry` is
`-1` the test throws whatever `keyArray[-1]` reads. -/
def scanNext (t : BTreeIndex) : Res BTreeIndex RecordId :=
  if t.scanExecuting = false then .throw .ScanNotInitialized t
  else
    match t.currentPageData with
    | none => .undef
    | some curPage =>
      let cur := t.page curPage
      if cur.keyArray t.nextEntry > t.inclHigh ∨ t.nextEntry = -1 then
        .throw .IndexScanCompleted t
      else
        let outRid := cur.ridArray t.nextEntry
        if t.nextEntry = cur.numKeys - 1 then
          if cur.rightSibPageNo ≠ INVALID_NUMBER then
            let old_page := t.currentPageNum
            (setNextScan t cur.rightSibPageNo).bind fun _ t1 =>
              (t1.unPinPage old_page false).bind fun _ t2 => .ok outRid t2
          else .ok outRid { t with nextEntry := -1 }
        else .ok outRid { t with nextEntry := t.nextEntry + 1 }

/-- The pool of the index is well-formed and holds `n` pins in all. -/
def PB (n : Int) (t : BTreeIndex) : Prop :=
  Inv t.bufMgr ∧ (totalPins t.bufMgr : Int) = n

/-- The insertions of the constructor's build loop, one `insertEntry` per record
of the relation. -/
def insertAll (fuel : Nat) : List (Int × RecordId) → BTreeIndex → Res BTreeIndex Unit
  | [], t => .ok () t
  | (key, rid) :: rest, t => (insertEntry fuel t key rid).bind fun _ t1 => insertAll fuel rest t1

/-- The header fields the constructor writes on the create path:
`relationName`, `attrByteOffset`, `attrType` and `rootPageNo = firstId`. -/
def initMeta (t : BTreeIndex) (metaPage : FrameId) (relationName : String)
    (firstId : PageId) : BTreeIndex :=
  let t3 := t.edit metaPage fun pg => { pg with relationName := relationName }
  let t4 := t3.edit metaPage fun pg => { pg with attrByteOffset := t3.attrByteOffset }
  let t5 := t4.edit metaPage fun pg => { pg with attrType := t4.attributeType }
  t5.edit metaPage fun pg => { pg with rootPageNo := firstId }

/-- The fields of the initial root leaf: `level = -1`,
`rightSibPageNo = Page::INVALID_NUMBER`, `numKeys = 0`. -/
def initRootLeaf (t : BTreeIndex) (rootPage : FrameId) : BTreeIndex :=
  let t11 := t.edit rootPage fun pg => { pg with level := -1 }
  let t12 := t11.edit rootPage fun pg => { pg with rightSibPageNo := INVALID_NUMBER }
  t12.edit rootPage fun pg => { pg with numKeys := 0 }

/-- The constructor `BTreeIndex::BTreeIndex`.  `file` is the index file
`relationName.attrByteOffset`; `found` tells whether `BlobFile(name, false)`
finds it, `firstPageNo` is what `file->getFirstPageNo()` returns then; creating
the file gives a file without pages whose page numbers start at 1.  `leafSize`
and `nodeSize` are `INTARRAYLEAFSIZE` and `INTARRAYNONLEAFSIZE`.  `records` is
what `FileScan` delivers from the relation (its own page reads are not
modelled).  Members the constructor does not assign start as zero, `nullptr`
and, for the promotion channel, the reset values `INVALID_NUMBER` and `0`. -/
def BTreeIndex.new (fuel : Nat) (bufMgr : BufMgr) (file : FileId) (found : Bool)
    (firstPageNo : PageId) (relationName : String) (attrByteOffset : Int) (attrType : Nat)
    (leafSize nodeSize : Int) (records : List (Int × RecordId)) : Res BTreeIndex Unit :=
  let t0 : BTreeIndex :=
    { bufMgr := bufMgr, file := file, headerPageNum := 0, rootPageNum := 0,
      leafOccupancy := leafSize, nodeOccupancy := nodeSize,
      attrByteOffset := attrByteOffset, attributeType := attrType,
      scanExecuting := false, nextEntry := 0, currentPageNum := 0,
      currentPageData := none, lowValInt := 0, highValInt := 0,
      lowOp := .GTE, highOp := .LTE, inclLow := 0, inclHigh := 0,
      newNonLeafNodePageNum := INVALID_NUMBER, newNonLeafNodeKey := 0 }
  let opened : Res BTreeIndex Unit :=
    if found then
      let t1 : BTreeIndex := { t0 with headerPageNum := firstPageNo }
      (t1.readPage t1.headerPageNum).bind fun metaPage t2 =>
        .ok () { t2 with rootPageNum := (t2.page metaPage).rootPageNo }
    else
      let b : BufMgr :=
        { t0.bufMgr with
          disk := Function.update t0.bufMgr.disk file (fun _ => none)
          nextPageNo := Function.update t0.bufMgr.nextPageNo file 1 }
      let t1 : BTreeIndex := { t0 with bufMgr := b }
      t1.allocPage.bind fun a t2 =>
        let firstId := a.1
        .ok () { initMeta t2 a.2 relationName firstId with headerPageNum := firstId }
  opened.bind fun _ t7 =>
    (t7.unPinPage t7.headerPageNum false).bind fun _ t8 =>
      t8.allocPage.bind fun a t9 =>
        let t10 : BTreeIndex := { t9 with rootPageNum := a.1 }
        let t13 := initRootLeaf t10 a.2
        (t13.unPinPage t13.rootPageNum true).bind fun _ t14 =>
          (insertAll fuel records t14).bind fun _ t15 =>
            t15.call (flushFile t15.bufMgr t15.file)

/-- Successive `scanNext` calls that all return. -/
inductive ScanNexts : BTreeIndex → BTreeIndex → Prop where
  | none (t : BTreeIndex) : ScanNexts t t
  | next (t t1 t2 : BTreeIndex) (rid : RecordId) :
      scanNext t = .ok rid t1 → ScanNexts t1 t2 → ScanNexts t t2

/-- A scan positioned in a leaf (read through the pointer `c`) all of whose keys
are below `inclLow` and which has a cached right sibling, while the page the
scan holds pinned is `currentPageNum`. -/
structure LeafGap (t : BTreeIndex) (c : FrameId) : Prop where
  entry : 0 ≤ t.nextEntry ∧ t.nextEntry ≤ (t.page c).numKeys - 1
  below : ∀ i, 0 ≤ i → i < (t.page c).numKeys → (t.page c).keyArray i < t.inclLow
  sibling : (t.page c).rightSibPageNo ≠ INVALID_NUMBER
  cached : ∃ j, t.bufMgr.hashTable t.file (t.page c).rightSibPageNo = some j
  pinned : ∃ j, t.bufMgr.hashTable t.file t.currentPageNum = some j ∧
    0 < (t.bufMgr.bufDescTable j).pinCnt

/-- The page the scan stands on is cached and pinned. -/
def CurPinned (t : BTreeIndex) : Prop :=
  ∃ j, t.bufMgr.hashTable t.file t.currentPageNum = some j ∧
    0 < (t.bufMgr.bufDescTable j).pinCnt

/-! ## Concrete pool states -/

/-- The state an operation leaves behind; the state before it when there is none. -/
def Res.after {σ α : Type} (r : Res σ α) (s : σ) : σ :=
  match r.state? with
  | some s' => s'
  | none => s

/-- A file layer holding pages 1 to 5 of file 0, all zero-filled. -/
def exDisk : FileId → PageId → Option Page :=
  fun f p => if f = 0 ∧ 1 ≤ p ∧ p ≤ 5 then some (Page.zero p) else none

/-- The next page number of every file of `exDisk`. -/
def exNext : FileId → PageId := fun _ => 6

/-- A fresh pool of two frames. -/
def pool2 : BufMgr := BufMgr.fresh 2 exDisk exNext

/-- `readPage(f, 1)` on the fresh pool of two frames. -/
def pool2a : BufMgr := (readPage pool2 0 1).after pool2

/-- Then `readPage(f, 2)`: both frames are valid and pinned. -/
def pool2b : BufMgr := (readPage pool2a 0 2).after pool2a

/-- Then `readPage(f, 1)` again: both frames pinned, both reference bits set. -/
def pool2c : BufMgr := (readPage pool2b 0 1).after pool2b

/-- From `pool2b`: `readPage(f, 3)` (which throws `BufferExceeded`). -/
def pool2d : BufMgr := (readPage pool2b 0 3).after pool2b

/-- Then `unPinPage(f, 2)`. -/
def pool2d1 : BufMgr := (unPinPage pool2d 0 2 false).after pool2d

/-- Then `readPage(f, 2)`. -/
def pool2d2 : BufMgr := (readPage pool2d1 0 2).after pool2d1

/-- Then `unPinPage(f, 2)`: the frame of page 2 is unpinned with its reference
bit set; the frame under the clock hand is pinned with a cleared reference bit. -/
def pool2e : BufMgr := (unPinPage pool2d2 0 2 false).after pool2d2

/-- A page image with number 1 and some content. -/
def exPage : Page := { Page.zero 1 with numKeys := 7 }

/-- From `pool2a`: the holder of the pin rewrites the image of page 1. -/
def pool2w0 : BufMgr := pool2a.setPage 1 exPage

/-- Then `unPinPage(f, 1, true)`: page 1 is cached dirty and unpinned. -/
def pool2w : BufMgr := (unPinPage pool2w0 0 1 true).after pool2w0

/-! ## Concrete index states

Small instances with `INTARRAYLEAFSIZE = 4` and `INTARRAYNONLEAFSIZE = 4` over a
pool of ten frames. -/

/-- A fresh pool of ten frames over a file layer without pages. -/
def pool10 : BufMgr := BufMgr.fresh 10 (fun _ _ => none) (fun _ => 1)

/-- An index object before construction; the fallback of `Res.after`. -/
def blankIndex : BTreeIndex :=
  { bufMgr := pool10, file := 0, headerPageNum := 0, rootPageNum := 0,
    leafOccupancy := 4, nodeOccupancy := 4, attrByteOffset := 0, attributeType := 0,
    scanExecuting := false, nextEntry := 0, currentPageNum := 0,
    currentPageData := none, lowValInt := 0, highValInt := 0,
    lowOp := .GTE, highOp := .LTE, inclLow := 0, inclHigh := 0,
    newNonLeafNodePageNum := INVALID_NUMBER, newNonLeafNodeKey := 0 }

/-- The record id used for key `k` in the examples. -/
def ridOf (k : Nat) : RecordId := ⟨1, k⟩

/-- The records with keys 10, 20, 30, 40, 50. -/
def keys5 : List (Int × RecordId) :=
  [(10, ridOf 10), (20, ridOf 20), (30, ridOf 30), (40, ridOf 40), (50, ridOf 50)]

/-- A freshly created index over an empty relation. -/
def idx0 : BTreeIndex :=
  (BTreeIndex.new 10 pool10 0 false 1 "rel" 0 0 4 4 []).after blankIndex

/-- Then `insertEntry` of the keys 10, 20, 30, 40, 50: the root leaf has split
into the leaves `[10, 20]` (page 2) and `[30, 40, 50]` (page 3) under the root
page 4. -/
def idx5 : BTreeIndex := (insertAll 10 keys5 idx0).after idx0

/-- An index created over a relation holding the keys 10, 20, 30, 40, 50; the
constructor has flushed the index file. -/
def idx5f : BTreeIndex :=
  (BTreeIndex.new 10 pool10 0 false 1 "rel" 0 0 4 4 keys5).after blankIndex

/-- `idx5` after the part of `startScan(25, GTE, 100, LTE)` that precedes
`recurScan`: the root (page 4, frame 2) is pinned. -/
def scanA : BTreeIndex := (startScanSetup idx5 25 .GTE 100 .LTE).after idx5

/-- Then the root is unpinned. -/
def scanA1 : BTreeIndex := (scanA.unPinPage scanA.currentPageNum false).after scanA

/-- Then `setNextScan` of the left child, the leaf `[10, 20]` (page 2, frame 0). -/
def scanB : BTreeIndex :=
  (setNextScan scanA1 ((scanA1.page 2).pageNoArray scanA1.nextEntry)).after scanA1

/-- `idx5f` after `insertEntry(35)`: the key went into the non-root leaf page 3. -/
def idx5g : BTreeIndex := (insertEntry 10 idx5f 35 (ridOf 35)).after idx5f

/-- Then the index file is flushed. -/
def idx5h : BTreeIndex := (idx5g.call (flushFile idx5g.bufMgr idx5g.file)).after idx5g

/-- `idx5` after `insertEntry(35)`: the leaf page 3 is full. -/
def idx6 : BTreeIndex := (insertEntry 10 idx5 35 (ridOf 35)).after idx5

/-- Then `insertEntry(36)`, which splits the non-root leaf page 3. -/
def idx7 : BTreeIndex := (insertEntry 10 idx6 36 (ridOf 36)).after idx6

/-- `idx5` after `startScan(30, GTE, 100, LTE)`: the scan stands on entry 0 of
the leaf `[30, 40, 50]` (page 3). -/
def scanC : BTreeIndex := (startScan 20 idx5 30 .GTE 100 .LTE).after idx5

/-- Then one `scanNext`. -/
def scanC1 : BTreeIndex := (scanNext scanC).after scanC

/-- Then a second `scanNext`. -/
def scanC2 : BTreeIndex := (scanNext scanC1).after scanC1

/-! ## Reading the tree -/

/-- The current image of page `p` of the index file: the frame that caches it,
else the stored page. -/
def BTreeIndex.image (t : BTreeIndex) (p : PageId) : Option Page :=
  match t.bufMgr.hashTable t.file p with
  | some k => some (t.bufMgr.bufPool k)
  | none => t.bufMgr.disk t.file p

/-- The populated entries `keyArray[0..numKeys)` of a leaf with their rids. -/
def leafEntries (pg : Page) : List (Int × RecordId) :=
  (List.range pg.numKeys.toNat).map fun i => (pg.keyArray (i : Int), pg.ridArray (i : Int))

/-- The leftmost leaf below page `p`: `pageNoArray[0]` is followed down to a
leaf, within `n` levels. -/
def leftmostLeaf : Nat → BTreeIndex → PageId → Option PageId
  | 0, _, _ => none
  | n + 1, t, p =>
    match t.image p with
    | none => none
    | some pg => if isLeaf pg then some p else leftmostLeaf n t (pg.pageNoArray 0)

/-- The leaves met by following `rightSibPageNo` from page `p` up to
`INVALID_NUMBER`, each with its entries; `none` when the walk does not end
within `n` steps. -/
def leafChain : Nat → BTreeIndex → PageId → Option (List (PageId × List (Int × RecordId)))
  | 0, _, _ => none
  | n + 1, t, p =>
    if p = INVALID_NUMBER then some []
    else
      match t.image p with
      | none => none
      | some pg =>
        (leafChain n t pg.rightSibPageNo).map fun rest => (p, leafEntries pg) :: rest

/-- The keys of a leaf chain in the order of the walk. -/
def chainKeys (l : List (PageId × List (Int × RecordId))) : List Int :=
  (l.flatMap Prod.snd).map Prod.fst

/-- The constructor `BTreeIndex::BTreeIndex` up to, and without, the final
`bufMgr->flushFile(file)`; the parameters are those of `BTreeIndex.new`. -/
def BTreeIndex.build (fuel : Nat) (bufMgr : BufMgr) (file : FileId) (found : Bool)
    (firstPageNo : PageId) (relationName : String) (attrByteOffset : Int) (attrType : Nat)
    (leafSize nodeSize : Int) (records : List (Int × RecordId)) : Res BTreeIndex Unit :=
  let t0 : BTreeIndex :=
    { bufMgr := bufMgr, file := file, headerPageNum := 0, rootPageNum := 0,
      leafOccupancy := leafSize, nodeOccupancy := nodeSize,
      attrByteOffset := attrByteOffset, attributeType := attrType,
      scanExecuting := false, nextEntry := 0, currentPageNum := 0,
      currentPageData := none, lowValInt := 0, highValInt := 0,
      lowOp := .GTE, highOp := .LTE, inclLow := 0, inclHigh := 0,
      newNonLeafNodePageNum := INVALID_NUMBER, newNonLeafNodeKey := 0 }
  let opened : Res BTreeIndex Unit :=
    if found then
      let t1 : BTreeIndex := { t0 with headerPageNum := firstPageNo }
      (t1.readPage t1.headerPageNum).bind fun metaPage t2 =>
        .ok () { t2 with rootPageNum := (t2.page metaPage).rootPageNo }
    else
      let b : BufMgr :=
        { t0.bufMgr with
          disk := Function.update t0.bufMgr.disk file (fun _ => none)
          nextPageNo := Function.update t0.bufMgr.nextPageNo file 1 }
      let t1 : BTreeIndex := { t0 with bufMgr := b }
      t1.allocPage.bind fun a t2 =>
        let firstId := a.1
        .ok () { initMeta t2 a.2 relationName firstId with headerPageNum := firstId }
  opened.bind fun _ t7 =>
    (t7.unPinPage t7.headerPageNum false).bind fun _ t8 =>
      t8.allocPage.bind fun a t9 =>
        let t10 : BTreeIndex := { t9 with rootPageNum := a.1 }
        let t13 := initRootLeaf t10 a.2
        (t13.unPinPage t13.rootPageNum true).bind fun _ t14 =>
          insertAll fuel records t14

/-! ## Further concrete states -/

/-- Nine records: the keys 0, 10, 30, 40, 50, -10, -5, -7, 5, the rid slot being
the position in the sequence. -/
def keys9 : List (Int × RecordId) :=
  [(0, ridOf 1), (10, ridOf 2), (30, ridOf 3), (40, ridOf 4), (50, ridOf 5),
    (-10, ridOf 6), (-5, ridOf 7), (-7, ridOf 8), (5, ridOf 9)]

/-- The fresh index after `insertEntry` of the records of `keys9`.  After the
first seven the leaves are `[-10, -5, 0, 10]` (page 2) and `[30, 40, 50]`
(page 3) under the root page 4; `insertEntry(-7)` splits page 2 into
`[-10, -7, -5]` and the new leaf `[0, 10]` (page 5); `insertEntry(5)` follows. -/
def idx9 : BTreeIndex := (insertAll 10 keys9 idx0).after idx0

/-- `idx5` after `insertEntry(30)` with a second rid: a duplicate of the key
that separates the two leaves. -/
def idx5d : BTreeIndex := (insertEntry 10 idx5 30 (ridOf 31)).after idx5

/-- The constructor on the create path over an empty relation, before its final
flush. -/
def idx0b : BTreeIndex :=
  (BTreeIndex.build 10 pool10 0 false 1 "rel" 0 0 4 4 []).after blankIndex

/-- `idx5` after a flush of the index file. -/
def idx5z : BTreeIndex := (idx5.call (flushFile idx5.bufMgr idx5.file)).after idx5

/-- An existing index file: the pages that the construction of `idx5f` left on
disk, with a header page 1 that names the root page 4. -/
def disk14 : FileId → PageId → Option Page :=
  Function.update idx5f.bufMgr.disk 0
    (Function.update (idx5f.bufMgr.disk 0) 1
      (some { Page.zero 1 with relationName := "rel", rootPageNo := 4 }))

/-- A fresh pool of ten frames over `disk14`; the next page of the file is 5. -/
def pool14 : BufMgr := BufMgr.fresh 10 disk14 idx5f.bufMgr.nextPageNo

/-- The constructor on the open path over `disk14`, the relation being empty. -/
def idx14 : BTreeIndex :=
  (BTreeIndex.new 10 pool14 0 true 1 "rel" 0 0 4 4 []).after blankIndex

/-- The constructor on the open path over `disk14`, the relation holding the
records of `keys5`. -/
def idx14r : BTreeIndex :=
  (BTreeIndex.new 10 pool14 0 true 1 "rel" 0 0 4 4 keys5).after blankIndex

/-- `idx5` after the part of `startScan(25, GTE, 27, LTE)` that precedes
`recurScan`: the root (page 4, frame 2) is pinned. -/
def scanD : BTreeIndex := (startScanSetup idx5 25 .GTE 27 .LTE).after idx5

/-- Then the root is unpinned. -/
def scanD1 : BTreeIndex := (scanD.unPinPage scanD.currentPageNum false).after scanD

/-- Then `setNextScan` of the left child, the leaf `[10, 20]` (page 2, frame 0). -/
def scanE : BTreeIndex :=
  (setNextScan scanD1 ((scanD1.page 2).pageNoArray scanD1.nextEntry)).after scanD1

/-- From `pool2e`: `unPinPage(f, 1)`.  Frame 1 (page 1), under the clock hand,
is unpinned with a cleared reference bit; frame 0 (page 2) is unpinned with its
reference bit set. -/
def pool2f : BufMgr := (unPinPage pool2e 0 1 false).after pool2e

/-- Then `readPage(f, 3)`. -/
def pool2g : BufMgr := (readPage pool2f 0 3).after pool2f

/-- `idx5` after `insertEntry(20)` with a second rid. -/
def idx5e : BTreeIndex := (insertEntry 10 idx5 20 (ridOf 21)).after idx5

/-- Then `startScan(20, GTE, 20, LTE)`. -/
def scanF : BTreeIndex := (startScan 20 idx5e 20 .GTE 20 .LTE).after idx5e

/-- Then one `scanNext`. -/
def scanF1 : BTreeIndex := (scanNext scanF).after scanF

/-- The exceptions raised by the buffer manager and the file layer below it. -/
def Exn.ofBuffer : Exn → Bool
  | .BufferExceeded => true
  | .PageNotPinned => true
  | .PagePinned => true
  | .BadBuffer => true
  | .HashNotFound => true
  | .HashAlreadyPresent => true
  | .InvalidPage => true
  | _ => false

/-- `idx5` after `startScan(1, GTE, 5, LTE)`, which throws NoSuchKeyFound. -/
def scanH : BTreeIndex := (startScan 20 idx5 1 .GTE 5 .LTE).after idx5

/-- `idx5` after `startScan(10, GTE, 100, LTE)`: the scan stands on entry 0 of
the leaf `[10, 20]` (page 2, frame 0). -/
def scanG : BTreeIndex := (startScan 20 idx5 10 .GTE 100 .LTE).after idx5

/-- Then one `scanNext`: the scan stands on the last entry of the leaf. -/
def scanG1 : BTreeIndex := (scanNext scanG).after scanG

/-! ## Concrete states for the splits -/

/-- Fourteen records: the keys 10 to 90 ascending, then 31, 32, 33, 51, 52. -/
def keysFull : List (Int × RecordId) :=
  [(10, ridOf 10), (20, ridOf 20), (30, ridOf 30), (40, ridOf 40), (50, ridOf 50),
    (60, ridOf 60), (70, ridOf 70), (80, ridOf 80), (90, ridOf 90), (31, ridOf 31),
    (32, ridOf 32), (33, ridOf 33), (51, ridOf 51), (52, ridOf 52)]

/-- The fresh index after `insertEntry` of the records of `keysFull`: the root
(page 4) is a full non-leaf with the keys `[30, 32, 50, 70]` over the leaves
page 2, 3, 7, 5, 6, and the leaf page 5 is full (`[50, 51, 52, 60]`). -/
def idxFull : BTreeIndex := (insertAll 10 keysFull idx0).after idx0

/-- Then `insertEntry(53)`: the leaf page 5 splits (new leaf page 8, promoted key
52) and the full root is split (new node page 9). -/
def idxSplit : BTreeIndex := (insertEntry 10 idxFull 53 (ridOf 53)).after idxFull

/-- Ten records with the keys 10 to 100 ascending. -/
def keysAsc : List (Int × RecordId) :=
  [(10, ridOf 10), (20, ridOf 20), (30, ridOf 30), (40, ridOf 40), (50, ridOf 50),
    (60, ridOf 60), (70, ridOf 70), (80, ridOf 80), (90, ridOf 90), (100, ridOf 100)]

/-- The fresh index after `insertEntry` of the records of `keysAsc`: the root
(page 4) has the keys `[30, 50, 70]` and the rightmost leaf page 6 is full. -/
def idxAsc : BTreeIndex := (insertAll 10 keysAsc idx0).after idx0

/-- Then `insertEntry(110)`, which splits the leaf page 6. -/
def idxAsc1 : BTreeIndex := (insertEntry 10 idxAsc 110 (ridOf 110)).after idxAsc

/-- The fresh index after the first seven records of `keys9`: the leaf page 2
is full (`[-10, -5, 0, 10]`). -/
def idx9a : BTreeIndex := (insertAll 10 (keys9.take 7) idx0).after idx0

/-- Then `insertEntry(-7)`, which splits the leaf page 2. -/
def idx9b : BTreeIndex := (insertEntry 10 idx9a (-7) (ridOf 8)).after idx9a

/-- `idx5` after the part of `startScan(20, GT, 40, LT)` that precedes
`recurScan`: the root (page 4, frame 2) is pinned. -/
def scanI : BTreeIndex := (startScanSetup idx5 20 .GT 40 .LT).after idx5

/-- Then the root is unpinned. -/
def scanI1 : BTreeIndex := (scanI.unPinPage scanI.currentPageNum false).after scanI

/-- Then `setNextScan` of the left child, the leaf `[10, 20]` (page 2, frame 0). -/
def scanJ : BTreeIndex :=
  (setNextScan scanI1 ((scanI1.page 2).pageNoArray scanI1.nextEntry)).after scanI1

/-- The pool after `allocBuf` in `pool2c`. -/
def pool2h : BufMgr := (allocBuf pool2c).after pool2c

/-- The keys `keyArray[0..numKeys)` of a node. -/
def nodeKeys (pg : Page) : List Int :=
  (List.range pg.numKeys.toNat).map fun (i : Nat) => pg.keyArray (i : Int)

/-- The child pointers `pageNoArray[0..numKeys]` of a non-leaf. -/
def nodeChildren (pg : Page) : List PageId :=
  (List.range (pg.numKeys.toNat + 1)).map fun (i : Nat) => pg.pageNoArray (i : Int)

/-- The entries `keyArray[0..n)` of a page are sorted ascending. -/
def LeafSorted (pg : Page) (n : Int) : Prop :=
  ∀ x y, 0 ≤ x → x ≤ y → y < n → pg.keyArray x ≤ pg.keyArray y

/-- The last branch of the search loop of `findIndexAndInsertLeaf` at index `i`:
the entries from slot `i` on move one slot up and the new pair is stored in
slot `i`. -/
def shiftInsert (cur : Page) (i : Int) (key : Int) (rid : RecordId) : Page :=
  let cur1 := shiftLeaf (cur.numKeys - i).toNat (cur.numKeys - 1) cur
  { cur1 with
    keyArray := Function.update cur1.keyArray i key
    ridArray := Function.update cur1.ridArray i rid
    numKeys := cur1.numKeys + 1 }

/-- One iteration of the move loop of the leaf branch of `split` (the body of
`splitLeafMove`) at index `i`. -/
def splitLeafStep (i mid : Int) (c nw : FrameId) (t : BTreeIndex) : BTreeIndex :=
  let t1 := t.edit nw fun pg =>
    { pg with keyArray := Function.update pg.keyArray (i - mid) ((t.page c).keyArray i) }
  let t2 := t1.edit c fun pg => { pg with keyArray := Function.update pg.keyArray i 0 }
  let t3 := t2.edit nw fun pg =>
    { pg with ridArray := Function.update pg.ridArray (i - mid) ((t2.page c).ridArray i) }
  let t4 := t3.edit c fun pg =>
    { pg with
      ridArray := Function.update pg.ridArray i { pg.ridArray i with page_number := 0 } }
  let t5 := t4.edit nw fun pg => { pg with numKeys := pg.numKeys + 1 }
  t5.edit c fun pg => { pg with numKeys := pg.numKeys - 1 }

/-- Inside `insertEntry(36)` on `idx6`: the root (page 4) has been pinned. -/
def split0 : BTreeIndex := (idx6.readPage idx6.rootPageNum).after idx6

/-- Then the full leaf page 3 (`[30, 35, 40, 50]`, frame 1) has been pinned. -/
def split1 : BTreeIndex := (split0.readPage 3).after split0

/-- Then `split` has allocated the new leaf page 5 (frame 4). -/
def split2 : BTreeIndex := split1.allocPage.after split1

/-! ## The unassigned frame number and the 32-bit pin count -/

/-- `BufMgr::readPage` with `v` the value its local `frameNo` holds when
`allocBuf` is called.  `allocBuf` assigns its out-parameter on two of its paths
only, and the code after the call writes through `frameNo` whichever path was
taken; on the other paths the frame written to is the one `v` names. -/
def readPageFrom (v : FrameId) (s : BufMgr) (file : FileId) (pageNo : PageId) :
    Res BufMgr FrameId :=
  match s.hashTable file pageNo with
  | some frameNo =>
    let d := s.bufDescTable frameNo
    .ok frameNo (s.setDesc frameNo { d with refbit := true, pinCnt := d.pinCnt + 1 })
  | none =>
    match allocBuf s with
    | .ok fr s1 =>
      let frameNo := fr.getD v
      match s1.disk file pageNo with
      | none => .throw .InvalidPage s1
      | some pg =>
        let s2 := s1.setPage frameNo pg
        match s2.hashTable file pageNo with
        | some _ => .throw .HashAlreadyPresent s2
        | none =>
          let s3 := s2.hashInsert file pageNo frameNo
          .ok frameNo (s3.setDesc frameNo ((s3.bufDescTable frameNo).Set file pageNo))
    | .throw e s1 => .throw e s1
    | .undef => .undef
    | .nofuel => .nofuel

/-- Modelled from the spec: the range of `BufDesc::pinCnt` (declared in
`buffer.h`, which is not among the sources; the spec has `pinCnt` (u32)): the
counter takes the values below `2^32`. -/
def pinCntModulus : Nat := 4294967296

/-- `BufMgr::readPage` with the pin count as that 32-bit unsigned counter:
`pinCnt += 1` on a count of `2^32 - 1` gives 0.  Below that count it is
`readPage`. -/
def readPage32 (s : BufMgr) (file : FileId) (pageNo : PageId) : Res BufMgr FrameId :=
  match s.hashTable file pageNo with
  | some frameNo =>
    let d := s.bufDescTable frameNo
    .ok frameNo
      (s.setDesc frameNo { d with refbit := true, pinCnt := (d.pinCnt + 1) % pinCntModulus })
  | none =>
    match allocBuf s with
    | .ok (some frameNo) s1 =>
      match s1.disk file pageNo with
      | none => .throw .InvalidPage s1
      | some pg =>
        let s2 := s1.setPage frameNo pg
        match s2.hashTable file pageNo with
        | some _ => .throw .HashAlreadyPresent s2
        | none =>
          let s3 := s2.hashInsert file pageNo frameNo
          .ok frameNo (s3.setDesc frameNo ((s3.bufDescTable frameNo).Set file pageNo))
    | .ok none _ => .undef
    | .throw e s1 => .throw e s1
    | .undef => .undef
    | .nofuel => .nofuel

/-- The pool `pool2a` after `n` more calls `readPage(f, 1)`: page 1 is cached in
frame 1 and pinned `n + 1` times. -/
def pool2n : Nat → BufMgr
  | 0 => pool2a
  | n + 1 => (pool2n n).pin 1

/-- Page 1 pinned `2^32 - 1` times. -/
def pool2m : BufMgr := pool2n 4294967294

/-- The leaf view of two page images is the same. -/
def SameLeaf (p q : Page) : Prop :=
  q.numKeys = p.numKeys ∧ q.keyArray = p.keyArray ∧ q.ridArray = p.ridArray ∧
    q.level = p.level ∧ q.rightSibPageNo = p.rightSibPageNo

/-- The records with keys 10, 20, 30, 40. -/
def keys4 : List (Int × RecordId) :=
  [(10, ridOf 10), (20, ridOf 20), (30, ridOf 30), (40, ridOf 40)]

/-- The index `idx0` after `insertEntry` of the keys 10, 20, 30, 40: the root
is the full leaf `[10, 20, 30, 40]`. -/
def idx4 : BTreeIndex := (insertAll 10 keys4 idx0).after idx0

/-- Inside `insertEntry(50)` on `idx4`: the root leaf has been pinned. -/
def rsplit0 : BTreeIndex := (idx4.readPage idx4.rootPageNum).after idx4

/-- Then `split` of the root leaf (page 2, frame 0) with the pending key 50. -/
def rsplit1 : BTreeIndex :=
  (split rsplit0 true 0 2 50 (ridOf 50)).after rsplit0

/-! ## The buffer manager keeps the pool well-formed -/

theorem inv_fresh (bufs : Nat) (h : 1 ≤ bufs) (disk : FileId → PageId → Option Page)
    (next : FileId → PageId) (hd : ∀ f p pg, disk f p = some pg → pg.page_number = p) :
    Inv (BufMgr.fresh bufs disk next) := by
  refine ⟨?_, ?_, ?_, ?_, ?_, hd⟩
  · show bufs - 1 < bufs
    omega
  · intro k _ _; simp [BufMgr.fresh]
  · intro f p k; simp [BufMgr.fresh]
  · intro k _ hv; simp [BufMgr.fresh] at hv
  · intro k _ hv; simp [BufMgr.fresh] at hv

/-- Changing only the reference bit, pin count or dirty bit of a frame. -/
theorem inv_setDesc (s : BufMgr) (hs : Inv s) (k : FrameId) (d : BufDesc)
    (hv : d.valid = (s.bufDescTable k).valid) (hf : d.file = (s.bufDescTable k).file)
    (hp : d.valid = true → d.pageNo = (s.bufDescTable k).pageNo)
    (hc : d.valid = false → d.pinCnt = 0 ∧ d.dirty = false) :
    Inv (s.setDesc k d) := by
  refine ⟨hs.hand, ?_, ?_, ?_, ?_, hs.disk⟩
  · intro j hj hjv
    by_cases hjk : j = k
    · subst hjk
      simp [BufMgr.setDesc] at hjv ⊢
      have := hs.clear j hj (hv ▸ hjv)
      exact ⟨hf ▸ this.1, hc hjv⟩
    · simp [BufMgr.setDesc, Function.update_noteq hjk] at hjv ⊢
      exact hs.clear j hj hjv
  · intro f p j
    by_cases hjk : j = k
    · subst hjk
      simp only [BufMgr.setDesc, Function.update_same]
      rw [hs.hash f p j, hf]
      by_cases hdv : d.valid = true
      · rw [← hv, hp hdv]
      · have hdv' : d.valid = false := by simpa using hdv
        rw [← hv]; simp [hdv']
    · simp [BufMgr.setDesc, Function.update_noteq hjk]
      exact hs.hash f p j
  · intro j hj hjv
    by_cases hjk : j = k
    · subst hjk
      simp [BufMgr.setDesc] at hjv ⊢
      rw [hf]; exact hs.file j hj (hv ▸ hjv)
    · simp [BufMgr.setDesc, Function.update_noteq hjk] at hjv ⊢
      exact hs.file j hj hjv
  · intro j hj hjv
    by_cases hjk : j = k
    · subst hjk
      simp [BufMgr.setDesc] at hjv ⊢
      rw [hp hjv]; exact hs.pageno j hj (hv ▸ hjv)
    · simp [BufMgr.setDesc, Function.update_noteq hjk] at hjv ⊢
      exact hs.pageno j hj hjv

theorem inv_advanceClock (s : BufMgr) (hs : Inv s) : Inv (advanceClock s) := by
  refine ⟨?_, hs.clear, hs.hash, hs.file, hs.pageno, hs.disk⟩
  have : 0 < s.numBufs := Nat.lt_of_le_of_lt (Nat.zero_le _) hs.hand
  exact Nat.mod_lt _ this

theorem inv_writePage (s : BufMgr) (hs : Inv s) (f : FileId) (pg : Page) :
    Inv (s.writePage f pg) := by
  refine ⟨hs.hand, hs.clear, hs.hash, hs.file, hs.pageno, ?_⟩
  intro f' p' pg' h
  simp only [BufMgr.writePage] at h
  by_cases hf : f' = f
  · subst hf
    by_cases hp : p' = pg.page_number
    · subst hp; simp at h; rw [← h]
    · simp [Function.update_noteq hp] at h; exact hs.disk _ _ _ h
  · simp [Function.update_noteq hf] at h; exact hs.disk _ _ _ h

/-- Evicting the valid frame `k`: its table entry is removed and the descriptor cleared. -/
theorem inv_evict (s : BufMgr) (hs : Inv s) (k : FrameId) (hk : k < s.numBufs)
    (f : FileId) (hv : (s.bufDescTable k).valid = true)
    (hf : (s.bufDescTable k).file = some f) (p : PageId)
    (hp : (s.bufDescTable k).pageNo = p) :
    Inv ((s.hashRemove f p).setDesc k ((s.hashRemove f p).bufDescTable k).Clear) := by
  subst hp
  refine ⟨hs.hand, ?_, ?_, ?_, ?_, hs.disk⟩
  · intro j hj hjv
    by_cases hjk : j = k
    · subst hjk; simp [BufMgr.setDesc, BufMgr.hashRemove, BufDesc.Clear]
    · simp [BufMgr.setDesc, BufMgr.hashRemove, Function.update_noteq hjk] at hjv ⊢
      exact hs.clear j hj hjv
  · intro f' p' j
    simp only [BufMgr.setDesc, BufMgr.hashRemove]
    by_cases hjk : j = k
    · subst hjk
      simp [BufDesc.Clear]
      by_cases hff : f' = f
      · subst hff
        by_cases hpp : p' = (s.bufDescTable j).pageNo
        · subst hpp; simp
        · simp [Function.update_noteq hpp]
          intro h; exact hpp ((hs.hash _ _ _).1 h).2.2.2.symm
      · simp [Function.update_noteq hff]
        intro h
        have := ((hs.hash _ _ _).1 h).2.2.1
        rw [hf] at this; exact hff (Option.some.inj this).symm
    · simp only [Function.update_noteq hjk]
      rw [← hs.hash f' p' j]
      by_cases hff : f' = f
      · subst hff
        by_cases hpp : p' = (s.bufDescTable k).pageNo
        · subst hpp; simp
          intro h
          have h1 := (hs.hash _ _ _).2 ⟨hk, hv, hf, rfl⟩
          rw [h1] at h; exact absurd (Option.some.inj h).symm hjk
        · simp [Function.update_noteq hpp]
      · simp [Function.update_noteq hff]
  · intro j hj hjv
    by_cases hjk : j = k
    · subst hjk; simp [BufMgr.setDesc, BufMgr.hashRemove, BufDesc.Clear] at hjv
    · simp [BufMgr.setDesc, BufMgr.hashRemove, Function.update_noteq hjk] at hjv ⊢
      exact hs.file j hj hjv
  · intro j hj hjv
    by_cases hjk : j = k
    · subst hjk; simp [BufMgr.setDesc, BufMgr.hashRemove, BufDesc.Clear] at hjv
    · simp [BufMgr.setDesc, BufMgr.hashRemove, Function.update_noteq hjk] at hjv ⊢
      exact hs.pageno j hj hjv

/-- Loading page `(f, p)` into the free frame `k`. -/
theorem inv_install (s : BufMgr) (hs : Inv s) (k : FrameId) (hk : k < s.numBufs)
    (f : FileId) (p : PageId) (pg : Page) (hpg : pg.page_number = p)
    (hv : (s.bufDescTable k).valid = false) (hh : s.hashTable f p = none) :
    Inv (let s3 := (s.setPage k pg).hashInsert f p k
         s3.setDesc k ((s3.bufDescTable k).Set f p)) := by
  refine ⟨hs.hand, ?_, ?_, ?_, ?_, hs.disk⟩
  · intro j hj hjv
    by_cases hjk : j = k
    · subst hjk; simp [BufMgr.setDesc, BufMgr.hashInsert, BufMgr.setPage, BufDesc.Set] at hjv
    · simp [BufMgr.setDesc, BufMgr.hashInsert, BufMgr.setPage, Function.update_noteq hjk] at hjv ⊢
      exact hs.clear j hj hjv
  · intro f' p' j
    simp only [BufMgr.setDesc, BufMgr.hashInsert, BufMgr.setPage]
    by_cases hjk : j = k
    · subst hjk
      simp [BufDesc.Set]
      by_cases hff : f' = f
      · subst hff
        by_cases hpp : p' = p
        · subst hpp; simp [hk]
        · simp [Function.update_noteq hpp]
          constructor
          · intro h
            have := ((hs.hash _ _ _).1 h).2.1
            rw [hv] at this; exact absurd this (by simp)
          · intro h; exact absurd h.2.symm hpp
      · simp [Function.update_noteq hff]
        constructor
        · intro h
          have := ((hs.hash _ _ _).1 h).2.1
          rw [hv] at this; exact absurd this (by simp)
        · intro h; exact absurd h.2.1.symm hff
    · simp only [Function.update_noteq hjk]
      rw [← hs.hash f' p' j]
      by_cases hff : f' = f
      · subst hff
        by_cases hpp : p' = p
        · subst hpp; simp
          constructor
          · intro h; exact absurd h.symm hjk
          · intro h; rw [hh] at h; exact absurd h (by simp)
        · simp [Function.update_noteq hpp]
      · simp [Function.update_noteq hff]
  · intro j hj hjv
    by_cases hjk : j = k
    · subst hjk; simp [BufMgr.setDesc, BufMgr.hashInsert, BufMgr.setPage, BufDesc.Set]
    · simp [BufMgr.setDesc, BufMgr.hashInsert, BufMgr.setPage, Function.update_noteq hjk] at hjv ⊢
      exact hs.file j hj hjv
  · intro j hj hjv
    by_cases hjk : j = k
    · subst hjk; simp [BufMgr.setDesc, BufMgr.hashInsert, BufMgr.setPage, BufDesc.Set, hpg]
    · simp [BufMgr.setDesc, BufMgr.hashInsert, BufMgr.setPage, Function.update_noteq hjk] at hjv ⊢
      exact hs.pageno j hj hjv

theorem frameKept_refl (d : BufDesc) : FrameKept d d :=
  Or.inl ⟨rfl, rfl, rfl, rfl, rfl, id⟩

theorem frameKept_trans {a b c : BufDesc} (h1 : FrameKept a b) (h2 : FrameKept b c) :
    FrameKept a c := by
  rcases h1 with ⟨f1, p1, c1, d1, v1, r1⟩ | ⟨c1, v1⟩
  · rcases h2 with ⟨f2, p2, c2, d2, v2, r2⟩ | ⟨c2, v2⟩
    · exact Or.inl ⟨f2.trans f1, p2.trans p1, c2.trans c1, d2.trans d1, v2.trans v1,
        fun h => r1 (r2 h)⟩
    · exact Or.inr ⟨c1 ▸ c2, v2⟩
  · rcases h2 with ⟨f2, p2, c2, d2, v2, r2⟩ | ⟨c2, v2⟩
    · exact Or.inr ⟨c1, v2.trans v1⟩
    · exact Or.inr ⟨c1, v2⟩

theorem kept_refl (s : BufMgr) : Kept s s :=
  ⟨rfl, rfl, rfl, fun _ _ => frameKept_refl _⟩

theorem kept_trans {a b c : BufMgr} (h1 : Kept a b) (h2 : Kept b c) : Kept a c :=
  ⟨h2.numBufs.trans h1.numBufs, h2.bufPool.trans h1.bufPool,
    h2.nextPageNo.trans h1.nextPageNo,
    fun k hk => frameKept_trans (h1.frames k hk) (h2.frames k (h1.numBufs ▸ hk))⟩

theorem inv_valid_of_file (s : BufMgr) (hs : Inv s) (k : FrameId) (hk : k < s.numBufs)
    (f : FileId) (hf : (s.bufDescTable k).file = some f) : (s.bufDescTable k).valid = true := by
  by_contra h
  have hv : (s.bufDescTable k).valid = false := by simpa using h
  have := (hs.clear k hk hv).1
  rw [hf] at this; exact absurd this (by simp)

/-- Two frames holding the same page are the same frame. -/
theorem inv_unique (s : BufMgr) (hs : Inv s) (j k : FrameId) (hj : j < s.numBufs)
    (hk : k < s.numBufs) (f : FileId) (hfj : (s.bufDescTable j).file = some f)
    (hfk : (s.bufDescTable k).file = some f)
    (hp : (s.bufDescTable j).pageNo = (s.bufDescTable k).pageNo) : j = k := by
  have h1 := (hs.hash f (s.bufDescTable k).pageNo j).2
    ⟨hj, inv_valid_of_file s hs j hj f hfj, hfj, hp⟩
  have h2 := (hs.hash f (s.bufDescTable k).pageNo k).2
    ⟨hk, inv_valid_of_file s hs k hk f hfk, hfk, rfl⟩
  rw [h1] at h2; exact Option.some.inj h2

theorem flushPost_step (f : FileId) (i : Nat) (s s3 : BufMgr) (r : Res BufMgr Unit)
    (hs : Inv s) (hi : i < s.numBufs) (hf : (s.bufDescTable i).file = some f)
    (hpin : (s.bufDescTable i).pinCnt = 0)
    (hN : s3.numBufs = s.numBufs) (hP : s3.bufPool = s.bufPool)
    (hH : s3.clockHand = s.clockHand) (hX : s3.nextPageNo = s.nextPageNo)
    (hD : ∀ k, k ≠ i → s3.bufDescTable k = s.bufDescTable k)
    (hDi : s3.bufDescTable i = (s.bufDescTable i).Clear)
    (hW : (s.bufDescTable i).dirty = true →
      s3.disk f (s.bufDescTable i).pageNo = some (s.bufPool i))
    (hW2 : ∀ f' p', ¬ ((s.bufDescTable i).dirty = true ∧ f' = f ∧
      (s.bufDescTable i).pageNo = p') → s3.disk f' p' = s.disk f' p')
    (h : FlushPost f (i + 1) s3 r) : FlushPost f i s r := by
  have hK : Kept s s3 := by
    refine ⟨hN, hP, hX, ?_⟩
    intro k _
    by_cases hki : k = i
    · subst hki; rw [hDi]; exact Or.inr ⟨hpin, rfl⟩
    · rw [hD k hki]; exact frameKept_refl _
  cases r with
  | ok a s' =>
    obtain ⟨h1, h2, h3, h4, h5, h6, h7⟩ := h
    refine ⟨h1, kept_trans hK h2, h3.trans hH, ?_, ?_, ?_, ?_⟩
    · intro k hik hk hkf
      by_cases hki : k = i
      · subst hki; exact hpin
      · have := h4 k (by omega) (hN ▸ hk) (by rw [hD k hki]; exact hkf)
        rw [hD k hki] at this; exact this
    · intro k hk
      by_cases hki : k = i
      · subst hki
        rw [h5 k (hN ▸ hk), hDi]
        simp [hf]
      · rw [h5 k (hN ▸ hk), hD k hki]
        have : i + 1 ≤ k ↔ i ≤ k := by
          constructor <;> intro h <;> omega
        simp only [this]
    · intro k hik hk hkf hkd
      by_cases hki : k = i
      · subst hki
        rw [h7 f (s.bufDescTable k).pageNo]
        · exact hW hkd
        · intro j hij hj hjf _ hc
          have hji : j ≠ k := by omega
          rw [hD j hji] at hjf hc
          exact hji (inv_unique s hs j k (hN ▸ hj) hk f hjf hkf hc.2)
      · have := h6 k (by omega) (hN ▸ hk) (by rw [hD k hki]; exact hkf)
          (by rw [hD k hki]; exact hkd)
        rw [hD k hki, hP] at this; exact this
    · intro f' p' hall
      rw [h7 f' p']
      · apply hW2
        intro hc
        exact hall i (Nat.le_refl _) hi hf hc.1 ⟨hc.2.1, hc.2.2⟩
      · intro j hij hj hjf hjd
        have hji : j ≠ i := by omega
        rw [hD j hji] at hjf hjd ⊢
        exact hall j (by omega) (hN ▸ hj) hjf hjd
  | throw e s' =>
    obtain ⟨h1, h2, h3, h4, k, hk1, hk2, hk3, hk4⟩ := h
    have hki : k ≠ i := by omega
    rw [hD k hki] at hk3 hk4
    exact ⟨h1, kept_trans hK h2, h3.trans hH, h4, k, by omega, hN ▸ hk2, hk3, hk4⟩
  | undef => exact h
  | nofuel => exact h

theorem flushFileLoop_spec (f : FileId) : ∀ (n i : Nat) (s : BufMgr), Inv s →
    i + n = s.numBufs → FlushPost f i s (flushFileLoop f n i s) := by
  intro n
  induction n with
  | zero =>
    intro i s hs hin
    rw [flushFileLoop, FlushPost]
    refine ⟨hs, kept_refl s, rfl, ?_, ?_, ?_, ?_⟩
    · intro k h1 h2; omega
    · intro k hk
      have : ¬ (i ≤ k ∧ (s.bufDescTable k).file = some f) := by
        intro h; omega
      simp [this]
    · intro k h1 h2; omega
    · intro f' p' _; rfl
  | succ n ih =>
    intro i s hs hin
    have hi : i < s.numBufs := by omega
    rw [flushFileLoop]
    by_cases hf : (s.bufDescTable i).file = some f
    · simp only []
      rw [if_pos hf]
      by_cases hpin : (s.bufDescTable i).pinCnt > 0
      · rw [if_pos hpin, FlushPost]
        exact ⟨hs, kept_refl s, rfl, rfl, i, Nat.le_refl _, hi, hf, hpin⟩
      · rw [if_neg hpin]
        have hpin0 : (s.bufDescTable i).pinCnt = 0 := by omega
        have hv := inv_valid_of_file s hs i hi f hf
        rw [if_neg (by simp [hv])]
        have hlook : s.hashTable f (s.bufDescTable i).pageNo = some i :=
          (hs.hash _ _ _).2 ⟨hi, hv, hf, rfl⟩
        by_cases hd : (s.bufDescTable i).dirty = true
        · rw [if_pos hd]
          have hs1 : Inv ((s.writePage f (s.bufPool i)).setDesc i
              { s.bufDescTable i with dirty := false }) := by
            apply inv_setDesc _ (inv_writePage s hs f _) <;> simp [BufMgr.writePage, hpin0]
          have hev := inv_evict _ hs1 i hi f (by simp [BufMgr.setDesc, hv])
            (by simp [BufMgr.setDesc, hf]) (s.bufDescTable i).pageNo (by simp [BufMgr.setDesc])
          have hpn := hs.pageno i hi hv
          split
          · next hnone =>
            exfalso
            have : s.hashTable f (s.bufDescTable i).pageNo = none := hnone
            rw [hlook] at this; exact absurd this (by simp)
          · next val hsome =>
            refine flushPost_step f i s _ _ hs hi hf hpin0 ?_ ?_ ?_ ?_ ?_ ?_ ?_ ?_
              (ih _ _ hev (by
                simp only [BufMgr.setDesc, BufMgr.hashRemove, BufMgr.writePage]; omega))
            · rfl
            · rfl
            · rfl
            · rfl
            · intro k hk
              simp [BufMgr.setDesc, BufMgr.hashRemove, BufMgr.writePage, Function.update_noteq hk]
            · simp [BufMgr.setDesc, BufMgr.hashRemove, BufMgr.writePage, BufDesc.Clear]
            · intro _
              simp [BufMgr.setDesc, BufMgr.hashRemove, BufMgr.writePage, hpn]
            · intro f' p' hc
              simp only [BufMgr.setDesc, BufMgr.hashRemove, BufMgr.writePage]
              by_cases hff : f' = f
              · subst hff
                have hpp : p' ≠ (s.bufPool i).page_number := by
                  intro h; apply hc; exact ⟨hd, rfl, by rw [h, hpn]⟩
                simp [Function.update_noteq hpp]
              · simp [Function.update_noteq hff]
        · rw [if_neg hd]
          have hev := inv_evict s hs i hi f hv hf _ rfl
          split
          · next hnone =>
            exfalso
            rw [hlook] at hnone; exact absurd hnone (by simp)
          · next val hsome =>
            refine flushPost_step f i s _ _ hs hi hf hpin0 ?_ ?_ ?_ ?_ ?_ ?_ ?_ ?_
              (ih _ _ hev (by simp only [BufMgr.setDesc, BufMgr.hashRemove]; omega))
            · rfl
            · rfl
            · rfl
            · rfl
            · intro k hk
              simp [BufMgr.setDesc, BufMgr.hashRemove, Function.update_noteq hk]
            · simp [BufMgr.setDesc, BufMgr.hashRemove, BufDesc.Clear]
            · intro h; exact absurd h hd
            · intro f' p' _; rfl
    · simp only []
      rw [if_neg hf]
      have h := ih (i + 1) s hs (by omega)
      cases hr : flushFileLoop f n (i + 1) s with
      | ok a s' =>
        rw [hr] at h
        obtain ⟨h1, h2, h3, h4, h5, h6, h7⟩ := h
        refine ⟨h1, h2, h3, ?_, ?_, ?_, ?_⟩
        · intro k hik hk hkf
          have hki : k ≠ i := by intro h; subst h; exact hf hkf
          exact h4 k (by omega) hk hkf
        · intro k hk
          rw [h5 k hk]
          by_cases hki : k = i
          · subst hki; simp [hf]
          · have : i + 1 ≤ k ↔ i ≤ k := by
              constructor <;> intro h <;> omega
            simp only [this]
        · intro k hik hk hkf hkd
          have hki : k ≠ i := by intro h; subst h; exact hf hkf
          exact h6 k (by omega) hk hkf hkd
        · intro f' p' hall
          apply h7
          intro k hik hk hkf hkd
          exact hall k (by omega) hk hkf hkd
      | throw e s' =>
        rw [hr] at h
        obtain ⟨h1, h2, h3, h4, k, hk1, hk2, hk3, hk4⟩ := h
        exact ⟨h1, h2, h3, h4, k, by omega, hk2, hk3, hk4⟩
      | undef => rw [hr] at h; exact h
      | nofuel => rw [hr] at h; exact h

theorem flushFile_spec (f : FileId) (s : BufMgr) (hs : Inv s) :
    FlushPost f 0 s (flushFile s f) :=
  flushFileLoop_spec f s.numBufs 0 s hs (by omega)

theorem allocPost_trans (s s1 : BufMgr) (r : Res BufMgr (Option FrameId × Nat))
    (h : AllocPost s1 r) (hK : Kept s s1)
    (hF : ∀ k, (s1.bufDescTable k).file = (s.bufDescTable k).file)
    (hD : s1.disk = s.disk) : AllocPost s r := by
  cases r with
  | ok a s' =>
    obtain ⟨h1, h2, h3, h4⟩ := h
    refine ⟨h1, kept_trans hK h2, ?_, ?_⟩
    · intro k hk
      have := h3 k hk
      exact ⟨this.1, hK.numBufs ▸ this.2.1, this.2.2⟩
    · intro f p hall
      rw [h4 f p, hD]
      intro k hk
      rw [hF k]
      exact hall k (hK.numBufs ▸ hk)
  | throw e s' =>
    obtain ⟨h1, h2, h3⟩ := h
    exact ⟨h1, kept_trans hK h2, h3⟩
  | undef => exact h
  | nofuel => exact h

theorem allocBufLoop_spec : ∀ (n pc : Nat) (s : BufMgr), Inv s →
    AllocPost s (allocBufLoop n pc s) := by
  intro n
  induction n with
  | zero =>
    intro pc s hs
    rw [allocBufLoop, AllocPost]
    exact ⟨hs, kept_refl s, fun k hk => absurd hk (by simp), fun _ _ _ => rfl⟩
  | succ n ih =>
    intro pc s hs
    have hh := hs.hand
    rw [allocBufLoop]
    by_cases hv : (s.bufDescTable s.clockHand).valid = false
    · rw [if_pos hv, AllocPost]
      have hc := hs.clear _ hh hv
      refine ⟨?_, ?_, ?_, fun _ _ _ => rfl⟩
      · apply inv_setDesc s hs <;> simp [BufDesc.Clear, hv, hc.1]
      · refine ⟨rfl, rfl, rfl, ?_⟩
        intro k _
        by_cases hk : k = s.clockHand
        · subst hk
          simp only [BufMgr.setDesc, Function.update_same]
          exact Or.inr ⟨hc.2.1, rfl⟩
        · simp only [BufMgr.setDesc, Function.update_noteq hk]
          exact frameKept_refl _
      · intro k hk
        have : k = s.clockHand := (Option.some.inj hk).symm
        subst this
        exact ⟨rfl, hh, by simp [BufMgr.setDesc, BufDesc.Clear]⟩
    · rw [if_neg hv]
      have hv' : (s.bufDescTable s.clockHand).valid = true := by simpa using hv
      by_cases hr : (s.bufDescTable s.clockHand).refbit = true
      · rw [if_pos hr]
        have hs1 : Inv (s.setDesc s.clockHand
            { s.bufDescTable s.clockHand with refbit := false }) := by
          apply inv_setDesc s hs <;> simp [hv']
        refine allocPost_trans s _ _ (ih pc _ (inv_advanceClock _ hs1)) ?_ ?_ rfl
        rotate_left
        · intro k
          by_cases hk : k = s.clockHand
          · subst hk; simp only [advanceClock, BufMgr.setDesc, Function.update_same]
          · simp only [advanceClock, BufMgr.setDesc, Function.update_noteq hk]
        refine ⟨rfl, rfl, rfl, ?_⟩
        intro k _
        by_cases hk : k = s.clockHand
        · subst hk
          simp only [advanceClock, BufMgr.setDesc, Function.update_same]
          exact Or.inl ⟨rfl, rfl, rfl, rfl, rfl, fun h => absurd h (by simp)⟩
        · simp only [advanceClock, BufMgr.setDesc, Function.update_noteq hk]
          exact frameKept_refl _
      · rw [if_neg hr]
        by_cases hp : (s.bufDescTable s.clockHand).pinCnt > 0
        · rw [if_pos hp]
          refine allocPost_trans s _ _ (ih (pc + 1) _ (inv_advanceClock _ hs)) ?_
            (fun _ => rfl) rfl
          exact ⟨rfl, rfl, rfl, fun k _ => frameKept_refl _⟩
        · rw [if_neg hp]
          obtain ⟨f, hf⟩ := hs.file _ hh hv'
          rw [hf]
          simp only []
          have hfl := flushFile_spec f s hs
          cases hres : flushFile s f with
          | ok a s1 =>
            rw [hres] at hfl
            obtain ⟨h1, h2, h3, _, h5, _, h7⟩ := hfl
            refine ⟨h1, h2, ?_, ?_⟩
            · intro k hk
              have : k = s1.clockHand := (Option.some.inj hk).symm
              subst this
              refine ⟨rfl, h3 ▸ hh, ?_⟩
              rw [h3, h5 _ hh]
              simp [hf, BufDesc.Clear]
            · intro f' p' hall
              apply h7
              intro k _ hk hkf _ hc
              exact hall k hk (hc.1 ▸ hkf)
          | throw e s1 =>
            rw [hres] at hfl
            exact ⟨hfl.1, hfl.2.1, hfl.2.2.2.1⟩
          | undef => rw [hres] at hfl; exact hfl
          | nofuel => rw [hres] at hfl; exact hfl

theorem allocBuf_spec (s : BufMgr) (hs : Inv s) : AllocBufPost s (allocBuf s) := by
  have h := allocBufLoop_spec (s.numBufs + 1) 0 s hs
  rw [allocBuf]
  cases hr : allocBufLoop (s.numBufs + 1) 0 s with
  | ok a s1 =>
    rw [hr] at h
    obtain ⟨fr, pc⟩ := a
    simp only []
    by_cases hp : pc ≥ s1.numBufs
    · rw [if_pos hp]; exact ⟨h.1, h.2.1, Or.inr rfl⟩
    · rw [if_neg hp]; exact h
  | throw e s1 =>
    rw [hr] at h
    exact ⟨h.1, h.2.1, Or.inl h.2.2⟩
  | undef => rw [hr] at h; exact h
  | nofuel => rw [hr] at h; exact h

/-- A sweep never adds an entry to the hash table. -/
theorem kept_hash (s s' : BufMgr) (hs : Inv s) (hs' : Inv s') (hK : Kept s s')
    (f : FileId) (p : PageId) (k : FrameId) (h : s'.hashTable f p = some k) :
    s.hashTable f p = some k := by
  obtain ⟨h1, h2, h3, h4⟩ := (hs'.hash f p k).1 h
  rw [hK.numBufs] at h1
  rcases hK.frames k h1 with ⟨a, b, _, _, e, _⟩ | ⟨_, e⟩
  · exact (hs.hash f p k).2 ⟨h1, e ▸ h2, a ▸ h3, b ▸ h4⟩
  · rw [h2] at e; exact absurd e (by simp)

/-- A sweep keeps the entry of every pinned page. -/
theorem kept_hash_pinned (s s' : BufMgr) (hs : Inv s) (hs' : Inv s') (hK : Kept s s')
    (f : FileId) (p : PageId) (k : FrameId) (h : s.hashTable f p = some k)
    (hp : 0 < (s.bufDescTable k).pinCnt) : s'.hashTable f p = some k := by
  obtain ⟨h1, h2, h3, h4⟩ := (hs.hash f p k).1 h
  rcases hK.frames k h1 with ⟨a, b, _, _, e, _⟩ | ⟨c, _⟩
  · exact (hs'.hash f p k).2 ⟨hK.numBufs ▸ h1, e ▸ h2, a ▸ h3, b ▸ h4⟩
  · omega

theorem inv_disk (s : BufMgr) (hs : Inv s) (disk : FileId → PageId → Option Page)
    (next : FileId → PageId) (hd : ∀ f p pg, disk f p = some pg → pg.page_number = p) :
    Inv { s with disk := disk, nextPageNo := next } :=
  ⟨hs.hand, hs.clear, hs.hash, hs.file, hs.pageno, hd⟩

theorem disk_update_wf (disk : FileId → PageId → Option Page)
    (hd : ∀ f p pg, disk f p = some pg → pg.page_number = p) (f : FileId) (p : PageId)
    (o : Option Page) (ho : ∀ pg, o = some pg → pg.page_number = p) :
    ∀ f' p' pg, Function.update disk f (Function.update (disk f) p o) f' p' = some pg →
      pg.page_number = p' := by
  intro f' p' pg h
  by_cases hf : f' = f
  · subst hf
    by_cases hp : p' = p
    · subst hp; simp at h; exact ho pg h
    · simp [Function.update_noteq hp] at h; exact hd _ _ _ h
  · simp [Function.update_noteq hf] at h; exact hd _ _ _ h

/-- Emptying a file keeps the file layer well-formed. -/
theorem disk_update_wf' (disk : FileId → PageId → Option Page)
    (hd : ∀ f p pg, disk f p = some pg → pg.page_number = p) (f : FileId) :
    ∀ f' p' pg, Function.update disk f (fun _ => none) f' p' = some pg →
      pg.page_number = p' := by
  intro f' p' pg h
  by_cases hf : f' = f
  · subst hf; simp at h
  · simp [Function.update_noteq hf] at h; exact hd _ _ _ h

/-- Writing the image of a frame without changing its page number. -/
theorem inv_setPage (s : BufMgr) (hs : Inv s) (k : FrameId) (pg : Page)
    (h : k < s.numBufs → (s.bufDescTable k).valid = true →
      pg.page_number = (s.bufDescTable k).pageNo) :
    Inv (s.setPage k pg) := by
  refine ⟨hs.hand, hs.clear, hs.hash, hs.file, ?_, hs.disk⟩
  intro j hj hjv
  by_cases hjk : j = k
  · subst hjk; simp only [BufMgr.setPage, Function.update_same]; exact h hj hjv
  · simp only [BufMgr.setPage, Function.update_noteq hjk]; exact hs.pageno j hj hjv

/-- Every operation leaves a well-formed pool, whether it returns or throws. -/
theorem inv_readPage (s : BufMgr) (hs : Inv s) (f : FileId) (p : PageId) (s' : BufMgr)
    (h : (readPage s f p).state? = some s') : Inv s' := by
  rw [readPage] at h
  cases hl : s.hashTable f p with
  | some k =>
    rw [hl] at h
    simp only [Res.state?, Option.some.injEq] at h
    subst h
    obtain ⟨h1, h2, h3, h4⟩ := (hs.hash f p k).1 hl
    apply inv_setDesc s hs <;> simp [h2]
  | none =>
    rw [hl] at h
    simp only [] at h
    have ha := allocBuf_spec s hs
    cases hr : allocBuf s with
    | ok fr s1 =>
      rw [hr] at h ha
      cases fr with
      | none => simp [Res.state?] at h
      | some k =>
        simp only [] at h
        obtain ⟨hi1, hK, hk, _⟩ := ha
        obtain ⟨_, hkN, hkv⟩ := hk k rfl
        cases hd : s1.disk f p with
        | none =>
          rw [hd] at h
          simp only [Res.state?, Option.some.injEq] at h
          subst h; exact hi1
        | some pg =>
          rw [hd] at h
          simp only [] at h
          have hnone : s1.hashTable f p = none := by
            cases hx : s1.hashTable f p with
            | none => rfl
            | some j => rw [kept_hash s s1 hs hi1 hK f p j hx] at hl; exact absurd hl (by simp)
          have hnone' : (s1.setPage k pg).hashTable f p = none := hnone
          rw [hnone'] at h
          simp only [Res.state?, Option.some.injEq] at h
          subst h
          exact inv_install s1 hi1 k (hK.numBufs ▸ hkN) f p pg (hi1.disk f p pg hd) hkv hnone
    | throw e s1 =>
      rw [hr] at h ha
      simp only [Res.state?, Option.some.injEq] at h
      subst h; exact ha.1
    | undef => rw [hr] at h; simp [Res.state?] at h
    | nofuel => rw [hr] at h; simp [Res.state?] at h

theorem inv_allocPage (s : BufMgr) (hs : Inv s) (f : FileId) (s' : BufMgr)
    (h : (allocPage s f).state? = some s') : Inv s' := by
  rw [allocPage] at h
  simp only [] at h
  have hs0 : Inv { s with
      disk := Function.update s.disk f
        (Function.update (s.disk f) (s.nextPageNo f) (some (Page.zero (s.nextPageNo f))))
      nextPageNo := Function.update s.nextPageNo f (s.nextPageNo f + 1) } := by
    apply inv_disk s hs
    apply disk_update_wf s.disk hs.disk
    intro pg hpg
    rw [← Option.some.inj hpg]; rfl
  have ha := allocBuf_spec _ hs0
  revert h ha
  generalize allocBuf _ = r
  intro h ha
  cases r with
  | ok fr s1 =>
    cases fr with
    | none => simp [Res.state?] at h
    | some k =>
      simp only [] at h
      obtain ⟨hi1, hK, hk, _⟩ := ha
      obtain ⟨_, hkN, hkv⟩ := hk k rfl
      cases hx : s1.hashTable f (s.nextPageNo f) with
      | some j =>
        rw [hx] at h
        simp only [Res.state?, Option.some.injEq] at h
        subst h; exact hi1
      | none =>
        rw [hx] at h
        simp only [Res.state?, Option.some.injEq] at h
        subst h
        exact inv_install s1 hi1 k (hK.numBufs ▸ hkN) f _ _ rfl hkv hx
  | throw e s1 =>
    simp only [Res.state?, Option.some.injEq] at h
    subst h; exact ha.1
  | undef => simp [Res.state?] at h
  | nofuel => simp [Res.state?] at h

theorem inv_unPinPage (s : BufMgr) (hs : Inv s) (f : FileId) (p : PageId) (d : Bool)
    (s' : BufMgr) (h : (unPinPage s f p d).state? = some s') : Inv s' := by
  rw [unPinPage] at h
  cases hl : s.hashTable f p with
  | none =>
    rw [hl] at h
    simp only [Res.state?, Option.some.injEq] at h
    subst h; exact hs
  | some k =>
    rw [hl] at h
    simp only [] at h
    obtain ⟨h1, h2, h3, h4⟩ := (hs.hash f p k).1 hl
    by_cases hp : (s.bufDescTable k).pinCnt < 1
    · rw [if_pos hp] at h
      simp only [Res.state?, Option.some.injEq] at h
      subst h; exact hs
    · rw [if_neg hp] at h
      have hs1 : Inv (s.setDesc k { s.bufDescTable k with
          pinCnt := (s.bufDescTable k).pinCnt - 1 }) := by
        apply inv_setDesc s hs <;> simp [h2]
      cases d with
      | false =>
        simp only [Bool.false_eq_true, if_false, Res.state?, Option.some.injEq] at h
        subst h; exact hs1
      | true =>
        simp only [if_true, Res.state?, Option.some.injEq] at h
        subst h
        apply inv_setDesc _ hs1 <;> simp [BufMgr.setDesc, h2]

theorem inv_flushFile (s : BufMgr) (hs : Inv s) (f : FileId) (s' : BufMgr)
    (h : (flushFile s f).state? = some s') : Inv s' := by
  have hf := flushFile_spec f s hs
  cases hr : flushFile s f with
  | ok a s1 =>
    rw [hr] at h hf
    simp only [Res.state?, Option.some.injEq] at h
    subst h; exact hf.1
  | throw e s1 =>
    rw [hr] at h hf
    simp only [Res.state?, Option.some.injEq] at h
    subst h; exact hf.1
  | undef => rw [hr] at hf; exact absurd hf id
  | nofuel => rw [hr] at hf; exact absurd hf id

theorem inv_disposePage (s : BufMgr) (hs : Inv s) (f : FileId) (p : PageId) (s' : BufMgr)
    (h : (disposePage s f p).state? = some s') : Inv s' := by
  rw [disposePage] at h
  cases hl : s.hashTable f p with
  | none =>
    rw [hl] at h
    simp only [Res.state?, Option.some.injEq] at h
    subst h; exact hs
  | some k =>
    rw [hl] at h
    simp only [] at h
    obtain ⟨h1, h2, h3, h4⟩ := (hs.hash f p k).1 hl
    have hne : k ≠ s.numBufs := Nat.ne_of_lt h1
    rw [if_pos hne] at h
    have hs1 : Inv ((s.setDesc k (s.bufDescTable k).Clear).hashRemove f p) :=
      inv_evict s hs k h1 f h2 h3 p h4
    revert h
    generalize (s.setDesc k (s.bufDescTable k).Clear).hashRemove f p = s1 at hs1 ⊢
    intro h
    cases hd : s1.disk f p with
    | none =>
      rw [hd] at h
      simp only [Res.state?, Option.some.injEq] at h
      subst h; exact hs1
    | some pg =>
      rw [hd] at h
      simp only [Res.state?, Option.some.injEq] at h
      subst h
      have := inv_disk s1 hs1 (Function.update s1.disk f (Function.update (s1.disk f) p none))
        s1.nextPageNo (disk_update_wf s1.disk hs1.disk f p none (by simp))
      exact this

/-! ## Reachable pool states -/

theorem reachable_inv (s : BufMgr) (h : Reachable s) : Inv s := by
  induction h with
  | fresh bufs disk next h1 h2 => exact inv_fresh bufs h1 disk next h2
  | readPage s s' f p _ hstep ih => exact inv_readPage s ih f p s' hstep
  | allocPage s s' f _ hstep ih => exact inv_allocPage s ih f s' hstep
  | unPinPage s s' f p d _ hstep ih => exact inv_unPinPage s ih f p d s' hstep
  | flushFile s s' f _ hstep ih => exact inv_flushFile s ih f s' hstep
  | disposePage s s' f p _ hstep ih => exact inv_disposePage s ih f p s' hstep
  | write s k pg _ hk hpin hpg ih =>
    apply inv_setPage s ih
    intro _ hv
    rw [hpg]; exact ih.pageno k hk hv

theorem reachable_after_readPage (s : BufMgr) (f : FileId) (p : PageId) (h : Reachable s) :
    Reachable ((readPage s f p).after s) := by
  unfold Res.after
  split
  · next s' hs' => exact Reachable.readPage s s' f p h hs'
  · exact h

theorem reachable_after_unPinPage (s : BufMgr) (f : FileId) (p : PageId) (d : Bool)
    (h : Reachable s) : Reachable ((unPinPage s f p d).after s) := by
  unfold Res.after
  split
  · next s' hs' => exact Reachable.unPinPage s s' f p d h hs'
  · exact h

theorem exDisk_wf : ∀ f p pg, exDisk f p = some pg → pg.page_number = p := by
  intro f p pg h
  unfold exDisk at h
  split at h
  · rw [← Option.some.inj h]; rfl
  · exact absurd h (by simp)

theorem reachable_pool2 : Reachable pool2 :=
  Reachable.fresh 2 exDisk exNext (by decide) exDisk_wf

theorem reachable_pool2a : Reachable pool2a :=
  reachable_after_readPage pool2 0 1 reachable_pool2

theorem reachable_pool2b : Reachable pool2b :=
  reachable_after_readPage pool2a 0 2 reachable_pool2a

theorem reachable_pool2c : Reachable pool2c :=
  reachable_after_readPage pool2b 0 1 reachable_pool2b

theorem reachable_pool2d : Reachable pool2d :=
  reachable_after_readPage pool2b 0 3 reachable_pool2b

theorem reachable_pool2d1 : Reachable pool2d1 :=
  reachable_after_unPinPage pool2d 0 2 false reachable_pool2d

theorem reachable_pool2d2 : Reachable pool2d2 :=
  reachable_after_readPage pool2d1 0 2 reachable_pool2d1

theorem reachable_pool2e : Reachable pool2e :=
  reachable_after_unPinPage pool2d2 0 2 false reachable_pool2d2

/-! ## Claims about the buffer manager -/

/-- C3 (the code departs from the claim): in the reachable pool `pool2c` of two
frames both frames are valid and pinned and page 3 is not cached, yet the sweep
of `allocBuf` ends without `BufferExceeded` and without assigning a frame, so
neither `readPage` of page 3 nor `allocPage` fails with `BufferExceeded`. -/
theorem C3_full_pool_sweep_without_BufferExceeded :
    Reachable pool2c ∧ pool2c.numBufs = 2 ∧
    (∀ k, k < 2 → (pool2c.bufDescTable k).valid = true ∧ 0 < (pool2c.bufDescTable k).pinCnt) ∧
    pool2c.hashTable 0 3 = none ∧
    (allocBuf pool2c).val? = some none ∧
    (readPage pool2c 0 3).exn? = none ∧ (allocPage pool2c 0).exn? = none := by
  refine ⟨reachable_pool2c, rfl, by decide, by decide, by decide, by decide, by decide⟩

/-- C4 (the code departs from the claim): in the reachable pool `pool2e` frame 0
is valid with `pinCnt = 0`, yet `readPage` of the uncached page 3 fails with
`BufferExceeded`. -/
theorem C4_BufferExceeded_with_unpinned_frame :
    Reachable pool2e ∧ (pool2e.bufDescTable 0).valid = true ∧
    (pool2e.bufDescTable 0).pinCnt = 0 ∧ pool2e.hashTable 0 3 = none ∧
    (readPage pool2e 0 3).exn? = some Exn.BufferExceeded ∧
    (allocBuf pool2e).exn? = some Exn.BufferExceeded := by
  refine ⟨reachable_pool2e, by decide, by decide, by decide, by decide, by decide⟩

/-! ## Case analysis of `readPage` and `allocPage` -/

theorem pinned_valid (s : BufMgr) (hs : Inv s) (k : FrameId) (hk : k < s.numBufs)
    (hp : 0 < (s.bufDescTable k).pinCnt) : (s.bufDescTable k).valid = true := by
  by_contra h
  have hv : (s.bufDescTable k).valid = false := by simpa using h
  have := (hs.clear k hk hv).2.1
  omega

theorem readPage_hit (s : BufMgr) (f : FileId) (p : PageId) (j : FrameId)
    (hl : s.hashTable f p = some j) :
    readPage s f p = .ok j (s.setDesc j { s.bufDescTable j with
      refbit := true, pinCnt := (s.bufDescTable j).pinCnt + 1 }) := by
  rw [readPage, hl]

theorem readPage_miss (s : BufMgr) (hs : Inv s) (f : FileId) (p : PageId)
    (hl : s.hashTable f p = none) :
    (∃ e s1, readPage s f p = .throw e s1 ∧ Inv s1 ∧ Kept s s1) ∨
    readPage s f p = .undef ∨
    (∃ k s1 pg, readPage s f p = .ok k (s1.install k f p pg) ∧ Inv s1 ∧ Kept s s1 ∧
      k < s.numBufs ∧ (s1.bufDescTable k).valid = false ∧ s1.disk f p = some pg ∧
      s1.hashTable f p = none ∧
      (∀ g q, (∀ j, j < s.numBufs → (s.bufDescTable j).file ≠ some g) →
        s1.disk g q = s.disk g q)) := by
  rw [readPage, hl]
  simp only []
  have ha := allocBuf_spec s hs
  cases hr : allocBuf s with
  | ok fr s1 =>
    rw [hr] at ha
    cases fr with
    | none => exact Or.inr (Or.inl rfl)
    | some k =>
      simp only []
      obtain ⟨hi1, hK, hk, hdk⟩ := ha
      obtain ⟨_, hkN, hkv⟩ := hk k rfl
      have hnone : s1.hashTable f p = none := by
        cases hx : s1.hashTable f p with
        | none => rfl
        | some j => rw [kept_hash s s1 hs hi1 hK f p j hx] at hl; exact absurd hl (by simp)
      cases hd : s1.disk f p with
      | none => exact Or.inl ⟨_, _, rfl, hi1, hK⟩
      | some pg =>
        simp only []
        have hnone' : (s1.setPage k pg).hashTable f p = none := hnone
        rw [hnone']
        exact Or.inr (Or.inr ⟨k, s1, pg, rfl, hi1, hK, hkN, hkv, hd, hnone, hdk⟩)
  | throw e s1 =>
    rw [hr] at ha
    exact Or.inl ⟨_, _, rfl, ha.1, ha.2.1⟩
  | undef => rw [hr] at ha; exact absurd ha id
  | nofuel => rw [hr] at ha; exact absurd ha id

theorem inv_fileAlloc (s : BufMgr) (hs : Inv s) (f : FileId) : Inv (s.fileAlloc f) := by
  apply inv_disk s hs
  apply disk_update_wf s.disk hs.disk
  intro pg hpg
  rw [← Option.some.inj hpg]; rfl

theorem allocPage_cases (s : BufMgr) (hs : Inv s) (f : FileId) :
    (∃ e s1, allocPage s f = .throw e s1 ∧ Inv s1 ∧ Kept (s.fileAlloc f) s1) ∨
    allocPage s f = .undef ∨
    (∃ k s1, allocPage s f = .ok (s.nextPageNo f, k)
        (s1.install k f (s.nextPageNo f) (Page.zero (s.nextPageNo f))) ∧
      Inv s1 ∧ Kept (s.fileAlloc f) s1 ∧ k < s.numBufs ∧
      (s1.bufDescTable k).valid = false ∧ s1.hashTable f (s.nextPageNo f) = none) := by
  rw [allocPage]
  simp only []
  have ha := allocBuf_spec _ (inv_fileAlloc s hs f)
  unfold BufMgr.fileAlloc at ha
  revert ha
  generalize hr : allocBuf _ = r
  intro ha
  cases r with
  | ok fr s1 =>
    cases fr with
    | none => exact Or.inr (Or.inl rfl)
    | some k =>
      simp only []
      obtain ⟨hi1, hK, hk, _⟩ := ha
      obtain ⟨_, hkN, hkv⟩ := hk k rfl
      cases hx : s1.hashTable f (s.nextPageNo f) with
      | some j => exact Or.inl ⟨_, _, rfl, hi1, hK⟩
      | none => exact Or.inr (Or.inr ⟨k, s1, rfl, hi1, hK, hkN, hkv, hx⟩)
  | throw e s1 => exact Or.inl ⟨_, _, rfl, ha.1, ha.2.1⟩
  | undef => exact absurd ha id
  | nofuel => exact absurd ha id

/-- In every pool state that calls with a defined outcome produce from a fresh
BufMgr, the hash table maps `(file, pageNo)` to frame `k` if and only if frame
`k` is a valid frame holding `(file, pageNo)`, and at most one frame is valid
with a given identity.  The call in which `allocBuf` leaves the frame number
unassigned is not among them. -/
theorem hash_table_matches_valid_frames (s : BufMgr) (h : Reachable s) :
    (∀ f p k, s.hashTable f p = some k ↔
      (k < s.numBufs ∧ (s.bufDescTable k).valid = true ∧
        (s.bufDescTable k).file = some f ∧ (s.bufDescTable k).pageNo = p)) ∧
    (∀ f p j k, j < s.numBufs → k < s.numBufs →
      (s.bufDescTable j).valid = true → (s.bufDescTable j).file = some f →
      (s.bufDescTable j).pageNo = p →
      (s.bufDescTable k).valid = true → (s.bufDescTable k).file = some f →
      (s.bufDescTable k).pageNo = p → j = k) := by
  have hs := reachable_inv s h
  refine ⟨hs.hash, ?_⟩
  intro f p j k hj hk _ hfj hpj _ hfk hpk
  exact inv_unique s hs j k hj hk f hfj hfk (hpj.trans hpk.symm)

/-- C7: for every pool state, unPinPage throws HashNotFound when the page is not
cached and PageNotPinned when it is cached with `pinCnt = 0`, leaving the whole
state as it was; otherwise it returns, the frame's `pinCnt` is one less, its
dirty bit is the old bit or-ed with the argument, and nothing else changes. -/
theorem C7_unPinPage_contract (s : BufMgr) (f : FileId) (p : PageId) (dirty : Bool) :
    (s.hashTable f p = none → unPinPage s f p dirty = .throw .HashNotFound s) ∧
    (∀ k, s.hashTable f p = some k → (s.bufDescTable k).pinCnt = 0 →
      unPinPage s f p dirty = .throw .PageNotPinned s) ∧
    (∀ k, s.hashTable f p = some k → 0 < (s.bufDescTable k).pinCnt →
      ∃ s', unPinPage s f p dirty = .ok () s' ∧
        (s'.bufDescTable k).pinCnt + 1 = (s.bufDescTable k).pinCnt ∧
        (s'.bufDescTable k).dirty = ((s.bufDescTable k).dirty || dirty) ∧
        (s'.bufDescTable k).valid = (s.bufDescTable k).valid ∧
        (s'.bufDescTable k).refbit = (s.bufDescTable k).refbit ∧
        (s'.bufDescTable k).file = (s.bufDescTable k).file ∧
        (s'.bufDescTable k).pageNo = (s.bufDescTable k).pageNo ∧
        (s'.bufDescTable k).frameNo = (s.bufDescTable k).frameNo ∧
        (∀ j, j ≠ k → s'.bufDescTable j = s.bufDescTable j) ∧
        s'.bufPool = s.bufPool ∧ s'.hashTable = s.hashTable ∧
        s'.clockHand = s.clockHand ∧ s'.numBufs = s.numBufs ∧
        s'.disk = s.disk ∧ s'.nextPageNo = s.nextPageNo) := by
  refine ⟨?_, ?_, ?_⟩
  · intro h
    rw [unPinPage, h]
  · intro k h h0
    rw [unPinPage, h]
    simp only []
    rw [if_pos (by omega)]
  · intro k h h0
    rw [unPinPage, h]
    simp only []
    rw [if_neg (by omega)]
    have hne : ∀ (j : FrameId) (d : BufDesc), j ≠ k →
        Function.update s.bufDescTable k d j = s.bufDescTable j :=
      fun j d hj => Function.update_noteq hj _ _
    cases dirty with
    | false =>
      refine ⟨_, rfl, ?_, ?_, ?_, ?_, ?_, ?_, ?_, ?_, rfl, rfl, rfl, rfl, rfl, rfl⟩
      · simp only [BufMgr.setDesc, Function.update_same]; omega
      · simp [BufMgr.setDesc]
      · simp [BufMgr.setDesc]
      · simp [BufMgr.setDesc]
      · simp [BufMgr.setDesc]
      · simp [BufMgr.setDesc]
      · simp [BufMgr.setDesc]
      · intro j hj; exact hne j _ hj
    | true =>
      refine ⟨_, rfl, ?_, ?_, ?_, ?_, ?_, ?_, ?_, ?_, rfl, rfl, rfl, rfl, rfl, rfl⟩
      · simp only [BufMgr.setDesc, Function.update_same]; omega
      · simp [BufMgr.setDesc]
      · simp [BufMgr.setDesc]
      · simp [BufMgr.setDesc]
      · simp [BufMgr.setDesc]
      · simp [BufMgr.setDesc]
      · simp [BufMgr.setDesc]
      · intro j hj
        simp only [BufMgr.setDesc, Function.update_idem]
        exact hne j _ hj

/-- Witness of C7 on the pool `pool2a`, where page 1 of file 0 sits pinned in frame 1. -/
theorem C7_witness :
    pool2a.hashTable 0 1 = some 1 ∧ 0 < (pool2a.bufDescTable 1).pinCnt ∧
    ∃ s', unPinPage pool2a 0 1 true = .ok () s' ∧
      (s'.bufDescTable 1).pinCnt + 1 = (pool2a.bufDescTable 1).pinCnt ∧
      (s'.bufDescTable 1).dirty = ((pool2a.bufDescTable 1).dirty || true) := by
  refine ⟨by decide, by decide, ?_⟩
  obtain ⟨s', h1, h2, h3, _⟩ :=
    (C7_unPinPage_contract pool2a 0 1 true).2.2 1 (by decide) (by decide)
  exact ⟨s', h1, h2, h3⟩

theorem kept_pinned (s s1 : BufMgr) (hK : Kept s s1) (k : FrameId) (hk : k < s.numBufs)
    (hp : 0 < (s.bufDescTable k).pinCnt) :
    (s1.bufDescTable k).file = (s.bufDescTable k).file ∧
    (s1.bufDescTable k).pageNo = (s.bufDescTable k).pageNo ∧
    (s1.bufDescTable k).pinCnt = (s.bufDescTable k).pinCnt ∧
    (s1.bufDescTable k).dirty = (s.bufDescTable k).dirty ∧
    (s1.bufDescTable k).valid = (s.bufDescTable k).valid ∧ s1.bufPool k = s.bufPool k := by
  rcases hK.frames k hk with ⟨a, b, c, d, e, _⟩ | ⟨c, _⟩
  · exact ⟨a, b, c, d, e, by rw [hK.bufPool]⟩
  · omega

theorem install_other (s : BufMgr) (k j : FrameId) (f : FileId) (p : PageId) (pg : Page)
    (h : j ≠ k) :
    (s.install k f p pg).bufDescTable j = s.bufDescTable j ∧
    (s.install k f p pg).bufPool j = s.bufPool j := by
  simp [BufMgr.install, BufMgr.setDesc, BufMgr.hashInsert, BufMgr.setPage,
    Function.update_noteq h]

/-- What `readPage` and `allocPage` leave of a pinned frame. -/
theorem pinned_core (s : BufMgr) (hs : Inv s) (f : FileId) (p : PageId) (s' : BufMgr)
    (h : (readPage s f p).state? = some s' ∨ (allocPage s f).state? = some s')
    (k : FrameId) (hk : k < s.numBufs) (hp : 0 < (s.bufDescTable k).pinCnt) :
    Inv s' ∧ s'.numBufs = s.numBufs ∧
    (s'.bufDescTable k).valid = true ∧
    (s'.bufDescTable k).file = (s.bufDescTable k).file ∧
    (s'.bufDescTable k).pageNo = (s.bufDescTable k).pageNo ∧
    s'.bufPool k = s.bufPool k ∧
    (s'.bufDescTable k).dirty = (s.bufDescTable k).dirty ∧
    ((s'.bufDescTable k).pinCnt = (s.bufDescTable k).pinCnt ∨
      (s.hashTable f p = some k ∧
        (s'.bufDescTable k).pinCnt = (s.bufDescTable k).pinCnt + 1)) := by
  have hv := pinned_valid s hs k hk hp
  have after_sweep : ∀ s0 s1 : BufMgr, s0.numBufs = s.numBufs →
      s0.bufDescTable = s.bufDescTable → s0.bufPool = s.bufPool → Kept s0 s1 →
      s1.numBufs = s.numBufs ∧ (s1.bufDescTable k).valid = true ∧
      (s1.bufDescTable k).file = (s.bufDescTable k).file ∧
      (s1.bufDescTable k).pageNo = (s.bufDescTable k).pageNo ∧
      s1.bufPool k = s.bufPool k ∧
      (s1.bufDescTable k).dirty = (s.bufDescTable k).dirty ∧
      (s1.bufDescTable k).pinCnt = (s.bufDescTable k).pinCnt := by
    intro s0 s1 hN hD hP hK
    obtain ⟨a, b, c, d, e, g⟩ := kept_pinned s0 s1 hK k (hN ▸ hk) (by rw [hD]; exact hp)
    rw [hD] at a b c d e
    rw [hP] at g
    exact ⟨hK.numBufs.trans hN, e.trans hv, a, b, g, d, c⟩
  have after_install : ∀ (s1 : BufMgr) (j : FrameId) (g : FileId) (q : PageId) (pg : Page),
      (s1.bufDescTable j).valid = false →
      (s1.numBufs = s.numBufs ∧ (s1.bufDescTable k).valid = true ∧
      (s1.bufDescTable k).file = (s.bufDescTable k).file ∧
      (s1.bufDescTable k).pageNo = (s.bufDescTable k).pageNo ∧
      s1.bufPool k = s.bufPool k ∧
      (s1.bufDescTable k).dirty = (s.bufDescTable k).dirty ∧
      (s1.bufDescTable k).pinCnt = (s.bufDescTable k).pinCnt) →
      (s1.install j g q pg).numBufs = s.numBufs ∧
      ((s1.install j g q pg).bufDescTable k).valid = true ∧
      ((s1.install j g q pg).bufDescTable k).file = (s.bufDescTable k).file ∧
      ((s1.install j g q pg).bufDescTable k).pageNo = (s.bufDescTable k).pageNo ∧
      (s1.install j g q pg).bufPool k = s.bufPool k ∧
      ((s1.install j g q pg).bufDescTable k).dirty = (s.bufDescTable k).dirty ∧
      ((s1.install j g q pg).bufDescTable k).pinCnt = (s.bufDescTable k).pinCnt := by
    intro s1 j g q pg hjv hh
    have hkj : k ≠ j := by
      intro e; subst e
      rw [hh.2.1] at hjv; exact absurd hjv (by simp)
    obtain ⟨e1, e2⟩ := install_other s1 j k g q pg hkj
    rw [e1, e2]
    exact hh
  rcases h with h | h
  · have hi := inv_readPage s hs f p s' h
    refine ⟨hi, ?_⟩
    cases hl : s.hashTable f p with
    | some j =>
      rw [readPage_hit s f p j hl] at h
      simp only [Res.state?, Option.some.injEq] at h
      subst h
      by_cases hjk : k = j
      · subst hjk
        simp only [BufMgr.setDesc, Function.update_same]
        exact ⟨trivial, hv, trivial, trivial, trivial, trivial, Or.inr ⟨trivial, trivial⟩⟩
      · simp only [BufMgr.setDesc, Function.update_noteq hjk]
        exact ⟨trivial, hv, trivial, trivial, trivial, trivial, Or.inl trivial⟩
    | none =>
      rcases readPage_miss s hs f p hl with ⟨e, s1, hr, _, hK⟩ | hr |
        ⟨j, s1, pg, hr, _, hK, _, hjv, _, _, _⟩
      · rw [hr] at h
        simp only [Res.state?, Option.some.injEq] at h
        subst h
        obtain ⟨a, b, c, d, e, g, i⟩ := after_sweep s s1 rfl rfl rfl hK
        exact ⟨a, b, c, d, e, g, Or.inl i⟩
      · rw [hr] at h; simp [Res.state?] at h
      · rw [hr] at h
        simp only [Res.state?, Option.some.injEq] at h
        subst h
        obtain ⟨a, b, c, d, e, g, i⟩ :=
          after_install s1 j f p pg hjv (after_sweep s s1 rfl rfl rfl hK)
        exact ⟨a, b, c, d, e, g, Or.inl i⟩
  · have hi := inv_allocPage s hs f s' h
    refine ⟨hi, ?_⟩
    rcases allocPage_cases s hs f with ⟨e, s1, hr, _, hK⟩ | hr | ⟨j, s1, hr, _, hK, _, hjv, _⟩
    · rw [hr] at h
      simp only [Res.state?, Option.some.injEq] at h
      subst h
      obtain ⟨a, b, c, d, e, g, i⟩ := after_sweep (s.fileAlloc f) s1 rfl rfl rfl hK
      exact ⟨a, b, c, d, e, g, Or.inl i⟩
    · rw [hr] at h; simp [Res.state?] at h
    · rw [hr] at h
      simp only [Res.state?, Option.some.injEq] at h
      subst h
      obtain ⟨a, b, c, d, e, g, i⟩ :=
        after_install s1 j f _ _ hjv (after_sweep (s.fileAlloc f) s1 rfl rfl rfl hK)
      exact ⟨a, b, c, d, e, g, Or.inl i⟩

theorem unPinPage_pinned (s : BufMgr) (f : FileId) (p : PageId) (d : Bool) (k : FrameId)
    (hl : s.hashTable f p = some k) (hp : 0 < (s.bufDescTable k).pinCnt) :
    unPinPage s f p d = .ok () (s.setDesc k { s.bufDescTable k with
      pinCnt := (s.bufDescTable k).pinCnt - 1, dirty := ((s.bufDescTable k).dirty || d) }) := by
  rw [unPinPage, hl]
  simp only []
  rw [if_neg (by omega)]
  cases d with
  | false => simp [BufMgr.setDesc]
  | true => simp [BufMgr.setDesc]

theorem readPage32_hit (s : BufMgr) (f : FileId) (p : PageId) (j : FrameId)
    (hl : s.hashTable f p = some j) :
    readPage32 s f p = .ok j (s.setDesc j { s.bufDescTable j with
      refbit := true, pinCnt := ((s.bufDescTable j).pinCnt + 1) % 4294967296 }) := by
  rw [readPage32, hl]
  rfl

theorem readPage32_miss (s : BufMgr) (f : FileId) (p : PageId)
    (hl : s.hashTable f p = none) : readPage32 s f p = readPage s f p := by
  rw [readPage32, readPage, hl]

/-- Below a count of `2^32 - 1` the 32-bit counter and the unbounded one agree. -/
theorem readPage32_eq (s : BufMgr) (f : FileId) (p : PageId)
    (h : ∀ j, s.hashTable f p = some j → (s.bufDescTable j).pinCnt < 4294967295) :
    readPage32 s f p = readPage s f p := by
  cases hl : s.hashTable f p with
  | none => exact readPage32_miss s f p hl
  | some j =>
    rw [readPage32_hit s f p j hl, readPage_hit s f p j hl,
      Nat.mod_eq_of_lt (by have := h j hl; omega)]

/-- The well-formedness of a pool state is kept by `readPage32`, as it is by
every other operation. -/
theorem inv_readPage32 (s : BufMgr) (hs : Inv s) (f : FileId) (p : PageId) (s' : BufMgr)
    (h : (readPage32 s f p).state? = some s') : Inv s' := by
  cases hl : s.hashTable f p with
  | none =>
    rw [readPage32_miss s f p hl] at h
    exact inv_readPage s hs f p s' h
  | some j =>
    rw [readPage32_hit s f p j hl] at h
    simp only [Res.state?, Option.some.injEq] at h
    subst h
    obtain ⟨a, b, c, d⟩ := (hs.hash f p j).1 hl
    apply inv_setDesc s hs <;> simp [b]

theorem pool2n_hash (n : Nat) : (pool2n n).hashTable 0 1 = some 1 := by
  induction n with
  | zero => decide
  | succ n ih => exact ih

theorem pool2n_pins (n : Nat) : ((pool2n n).bufDescTable 1).pinCnt = n + 1 := by
  induction n with
  | zero => decide
  | succ n ih =>
    show (((pool2n n).pin 1).bufDescTable 1).pinCnt = n + 1 + 1
    simp only [BufMgr.pin, BufMgr.setDesc, Function.update_same, ih]

theorem reachable_pool2n (n : Nat) : Reachable (pool2n n) := by
  induction n with
  | zero => exact reachable_pool2a
  | succ n ih =>
    refine Reachable.readPage (pool2n n) _ 0 1 ih ?_
    rw [readPage_hit _ 0 1 1 (pool2n_hash n)]
    rfl

/-- Below the wrap each further `readPage(f, 1)` adds a pin, with the 32-bit
count as with the unbounded one. -/
theorem readPage32_pool2n (n : Nat) (h : n < 4294967294) :
    readPage32 (pool2n n) 0 1 = .ok 1 (pool2n (n + 1)) := by
  rw [readPage32_eq, readPage_hit _ 0 1 1 (pool2n_hash n)]
  · rfl
  · intro j hj
    rw [pool2n_hash n] at hj
    rw [← Option.some.inj hj, pool2n_pins n]
    omega

/-- C2 (the claim as stated fails): on a fresh pool of two frames `readPage(f, 1)`
gives `pool2a`, and each of the next `2^32 - 2` calls `readPage(f, 1)` adds a pin,
which leads to `pool2m`, page 1 pinned `2^32 - 1` times.  One more
`readPage(f, 1)` returns frame 1 with pin count 0, not `2^32`. -/
theorem C2_pin_count_wraps :
    readPage32 pool2 0 1 = .ok 1 (pool2n 0) ∧
    (∀ n, n < 4294967294 → readPage32 (pool2n n) 0 1 = .ok 1 (pool2n (n + 1))) ∧
    pool2m = pool2n 4294967294 ∧
    Reachable pool2m ∧ pool2m.hashTable 0 1 = some 1 ∧
    (pool2m.bufDescTable 1).pinCnt = 4294967295 ∧
    ∃ s', readPage32 pool2m 0 1 = .ok 1 s' ∧ (s'.bufDescTable 1).pinCnt = 0 ∧
      (s'.bufDescTable 1).pinCnt ≠ (pool2m.bufDescTable 1).pinCnt + 1 := by
  have hp : (pool2m.bufDescTable 1).pinCnt = 4294967295 := pool2n_pins 4294967294
  have h0 : ((pool2m.setDesc 1 { pool2m.bufDescTable 1 with
      refbit := true,
      pinCnt := ((pool2m.bufDescTable 1).pinCnt + 1) % 4294967296 }).bufDescTable 1).pinCnt
      = 0 := by
    simp only [BufMgr.setDesc, Function.update_same, hp]
  refine ⟨by rfl, readPage32_pool2n, rfl, reachable_pool2n 4294967294,
    pool2n_hash 4294967294, hp, _, readPage32_hit pool2m 0 1 1 (pool2n_hash 4294967294), h0, ?_⟩
  rw [h0, hp]
  decide

/-- C2 (amended): whenever readPage returns in a well-formed pool state (as
every reachable pool is), the returned frame is valid, holds (file, pageNo) and
has its reference bit set; on a cache hit it is the frame the page was cached
in, its pin count is one more than before modulo `2^32` (exactly one more below
a count of `2^32 - 1`, and 0 after that count) and no other descriptor changes;
on a miss its pin count is 1 and it is clean, and then a second readPage
returns the same frame with pin count 2 and two unPinPage calls bring the count
back to 0. -/
theorem C2_readPage_pins_the_page (s : BufMgr) (hI : Inv s) (f : FileId)
    (p : PageId) (k : FrameId) (s' : BufMgr) (h : readPage32 s f p = .ok k s') :
    k < s'.numBufs ∧ (s'.bufDescTable k).valid = true ∧
    (s'.bufDescTable k).file = some f ∧ (s'.bufDescTable k).pageNo = p ∧
    (s'.bufDescTable k).refbit = true ∧
    (∀ j, s.hashTable f p = some j →
      k = j ∧
      (s'.bufDescTable k).pinCnt = ((s.bufDescTable j).pinCnt + 1) % 4294967296 ∧
      ((s.bufDescTable j).pinCnt < 4294967295 →
        (s'.bufDescTable k).pinCnt = (s.bufDescTable j).pinCnt + 1) ∧
      ((s.bufDescTable j).pinCnt = 4294967295 → (s'.bufDescTable k).pinCnt = 0) ∧
      (∀ i, i ≠ k → s'.bufDescTable i = s.bufDescTable i) ∧ s'.bufPool = s.bufPool) ∧
    (s.hashTable f p = none →
      (s'.bufDescTable k).pinCnt = 1 ∧ (s'.bufDescTable k).dirty = false ∧
      ∃ s2, readPage32 s' f p = .ok k s2 ∧ (s2.bufDescTable k).pinCnt = 2 ∧
        ∀ d1 d2, ∃ s3 s4, unPinPage s2 f p d1 = .ok () s3 ∧
          unPinPage s3 f p d2 = .ok () s4 ∧ (s4.bufDescTable k).pinCnt = 0) := by
  have hs := hI
  cases hl : s.hashTable f p with
  | some j =>
    rw [readPage32_hit s f p j hl] at h
    injection h with h1 h2
    subst h1 h2
    obtain ⟨a, b, c, d⟩ := (hs.hash f p j).1 hl
    refine ⟨a, ?_, ?_, ?_, ?_, ?_, ?_⟩
    · simpa [BufMgr.setDesc] using b
    · simpa [BufMgr.setDesc] using c
    · simpa [BufMgr.setDesc] using d
    · simp [BufMgr.setDesc]
    · intro j' hj
      have : j = j' := Option.some.inj hj
      subst this
      have e : ((s.setDesc j { s.bufDescTable j with
          refbit := true,
          pinCnt := ((s.bufDescTable j).pinCnt + 1) % 4294967296 }).bufDescTable j).pinCnt
          = ((s.bufDescTable j).pinCnt + 1) % 4294967296 := by
        simp only [BufMgr.setDesc, Function.update_same]
      refine ⟨rfl, e, ?_, ?_, ?_, rfl⟩
      · intro hlt
        rw [e]
        exact Nat.mod_eq_of_lt (by omega)
      · intro heq
        rw [e, heq]
      · intro i hi
        simp [BufMgr.setDesc, Function.update_noteq hi]
    · intro hn; exact absurd hn (by simp)
  | none =>
    rw [readPage32_miss s f p hl] at h
    rcases readPage_miss s hs f p hl with ⟨e, s1, hr, _⟩ | hr |
      ⟨j, s1, pg, hr, hi1, hK, hjN, hjv, _, _, _⟩
    · rw [hr] at h; exact Res.noConfusion h
    · rw [hr] at h; exact Res.noConfusion h
    · rw [hr] at h
      injection h with h1 h2
      subst h1 h2
      have hlook : (s1.install j f p pg).hashTable f p = some j := by
        simp [BufMgr.install, BufMgr.setDesc, BufMgr.hashInsert, BufMgr.setPage]
      have hpin : ((s1.install j f p pg).bufDescTable j).pinCnt = 1 := by
        simp [BufMgr.install, BufMgr.setDesc, BufMgr.hashInsert, BufMgr.setPage, BufDesc.Set]
      refine ⟨?_, ?_, ?_, ?_, ?_, ?_, ?_⟩
      · show s1.numBufs > j
        rw [hK.numBufs]; exact hjN
      · simp [BufMgr.install, BufMgr.setDesc, BufMgr.hashInsert, BufMgr.setPage, BufDesc.Set]
      · simp [BufMgr.install, BufMgr.setDesc, BufMgr.hashInsert, BufMgr.setPage, BufDesc.Set]
      · simp [BufMgr.install, BufMgr.setDesc, BufMgr.hashInsert, BufMgr.setPage, BufDesc.Set]
      · simp [BufMgr.install, BufMgr.setDesc, BufMgr.hashInsert, BufMgr.setPage, BufDesc.Set]
      · intro i hi; exact absurd hi (by simp)
      · intro _
        refine ⟨hpin, ?_, ?_⟩
        · simp [BufMgr.install, BufMgr.setDesc, BufMgr.hashInsert, BufMgr.setPage, BufDesc.Set]
        · refine ⟨_, readPage32_hit _ f p j hlook, ?_, ?_⟩
          · simp only [BufMgr.setDesc, Function.update_same, hpin]
          · intro d1 d2
            refine ⟨_, _, unPinPage_pinned _ f p d1 j hlook ?_,
              unPinPage_pinned _ f p d2 j hlook ?_, ?_⟩
            · simp only [BufMgr.setDesc, Function.update_same, hpin]; omega
            · simp only [BufMgr.setDesc, Function.update_same, hpin]; omega
            · simp only [BufMgr.setDesc, Function.update_same, hpin]

/-- Witness of C2: `readPage(f, 1)` on the fresh pool of two frames returns frame 1. -/
theorem C2_witness :
    Inv pool2 ∧ readPage32 pool2 0 1 = .ok 1 pool2a ∧
    1 < pool2a.numBufs ∧ (pool2a.bufDescTable 1).valid = true ∧
    (pool2a.bufDescTable 1).file = some 0 ∧ (pool2a.bufDescTable 1).pageNo = 1 ∧
    (pool2a.bufDescTable 1).refbit = true ∧ (pool2a.bufDescTable 1).pinCnt = 1 := by
  have hI : Inv pool2 := reachable_inv pool2 reachable_pool2
  have h : readPage32 pool2 0 1 = .ok 1 pool2a := by rfl
  obtain ⟨a, b, c, d, e, _, g⟩ := C2_readPage_pins_the_page pool2 hI 0 1 1 pool2a h
  exact ⟨hI, h, a, b, c, d, e, (g (by decide)).1⟩

/-- C8: in every reachable pool state flushFile(f) throws PagePinned when some
valid frame of `f` is pinned; otherwise it returns, no valid frame and no hash
entry belongs to `f` afterwards, the disk image of every page of `f` that was
cached dirty is the image its frame held (and a readPage of it that returns
delivers that image), and descriptors of frames of other files and all frame
images are unchanged. -/
theorem C8_flushFile_contract (s : BufMgr) (hR : Reachable s) (f : FileId) :
    ((∃ k, k < s.numBufs ∧ (s.bufDescTable k).valid = true ∧
        (s.bufDescTable k).file = some f ∧ 0 < (s.bufDescTable k).pinCnt) →
      (flushFile s f).exn? = some Exn.PagePinned) ∧
    ((∀ k, k < s.numBufs → (s.bufDescTable k).valid = true →
        (s.bufDescTable k).file = some f → (s.bufDescTable k).pinCnt = 0) →
      ∃ s', flushFile s f = .ok () s' ∧ s'.numBufs = s.numBufs ∧
        (∀ k, k < s'.numBufs → (s'.bufDescTable k).valid = true →
          (s'.bufDescTable k).file ≠ some f) ∧
        (∀ p, s'.hashTable f p = none) ∧
        (∀ k, k < s.numBufs → (s.bufDescTable k).valid = true →
          (s.bufDescTable k).file = some f → (s.bufDescTable k).dirty = true →
          s'.disk f (s.bufDescTable k).pageNo = some (s.bufPool k) ∧
          ∀ j s'', readPage s' f (s.bufDescTable k).pageNo = .ok j s'' →
            s''.bufPool j = s.bufPool k) ∧
        (∀ k, k < s.numBufs → (s.bufDescTable k).file ≠ some f →
          s'.bufDescTable k = s.bufDescTable k) ∧
        s'.bufPool = s.bufPool) := by
  have hs := reachable_inv s hR
  have hpost := flushFile_spec f s hs
  constructor
  · rintro ⟨k, hk, _, hkf, hkp⟩
    cases hr : flushFile s f with
    | ok a s' =>
      rw [hr] at hpost
      have := hpost.2.2.2.1 k (Nat.zero_le _) hk hkf
      omega
    | throw e s' =>
      rw [hr] at hpost
      rw [hpost.2.2.2.1]; rfl
    | undef => rw [hr] at hpost; exact absurd hpost id
    | nofuel => rw [hr] at hpost; exact absurd hpost id
  · intro hall
    cases hr : flushFile s f with
    | throw e s' =>
      rw [hr] at hpost
      obtain ⟨_, _, _, _, k, _, hk, hkf, hkp⟩ := hpost
      have := hall k hk (inv_valid_of_file s hs k hk f hkf) hkf
      omega
    | undef => rw [hr] at hpost; exact absurd hpost id
    | nofuel => rw [hr] at hpost; exact absurd hpost id
    | ok a s' =>
      rw [hr] at hpost
      obtain ⟨hi, hK, _, _, h5, h6, _⟩ := hpost
      have hN := hK.numBufs
      have hfile : ∀ k, k < s'.numBufs → (s'.bufDescTable k).file ≠ some f := by
        intro k hk
        rw [h5 k (hN ▸ hk)]
        by_cases hkf : (s.bufDescTable k).file = some f
        · simp [hkf, BufDesc.Clear]
        · simp [hkf]
      have hhash : ∀ p, s'.hashTable f p = none := by
        intro p
        cases hx : s'.hashTable f p with
        | none => rfl
        | some k =>
          obtain ⟨a, _, c, _⟩ := (hi.hash f p k).1 hx
          exact absurd c (hfile k a)
      refine ⟨s', rfl, hN, fun k hk _ => hfile k hk, hhash, ?_, ?_, hK.bufPool⟩
      · intro k hk _ hkf hkd
        have hdisk := h6 k (Nat.zero_le _) hk hkf hkd
        refine ⟨hdisk, ?_⟩
        intro j s'' hread
        rcases readPage_miss s' hi f _ (hhash _) with ⟨e, s1, hr1, _⟩ | hr1 |
          ⟨j1, s1, pg, hr1, _, _, _, _, hd1, _, hdk⟩
        · rw [hr1] at hread; exact Res.noConfusion hread
        · rw [hr1] at hread; exact Res.noConfusion hread
        · rw [hr1] at hread
          injection hread with e1 e2
          subst e1 e2
          rw [hdk f _ hfile, hdisk] at hd1
          have : pg = s.bufPool k := (Option.some.inj hd1).symm
          subst this
          simp [BufMgr.install, BufMgr.setDesc, BufMgr.hashInsert, BufMgr.setPage]
      · intro k hk hkf
        rw [h5 k hk]
        simp [hkf]

theorem reachable_pool2w : Reachable pool2w :=
  reachable_after_unPinPage pool2w0 0 1 true
    (Reachable.write pool2a 1 exPage reachable_pool2a (by decide) (by decide) (by decide))

/-- Witness of C8: in `pool2w` page 1 of file 0 is cached dirty and unpinned;
flushFile returns and the disk then holds the image of the frame. -/
theorem C8_witness :
    Reachable pool2w ∧
    (∀ k, k < pool2w.numBufs → (pool2w.bufDescTable k).valid = true →
      (pool2w.bufDescTable k).file = some 0 → (pool2w.bufDescTable k).pinCnt = 0) ∧
    ∃ s', flushFile pool2w 0 = .ok () s' ∧ (∀ p, s'.hashTable 0 p = none) ∧
      s'.disk 0 1 = some (pool2w.bufPool 1) := by
  have hall : ∀ k, k < pool2w.numBufs → (pool2w.bufDescTable k).valid = true →
      (pool2w.bufDescTable k).file = some 0 → (pool2w.bufDescTable k).pinCnt = 0 := by
    decide
  obtain ⟨s', h1, _, _, h4, h5, _⟩ := (C8_flushFile_contract pool2w reachable_pool2w 0).2 hall
  have h := (h5 1 (by decide) (by decide) (by decide) (by decide)).1
  have e : (pool2w.bufDescTable 1).pageNo = 1 := by decide
  rw [e] at h
  exact ⟨reachable_pool2w, hall, s', h1, h4, h⟩

/-! ## Pin accounting -/

theorem sumTo_congr (f g : Nat → Nat) (n : Nat) (h : ∀ k, k < n → f k = g k) :
    sumTo f n = sumTo g n := by
  induction n with
  | zero => rfl
  | succ n ih =>
    rw [sumTo, sumTo, ih (fun k hk => h k (by omega)), h n (by omega)]

theorem sumTo_update (f : Nat → Nat) (n k v : Nat) (hk : k < n) :
    sumTo (Function.update f k v) n + f k = sumTo f n + v := by
  induction n with
  | zero => omega
  | succ n ih =>
    rw [sumTo, sumTo]
    by_cases hkn : k = n
    · subst hkn
      rw [Function.update_same]
      have : sumTo (Function.update f k v) k = sumTo f k := by
        apply sumTo_congr
        intro j hj
        exact Function.update_noteq (by omega) _ _
      omega
    · rw [Function.update_noteq (Ne.symm hkn)]
      have := ih (by omega)
      omega

theorem sumTo_eq_zero (f : Nat → Nat) (n : Nat) :
    sumTo f n = 0 ↔ ∀ k, k < n → f k = 0 := by
  induction n with
  | zero => simp [sumTo]
  | succ n ih =>
    rw [sumTo]
    constructor
    · intro h k hk
      have h1 : sumTo f n = 0 := by omega
      have h2 : f n = 0 := by omega
      by_cases hkn : k = n
      · subst hkn; exact h2
      · exact ih.1 h1 k (by omega)
    · intro h
      have h1 := ih.2 (fun k hk => h k (by omega))
      have h2 := h n (by omega)
      omega

theorem totalPins_eq_zero (s : BufMgr) :
    totalPins s = 0 ↔ ∀ k, k < s.numBufs → (s.bufDescTable k).pinCnt = 0 :=
  sumTo_eq_zero _ _

theorem totalPins_setDesc (s : BufMgr) (k : FrameId) (d : BufDesc) (hk : k < s.numBufs) :
    totalPins (s.setDesc k d) + (s.bufDescTable k).pinCnt = totalPins s + d.pinCnt := by
  have h := sumTo_update (fun j => (s.bufDescTable j).pinCnt) s.numBufs k d.pinCnt hk
  have e : sumTo (fun j => ((s.setDesc k d).bufDescTable j).pinCnt) s.numBufs =
      sumTo (Function.update (fun j => (s.bufDescTable j).pinCnt) k d.pinCnt) s.numBufs := by
    apply sumTo_congr
    intro j _
    by_cases hj : j = k
    · subst hj; simp [BufMgr.setDesc]
    · simp [BufMgr.setDesc, Function.update_noteq hj]
  show sumTo (fun j => ((s.setDesc k d).bufDescTable j).pinCnt) s.numBufs + _ = _
  rw [e]
  exact h

theorem totalPins_kept (s s' : BufMgr) (hs' : Inv s') (hK : Kept s s') :
    totalPins s' = totalPins s := by
  unfold totalPins
  rw [hK.numBufs]
  apply sumTo_congr
  intro k hk
  rcases hK.frames k hk with ⟨_, _, c, _⟩ | ⟨c, v⟩
  · exact c
  · rw [c]; exact (hs'.clear k (hK.numBufs ▸ hk) v).2.1

theorem totalPins_install (s : BufMgr) (hs : Inv s) (k : FrameId) (hk : k < s.numBufs)
    (hv : (s.bufDescTable k).valid = false) (f : FileId) (p : PageId) (pg : Page) :
    totalPins (s.install k f p pg) = totalPins s + 1 := by
  have h := totalPins_setDesc ((s.setPage k pg).hashInsert f p k) k
    ((((s.setPage k pg).hashInsert f p k).bufDescTable k).Set f p) hk
  have h0 := (hs.clear k hk hv).2.1
  have e : totalPins ((s.setPage k pg).hashInsert f p k) = totalPins s := rfl
  rw [e] at h
  have e2 : (((s.setPage k pg).hashInsert f p k).bufDescTable k).pinCnt = 0 := h0
  rw [e2] at h
  simpa [BufDesc.Set] using h

theorem totalPins_readPage (s : BufMgr) (hs : Inv s) (f : FileId) (p : PageId)
    (k : FrameId) (s' : BufMgr) (h : readPage s f p = .ok k s') :
    Inv s' ∧ totalPins s' = totalPins s + 1 := by
  refine ⟨inv_readPage s hs f p s' (by rw [h]; rfl), ?_⟩
  cases hl : s.hashTable f p with
  | some j =>
    rw [readPage_hit s f p j hl] at h
    injection h with h1 h2
    subst h1 h2
    have hj := ((hs.hash f p j).1 hl).1
    have key : ∀ d : BufDesc, d.pinCnt = (s.bufDescTable j).pinCnt + 1 →
        totalPins (s.setDesc j d) = totalPins s + 1 := by
      intro d hd
      have := totalPins_setDesc s j d hj
      omega
    exact key _ rfl
  | none =>
    rcases readPage_miss s hs f p hl with ⟨e, s1, hr, _⟩ | hr |
      ⟨j, s1, pg, hr, hi1, hK, hjN, hjv, _, _, _⟩
    · rw [hr] at h; exact Res.noConfusion h
    · rw [hr] at h; exact Res.noConfusion h
    · rw [hr] at h
      injection h with h1 h2
      subst h1 h2
      rw [totalPins_install s1 hi1 j (hK.numBufs ▸ hjN) hjv, totalPins_kept s s1 hi1 hK]

theorem totalPins_allocPage (s : BufMgr) (hs : Inv s) (f : FileId)
    (a : PageId × FrameId) (s' : BufMgr) (h : allocPage s f = .ok a s') :
    Inv s' ∧ totalPins s' = totalPins s + 1 := by
  refine ⟨inv_allocPage s hs f s' (by rw [h]; rfl), ?_⟩
  rcases allocPage_cases s hs f with ⟨e, s1, hr, _⟩ | hr | ⟨j, s1, hr, hi1, hK, hjN, hjv, _⟩
  · rw [hr] at h; exact Res.noConfusion h
  · rw [hr] at h; exact Res.noConfusion h
  · rw [hr] at h
    injection h with h1 h2
    subst h2
    have hKN : s1.numBufs = s.numBufs := hK.numBufs
    rw [totalPins_install s1 hi1 j (hKN ▸ hjN) hjv, totalPins_kept _ s1 hi1 hK]
    rfl

theorem totalPins_unPinPage (s : BufMgr) (hs : Inv s) (f : FileId) (p : PageId) (d : Bool)
    (s' : BufMgr) (h : unPinPage s f p d = .ok () s') :
    Inv s' ∧ totalPins s' + 1 = totalPins s := by
  refine ⟨inv_unPinPage s hs f p d s' (by rw [h]; rfl), ?_⟩
  cases hl : s.hashTable f p with
  | none => rw [unPinPage, hl] at h; exact Res.noConfusion h
  | some k =>
    have hk := ((hs.hash f p k).1 hl).1
    by_cases hp : 0 < (s.bufDescTable k).pinCnt
    · rw [unPinPage_pinned s f p d k hl hp] at h
      injection h with h1 h2
      subst h2
      have key : ∀ d : BufDesc, d.pinCnt = (s.bufDescTable k).pinCnt - 1 →
          totalPins (s.setDesc k d) + 1 = totalPins s := by
        intro d hd
        have := totalPins_setDesc s k d hk
        omega
      exact key _ rfl
    · rw [unPinPage, hl] at h
      simp only [] at h
      rw [if_pos (by omega)] at h
      exact Res.noConfusion h

/-! ## Pin balance of the index operations -/

theorem bind_ok {σ α β : Type} (r : Res σ α) (k : α → σ → Res σ β) (b : β) (s' : σ)
    (h : r.bind k = .ok b s') : ∃ a s1, r = .ok a s1 ∧ k a s1 = .ok b s' := by
  cases r with
  | ok a s1 => exact ⟨a, s1, rfl, h⟩
  | throw e s1 => exact Res.noConfusion h
  | undef => exact Res.noConfusion h
  | nofuel => exact Res.noConfusion h

theorem call_ok {α : Type} (t : BTreeIndex) (r : Res BufMgr α) (a : α) (t' : BTreeIndex)
    (h : t.call r = .ok a t') : ∃ b, r = .ok a b ∧ t' = { t with bufMgr := b } := by
  cases r with
  | ok a1 b =>
    simp only [BTreeIndex.call] at h
    injection h with h1 h2
    subst h1 h2
    exact ⟨b, rfl, rfl⟩
  | throw e s1 => exact Res.noConfusion h
  | undef => exact Res.noConfusion h
  | nofuel => exact Res.noConfusion h

theorem pb_readPage (n : Int) (t : BTreeIndex) (p : PageId) (k : FrameId) (t' : BTreeIndex)
    (hp : PB n t) (h : t.readPage p = .ok k t') : PB (n + 1) t' := by
  obtain ⟨b, hb, ht⟩ := call_ok t _ k t' h
  subst ht
  obtain ⟨h1, h2⟩ := totalPins_readPage t.bufMgr hp.1 t.file p k b hb
  refine ⟨h1, ?_⟩
  show (totalPins b : Int) = n + 1
  rw [h2, ← hp.2]; push_cast; rfl

theorem pb_allocPage (n : Int) (t : BTreeIndex) (a : PageId × FrameId) (t' : BTreeIndex)
    (hp : PB n t) (h : t.allocPage = .ok a t') : PB (n + 1) t' := by
  obtain ⟨b, hb, ht⟩ := call_ok t _ a t' h
  subst ht
  obtain ⟨h1, h2⟩ := totalPins_allocPage t.bufMgr hp.1 t.file a b hb
  refine ⟨h1, ?_⟩
  show (totalPins b : Int) = n + 1
  rw [h2, ← hp.2]; push_cast; rfl

theorem pb_unPinPage (n : Int) (t : BTreeIndex) (p : PageId) (d : Bool) (t' : BTreeIndex)
    (hp : PB n t) (h : t.unPinPage p d = .ok () t') : PB (n - 1) t' := by
  obtain ⟨b, hb, ht⟩ := call_ok t _ () t' h
  subst ht
  obtain ⟨h1, h2⟩ := totalPins_unPinPage t.bufMgr hp.1 t.file p d b hb
  refine ⟨h1, ?_⟩
  show (totalPins b : Int) = n - 1
  have := hp.2
  omega

theorem pb_setPage (n : Int) (t : BTreeIndex) (k : FrameId) (pg : Page) (hp : PB n t)
    (h : pg.page_number = (t.bufMgr.bufPool k).page_number) :
    PB n { t with bufMgr := t.bufMgr.setPage k pg } := by
  refine ⟨inv_setPage t.bufMgr hp.1 k pg ?_, hp.2⟩
  intro hk hv
  rw [h]; exact hp.1.pageno k hk hv

theorem pb_edit (n : Int) (t : BTreeIndex) (k : FrameId) (f : Page → Page) (hp : PB n t)
    (h : ∀ pg, (f pg).page_number = pg.page_number) : PB n (t.edit k f) :=
  pb_setPage n t k _ hp (h _)

theorem shiftLeaf_page_number (n : Nat) (j : Int) (pg : Page) :
    (shiftLeaf n j pg).page_number = pg.page_number := by
  induction n generalizing j pg with
  | zero => rfl
  | succ n ih => rw [shiftLeaf, ih]

theorem insertLeafLoop_page_number (n : Nat) (i : Int) (pg : Page) (key : Int)
    (rid : RecordId) : (insertLeafLoop n i pg key rid).page_number = pg.page_number := by
  induction n generalizing i with
  | zero => rfl
  | succ n ih =>
    rw [insertLeafLoop]
    split
    · rfl
    · split
      · exact ih _
      · exact shiftLeaf_page_number _ _ _

theorem findIndexAndInsertLeaf_page_number (pg : Page) (key : Int) (rid : RecordId) :
    (findIndexAndInsertLeaf pg key rid).page_number = pg.page_number := by
  rw [findIndexAndInsertLeaf]
  split
  · rfl
  · exact insertLeafLoop_page_number _ _ _ _ _

theorem shiftNonLeaf_page_number (n : Nat) (j : Int) (pg : Page) :
    (shiftNonLeaf n j pg).page_number = pg.page_number := by
  induction n generalizing j pg with
  | zero => rfl
  | succ n ih => rw [shiftNonLeaf, ih]

theorem insertNonLeafLoop_page_number (n : Nat) (i : Int) (pg : Page) (key : Int)
    (pn : PageId) (m : Int) :
    (insertNonLeafLoop n i pg key pn m).1.page_number = pg.page_number := by
  induction n generalizing i pg key pn with
  | zero => rfl
  | succ n ih =>
    rw [insertNonLeafLoop]
    split
    · rfl
    · split
      · rfl
      · split
        · rw [ih]
        · split
          · exact ih _ _ _ _
          · exact shiftNonLeaf_page_number _ _ _

theorem shiftDown_page_number (n : Nat) (i : Int) (pg : Page) :
    (shiftDown n i pg).page_number = pg.page_number := by
  induction n generalizing i pg with
  | zero => rfl
  | succ n ih => rw [shiftDown, ih]

theorem pb_findIndexAndInsertNonLeaf (n : Int) (t : BTreeIndex) (c : FrameId)
    (hp : PB n t) : PB n (findIndexAndInsertNonLeaf t c) := by
  unfold findIndexAndInsertNonLeaf
  apply pb_edit
  · exact pb_setPage n t c _ hp (insertNonLeafLoop_page_number _ _ _ _ _ _)
  · intro pg; rfl

theorem pb_splitLeafMove (k : Nat) (i mid : Int) (c nw : FrameId) (n : Int)
    (t : BTreeIndex) (hp : PB n t) : PB n (splitLeafMove k i mid c nw t) := by
  induction k generalizing i t with
  | zero => exact hp
  | succ k ih =>
    rw [splitLeafMove]
    apply ih
    refine pb_edit _ _ _ _ ?_ (fun _ => rfl)
    refine pb_edit _ _ _ _ ?_ (fun _ => rfl)
    refine pb_edit _ _ _ _ ?_ (fun _ => rfl)
    refine pb_edit _ _ _ _ ?_ (fun _ => rfl)
    refine pb_edit _ _ _ _ ?_ (fun _ => rfl)
    exact pb_edit _ _ _ _ hp (fun _ => rfl)

theorem pb_splitNonLeafMove (k : Nat) (i mid : Int) (c nw : FrameId) (n : Int)
    (t : BTreeIndex) (hp : PB n t) : PB n (splitNonLeafMove k i mid c nw t) := by
  induction k generalizing i t with
  | zero => exact hp
  | succ k ih =>
    rw [splitNonLeafMove]
    apply ih
    refine pb_edit _ _ _ _ ?_ (fun _ => rfl)
    refine pb_edit _ _ _ _ ?_ (fun _ => rfl)
    refine pb_edit _ _ _ _ ?_ (fun _ => rfl)
    refine pb_edit _ _ _ _ ?_ (fun _ => rfl)
    refine pb_edit _ _ _ _ ?_ (fun _ => rfl)
    exact pb_edit _ _ _ _ hp (fun _ => rfl)

theorem pb_setPromotion (n : Int) (t : BTreeIndex) (p : PageId) (k : Int) (hp : PB n t) :
    PB n (t.setPromotion p k) := hp

theorem pb_splitLeafBody (n : Int) (t : BTreeIndex) (c nw : FrameId) (p : PageId)
    (key : Int) (rid : RecordId) (hp : PB n t) : PB n (splitLeafBody t c nw p key rid) := by
  unfold splitLeafBody
  apply pb_setPromotion
  refine pb_edit _ _ _ _ ?_ (fun _ => rfl)
  refine pb_edit _ _ _ _ ?_ (fun _ => rfl)
  refine pb_edit _ _ _ _ ?_ (fun _ => rfl)
  have h2 := pb_splitLeafMove
    (t.leafOccupancy - t.leafOccupancy / 2).toNat (t.leafOccupancy / 2)
    (t.leafOccupancy / 2) c nw n t hp
  split
  · exact pb_edit _ _ _ _ h2 (fun pg => findIndexAndInsertLeaf_page_number pg key rid)
  · exact pb_edit _ _ _ _ h2 (fun pg => findIndexAndInsertLeaf_page_number pg key rid)

theorem pb_initNewRoot (n : Int) (t : BTreeIndex) (nr : FrameId) (a b : PageId)
    (hp : PB n t) : PB n (initNewRoot t nr a b) := by
  unfold initNewRoot
  refine pb_edit _ _ _ _ ?_ (fun _ => rfl)
  refine pb_edit _ _ _ _ ?_ (fun _ => rfl)
  refine pb_edit _ _ _ _ ?_ (fun _ => rfl)
  refine pb_edit _ _ _ _ ?_ (fun _ => rfl)
  exact pb_edit _ _ _ _ hp (fun _ => rfl)

theorem pb_splitNonLeafBody (n : Int) (t : BTreeIndex) (c nw : FrameId) (p : PageId)
    (key : Int) (hp : PB n t) : PB n (splitNonLeafBody t c nw p key) := by
  unfold splitNonLeafBody
  have h2 := pb_splitNonLeafMove
    (t.nodeOccupancy - t.nodeOccupancy / 2).toNat (t.nodeOccupancy / 2)
    (t.nodeOccupancy / 2) c nw n t hp
  have h4 := pb_edit n _ c (fun pg =>
      { pg with pageNoArray := Function.update pg.pageNoArray t.nodeOccupancy INVALID_NUMBER })
    (pb_edit n _ nw (fun pg =>
      { pg with
        pageNoArray := Function.update pg.pageNoArray
          (t.nodeOccupancy - t.nodeOccupancy / 2 - 1)
          (((splitNonLeafMove (t.nodeOccupancy - t.nodeOccupancy / 2).toNat
            (t.nodeOccupancy / 2) (t.nodeOccupancy / 2) c nw t).page c).pageNoArray
              t.nodeOccupancy) }) h2 (fun _ => rfl)) (fun _ => rfl)
  simp only []
  split
  · apply pb_findIndexAndInsertNonLeaf
    apply pb_setPromotion
    refine pb_edit _ _ _ _ ?_ (fun _ => rfl)
    exact pb_edit _ _ _ _ h4 (fun _ => rfl)
  · apply pb_findIndexAndInsertNonLeaf
    apply pb_setPromotion
    refine pb_edit _ _ _ _ ?_ (fun _ => rfl)
    refine pb_edit _ _ _ _ ?_ (fun _ => rfl)
    exact pb_edit _ _ _ _ h4 (fun pg => shiftDown_page_number _ _ pg)

theorem pb_splitLeaf (n : Int) (t : BTreeIndex) (c : FrameId) (id : PageId) (key : Int)
    (rid : RecordId) (t' : BTreeIndex) (hp : PB n t)
    (h : splitLeaf t c id key rid = .ok () t') : PB n t' := by
  unfold splitLeaf at h
  obtain ⟨a, t1, h1, h⟩ := bind_ok _ _ _ _ h
  have p1 := pb_allocPage n t a t1 hp h1
  have p7 := pb_splitLeafBody (n + 1) t1 c a.2 a.1 key rid p1
  try simp only [] at h
  split at h
  · obtain ⟨b, t8, h8, h⟩ := bind_ok _ _ _ _ h
    have p8 := pb_allocPage _ _ b t8 p7 h8
    have p13 := pb_initNewRoot _ t8 b.2 id a.1 p8
    try simp only [] at h
    obtain ⟨_, t14, h14, h⟩ := bind_ok _ _ _ _ h
    have p14 := pb_unPinPage _ _ _ _ t14 p13 h14
    obtain ⟨hd, t16, h16, h⟩ := bind_ok _ _ _ _ h
    have p16 := pb_readPage _ { t14 with rootPageNum := b.1 } _ hd t16 p14 h16
    try simp only [] at h
    obtain ⟨_, t18, h18, h⟩ := bind_ok _ _ _ _ h
    have p17 := pb_edit _ t16 hd (fun pg => { pg with rootPageNo := b.1 }) p16 (fun _ => rfl)
    have p18 := pb_unPinPage _ _ _ _ t18 p17 h18
    have p19 := pb_unPinPage _ _ _ _ t' p18 h
    have e : n + 1 + 1 - 1 + 1 - 1 - 1 = n := by ring
    rw [e] at p19; exact p19
  · have p8 := pb_unPinPage _ _ _ _ t' p7 h
    have e : n + 1 - 1 = n := by ring
    rw [e] at p8; exact p8

theorem pb_splitNonLeaf (n : Int) (t : BTreeIndex) (c : FrameId) (id : PageId) (key : Int)
    (t' : BTreeIndex) (hp : PB n t)
    (h : splitNonLeaf t c id key = .ok () t') : PB n t' := by
  unfold splitNonLeaf at h
  obtain ⟨a, t1, h1, h⟩ := bind_ok _ _ _ _ h
  have p1 := pb_allocPage n t a t1 hp h1
  have p5 := pb_splitNonLeafBody (n + 1) t1 c a.2 a.1 key p1
  try simp only [] at h
  split at h
  · obtain ⟨b, t6, h6, h⟩ := bind_ok _ _ _ _ h
    have p6 := pb_allocPage _ _ b t6 p5 h6
    have p11 := pb_initNewRoot _ t6 b.2 id t6.newNonLeafNodePageNum p6
    try simp only [] at h
    obtain ⟨hd, t13, h13, h⟩ := bind_ok _ _ _ _ h
    have p13 := pb_readPage _
      { initNewRoot t6 b.2 id t6.newNonLeafNodePageNum with rootPageNum := b.1 } _ hd t13
      p11 h13
    try simp only [] at h
    obtain ⟨_, t15, h15, h⟩ := bind_ok _ _ _ _ h
    have p14 := pb_edit _ t13 hd (fun pg => { pg with rootPageNo := b.1 }) p13 (fun _ => rfl)
    have p15 := pb_unPinPage _ _ _ _ t15 p14 h15
    obtain ⟨_, t16, h16, h⟩ := bind_ok _ _ _ _ h
    have p16 := pb_unPinPage _ _ _ _ t16 p15 h16
    have p17 := pb_unPinPage _ _ _ _ t' p16 h
    have e : n + 1 + 1 + 1 - 1 - 1 - 1 = n := by ring
    rw [e] at p17; exact p17
  · have p8 := pb_unPinPage _ _ _ _ t' p5 h
    have e : n + 1 - 1 = n := by ring
    rw [e] at p8; exact p8

theorem pb_split (n : Int) (t : BTreeIndex) (leaf : Bool) (c : FrameId) (id : PageId)
    (key : Int) (rid : RecordId) (t' : BTreeIndex) (hp : PB n t)
    (h : split t leaf c id key rid = .ok () t') : PB n t' := by
  unfold split at h
  split at h
  · exact pb_splitLeaf n t c id key rid t' hp h
  · exact pb_splitNonLeaf n t c id key t' hp h

theorem pb_absorbPromotion (n : Int) (t : BTreeIndex) (c : FrameId) (next : PageId)
    (key : Int) (rid : RecordId) (t' : BTreeIndex) (hp : PB n t)
    (h : absorbPromotion t c next key rid = .ok () t') : PB n t' := by
  unfold absorbPromotion at h
  split at h
  · split at h
    · injection h with _ h2
      subst h2
      exact pb_findIndexAndInsertNonLeaf n t c hp
    · exact pb_split n t false c next key rid t' hp h
  · injection h with _ h2
    subst h2
    exact hp

theorem pb_recursionInsert (fuel : Nat) : ∀ (n : Int) (t : BTreeIndex) (c : FrameId)
    (leaf : Bool) (id : PageId) (key : Int) (rid : RecordId) (t' : BTreeIndex),
    PB n t → recursionInsert fuel t c leaf id key rid = .ok () t' → PB n t' := by
  induction fuel with
  | zero =>
    intro n t c leaf id key rid t' _ h
    exact Res.noConfusion h
  | succ fuel ih =>
    intro n t c leaf id key rid t' hp h
    rw [recursionInsert] at h
    split at h
    · split at h
      · exact Res.noConfusion h
      · next nextPage _ =>
        obtain ⟨child, t1, h1, h⟩ := bind_ok _ _ _ _ h
        have p1 := pb_readPage n t nextPage child t1 hp h1
        obtain ⟨_, t2, h2, h⟩ := bind_ok _ _ _ _ h
        have p2 := ih _ _ _ _ _ _ _ _ p1 h2
        obtain ⟨_, t3, h3, h⟩ := bind_ok _ _ _ _ h
        have p3 := pb_absorbPromotion _ _ _ _ _ _ _ p2 h3
        have p4 := pb_unPinPage _ _ _ _ t' p3 h
        have e : n + 1 - 1 = n := by ring
        rw [e] at p4; exact p4
    · split at h
      · injection h with _ h2
        subst h2
        exact pb_edit n t c _ hp (fun pg => findIndexAndInsertLeaf_page_number pg key rid)
      · exact pb_split n t true c id key rid t' hp h

theorem pb_insertEntry (fuel : Nat) (n : Int) (t : BTreeIndex) (key : Int) (rid : RecordId)
    (t' : BTreeIndex) (hp : PB n t) (h : insertEntry fuel t key rid = .ok () t') :
    PB n t' := by
  unfold insertEntry at h
  obtain ⟨root, t1, h1, h⟩ := bind_ok _ _ _ _ h
  have p1 := pb_readPage n t _ root t1 hp h1
  obtain ⟨_, t2, h2, h⟩ := bind_ok _ _ _ _ h
  have p2 := pb_recursionInsert fuel _ _ _ _ _ _ _ _ p1 h2
  have p3 := pb_unPinPage _ _ _ _ t' p2 h
  have e : n + 1 - 1 = n := by ring
  rw [e] at p3; exact p3

theorem pb_setNextScan (n : Int) (t : BTreeIndex) (p : PageId) (t' : BTreeIndex)
    (hp : PB n t) (h : setNextScan t p = .ok () t') : PB (n + 1) t' := by
  unfold setNextScan at h
  obtain ⟨k, t2, h2, h⟩ := bind_ok _ _ _ _ h
  have p2 := pb_readPage n { t with nextEntry := 0, currentPageNum := p } _ k t2 hp h2
  injection h with _ h3
  subst h3
  exact p2

theorem pb_recurScanLoop (fuel : Nat) : ∀ (n : Int) (t : BTreeIndex) (c : FrameId)
    (leaf : Bool) (t' : BTreeIndex),
    PB n t → recurScanLoop fuel t c leaf = .ok () t' → PB n t' := by
  induction fuel with
  | zero =>
    intro n t c leaf t' _ h
    exact Res.noConfusion h
  | succ fuel ih =>
    intro n t c leaf t' hp h
    have enter : ∀ (t2 : BTreeIndex), PB n t2 →
        (match t2.currentPageData with
          | none => Res.undef
          | some p => recurScanLoop fuel t2 p (isLeaf (t2.page p))) = .ok () t' → PB n t' := by
      intro t2 p2 h
      split at h
      · exact Res.noConfusion h
      · exact ih _ _ _ _ _ p2 h
    have cross : ∀ (t0 : BTreeIndex) (q old : PageId) (k : BTreeIndex → Res BTreeIndex Unit),
        PB n t0 → (∀ t2, PB n t2 → k t2 = .ok () t' → PB n t') →
        ((setNextScan t0 q).bind fun _ t1 => (t1.unPinPage old false).bind fun _ t2 => k t2)
          = .ok () t' → PB n t' := by
      intro t0 q old k p0 hk h
      obtain ⟨_, t1, h1, h⟩ := bind_ok _ _ _ _ h
      have p1 := pb_setNextScan n t0 q t1 p0 h1
      obtain ⟨_, t2, h2, h⟩ := bind_ok _ _ _ _ h
      have p2 := pb_unPinPage _ _ _ _ t2 p1 h2
      have e : n + 1 - 1 = n := by ring
      rw [e] at p2
      exact hk t2 p2 h
    have descend : ∀ (q : BTreeIndex → PageId),
        ((t.unPinPage t.currentPageNum false).bind fun _ t1 =>
          (setNextScan t1 (q t1)).bind fun _ t2 =>
            (match t2.currentPageData with
              | none => Res.undef
              | some p => recurScanLoop fuel t2 p (isLeaf (t2.page p)))) = .ok () t' →
        PB n t' := by
      intro q h
      obtain ⟨_, t1, h1, h⟩ := bind_ok _ _ _ _ h
      have p1 := pb_unPinPage _ _ _ _ t1 hp h1
      obtain ⟨_, t2, h2, h⟩ := bind_ok _ _ _ _ h
      have p2 := pb_setNextScan _ t1 _ t2 p1 h2
      have e : n - 1 + 1 = n := by ring
      rw [e] at p2
      exact enter t2 p2 h
    rw [recurScanLoop] at h
    try simp only [] at h
    split at h
    · split at h
      · split at h
        · split at h
          · exact cross t _ _ _ hp (fun t2 p2 h2 => ih _ _ _ _ _ p2 h2) h
          · exact Res.noConfusion h
        · refine ih _ _ _ _ _ ?_ h
          exact hp
      · split at h
        · injection h with _ h2
          subst h2; exact hp
        · exact Res.noConfusion h
    · split at h
      · split at h
        · exact cross t _ _ _ hp enter h
        · refine ih _ _ _ _ _ ?_ h
          exact hp
      · split at h
        · exact descend (fun t1 => (t1.page c).pageNoArray (t1.nextEntry + 1)) h
        · exact descend (fun t1 => (t1.page c).pageNoArray t1.nextEntry) h

theorem pb_recurScan (fuel : Nat) (n : Int) (t t' : BTreeIndex) (hp : PB n t)
    (h : recurScan fuel t = .ok () t') : PB n t' := by
  unfold recurScan at h
  split at h
  · exact Res.noConfusion h
  · exact pb_recurScanLoop fuel _ _ _ _ _ hp h

theorem pb_endScan (n : Int) (t t' : BTreeIndex) (hp : PB n t)
    (h : endScan t = .ok () t') : PB (n - 1) t' := by
  unfold endScan at h
  split at h
  · exact Res.noConfusion h
  · obtain ⟨_, t2, h2, h⟩ := bind_ok _ _ _ _ h
    have p2 := pb_unPinPage n { t with scanExecuting := false } _ _ t2 hp h2
    injection h with _ h3
    subst h3
    exact p2

theorem pb_scanNext (n : Int) (t : BTreeIndex) (rid : RecordId) (t' : BTreeIndex)
    (hp : PB n t) (h : scanNext t = .ok rid t') : PB n t' := by
  unfold scanNext at h
  split at h
  · exact Res.noConfusion h
  · split at h
    · exact Res.noConfusion h
    · simp only [] at h
      split at h
      · exact Res.noConfusion h
      · split at h
        · split at h
          · obtain ⟨_, t1, h1, h⟩ := bind_ok _ _ _ _ h
            have p1 := pb_setNextScan n t _ t1 hp h1
            obtain ⟨_, t2, h2, h⟩ := bind_ok _ _ _ _ h
            have p2 := pb_unPinPage _ _ _ _ t2 p1 h2
            injection h with _ h3
            subst h3
            have e : n + 1 - 1 = n := by ring
            rw [e] at p2; exact p2
          · injection h with _ h3
            subst h3; exact hp
        · injection h with _ h3
          subst h3; exact hp

theorem pb_startScanSetup (n : Int) (t : BTreeIndex) (lowVal : Int) (lowOp : Operator)
    (highVal : Int) (highOp : Operator) (t' : BTreeIndex) (hp : PB n t)
    (h : startScanSetup t lowVal lowOp highVal highOp = .ok () t') :
    PB (if t.scanExecuting then n else n + 1) t' := by
  unfold startScanSetup at h
  split at h
  · exact Res.noConfusion h
  · split at h
    · exact Res.noConfusion h
    · split at h
      · exact Res.noConfusion h
      · try simp only [] at h
        obtain ⟨_, t0, h0, h⟩ := bind_ok _ _ _ _ h
        obtain ⟨_, t2, h2, h⟩ := bind_ok _ _ _ _ h
        injection h with _ h3
        subst h3
        have bounds : ∀ m, PB m t2 → PB m (setScanBounds t2 lowVal lowOp highVal highOp) := by
          intro m hm
          unfold setScanBounds
          simp only []
          split <;> split <;> split <;> split <;> exact hm
        apply bounds
        cases hse : t.scanExecuting with
        | true =>
          rw [hse] at h0
          simp only [if_true] at h0 ⊢
          have p0 := pb_endScan n t t0 hp h0
          have p2 := pb_setNextScan _ { t0 with scanExecuting := true } _ t2 p0 h2
          have e : n - 1 + 1 = n := by ring
          rw [e] at p2; exact p2
        | false =>
          rw [hse] at h0
          simp only [Bool.false_eq_true, if_false] at h0 ⊢
          injection h0 with _ h4
          subst h4
          exact pb_setNextScan _ { t with scanExecuting := true } _ t2 hp h2

theorem pb_startScan (fuel : Nat) (n : Int) (t : BTreeIndex) (lowVal : Int)
    (lowOp : Operator) (highVal : Int) (highOp : Operator) (t' : BTreeIndex) (hp : PB n t)
    (h : startScan fuel t lowVal lowOp highVal highOp = .ok () t') :
    PB (if t.scanExecuting then n else n + 1) t' := by
  unfold startScan at h
  obtain ⟨_, t7, h7, h⟩ := bind_ok _ _ _ _ h
  exact pb_recurScan fuel _ t7 t' (pb_startScanSetup n t _ _ _ _ t7 hp h7) h

theorem pb_scanNexts (n : Int) (t t' : BTreeIndex) (hp : PB n t) (h : ScanNexts t t') :
    PB n t' := by
  induction h with
  | none t => exact hp
  | next t t1 t2 rid h1 _ ih => exact ih (pb_scanNext n t rid t1 hp h1)

theorem pb_zero (t : BTreeIndex) :
    PB 0 t ↔ Inv t.bufMgr ∧
      ∀ k, k < t.bufMgr.numBufs → (t.bufMgr.bufDescTable k).pinCnt = 0 := by
  unfold PB
  rw [← totalPins_eq_zero]
  constructor
  · rintro ⟨h1, h2⟩
    exact ⟨h1, by exact_mod_cast h2⟩
  · rintro ⟨h1, h2⟩
    exact ⟨h1, by exact_mod_cast h2⟩

theorem pb_insertAll (fuel : Nat) (recs : List (Int × RecordId)) : ∀ (n : Int)
    (t t' : BTreeIndex), PB n t → insertAll fuel recs t = .ok () t' → PB n t' := by
  induction recs with
  | nil =>
    intro n t t' hp h
    injection h with _ h2
    subst h2; exact hp
  | cons r rest ih =>
    intro n t t' hp h
    obtain ⟨key, rid⟩ := r
    rw [insertAll] at h
    obtain ⟨_, t1, h1, h⟩ := bind_ok _ _ _ _ h
    exact ih n t1 t' (pb_insertEntry fuel n t key rid t1 hp h1) h


theorem after_eq {σ : Type} (r : Res σ Unit) (s0 : σ) (h : r.val? = some ()) :
    r = .ok () (r.after s0) := by
  cases r with
  | ok a s => rfl
  | throw e s => exact absurd h (by simp [Res.val?])
  | undef => exact absurd h (by simp [Res.val?])
  | nofuel => exact absurd h (by simp [Res.val?])

theorem pb_congr (n : Int) (t t' : BTreeIndex) (hp : PB n t)
    (h : t'.bufMgr = t.bufMgr) : PB n t' := by
  unfold PB at hp ⊢
  rw [h]; exact hp

theorem pb_flushFile (n : Int) (t t' : BTreeIndex) (hp : PB n t)
    (h : t.call (flushFile t.bufMgr t.file) = .ok () t') : PB n t' := by
  obtain ⟨b, hb, ht⟩ := call_ok t _ () t' h
  subst ht
  have hf := flushFile_spec t.file t.bufMgr hp.1
  rw [hb] at hf
  refine ⟨hf.1, ?_⟩
  show (totalPins b : Int) = n
  rw [totalPins_kept t.bufMgr b hf.1 hf.2.1]
  exact hp.2

theorem pb_initMeta (n : Int) (t : BTreeIndex) (k : FrameId) (name : String) (p : PageId)
    (hp : PB n t) : PB n (initMeta t k name p) := by
  unfold initMeta
  refine pb_edit _ _ _ _ ?_ (fun _ => rfl)
  refine pb_edit _ _ _ _ ?_ (fun _ => rfl)
  refine pb_edit _ _ _ _ ?_ (fun _ => rfl)
  exact pb_edit _ _ _ _ hp (fun _ => rfl)

theorem pb_initRootLeaf (n : Int) (t : BTreeIndex) (k : FrameId) (hp : PB n t) :
    PB n (initRootLeaf t k) := by
  unfold initRootLeaf
  refine pb_edit _ _ _ _ ?_ (fun _ => rfl)
  refine pb_edit _ _ _ _ ?_ (fun _ => rfl)
  exact pb_edit _ _ _ _ hp (fun _ => rfl)

/-- The constructor leaves as many pins as it found. -/
theorem pb_new (fuel : Nat) (n : Int) (b : BufMgr) (file : FileId) (found : Bool)
    (first : PageId) (name : String) (off : Int) (ty : Nat) (l m : Int)
    (recs : List (Int × RecordId)) (t' : BTreeIndex) (hb : Inv b)
    (hn : (totalPins b : Int) = n)
    (h : BTreeIndex.new fuel b file found first name off ty l m recs = .ok () t') :
    PB n t' := by
  unfold BTreeIndex.new at h
  try simp only [] at h
  obtain ⟨_, t7, h7, h⟩ := bind_ok _ _ _ _ h
  have p7 : PB (n + 1) t7 := by
    split at h7
    · obtain ⟨mp, t2, h2, h7⟩ := bind_ok _ _ _ _ h7
      injection h7 with _ h3
      subst h3
      refine pb_readPage n _ _ mp t2 ?_ h2
      exact ⟨hb, hn⟩
    · obtain ⟨a, t2, h2, h7⟩ := bind_ok _ _ _ _ h7
      injection h7 with _ h3
      subst h3
      have p2 := pb_allocPage n _ a t2 (by
        refine ⟨inv_disk b hb _ _ ?_, hn⟩
        exact disk_update_wf' b.disk hb.disk file) h2
      exact pb_congr (n + 1) (initMeta t2 a.2 name a.1) _ (pb_initMeta _ _ _ _ _ p2) rfl
  obtain ⟨_, t8, h8, h⟩ := bind_ok _ _ _ _ h
  have p8 := pb_unPinPage _ _ _ _ t8 p7 h8
  obtain ⟨a, t9, h9, h⟩ := bind_ok _ _ _ _ h
  have p9 := pb_allocPage _ _ a t9 p8 h9
  try simp only [] at h
  obtain ⟨_, t14, h14, h⟩ := bind_ok _ _ _ _ h
  have p13 := pb_initRootLeaf _ { t9 with rootPageNum := a.1 } a.2 p9
  have p14 := pb_unPinPage _ _ _ _ t14 p13 h14
  obtain ⟨_, t15, h15, h⟩ := bind_ok _ _ _ _ h
  have p15 := pb_insertAll fuel recs _ t14 t15 p14 h15
  have p16 := pb_flushFile _ t15 t' p15 h
  have e : n + 1 - 1 + 1 - 1 = n := by ring
  rw [e] at p16; exact p16

/-! ## The concrete index states -/

theorem inv_pool10 : Inv pool10 :=
  inv_fresh 10 (by decide) _ _ (fun _ _ _ h => absurd h (by simp))

theorem idx0_ok :
    BTreeIndex.new 10 pool10 0 false 1 "rel" 0 0 4 4 [] = .ok () idx0 :=
  after_eq _ blankIndex (by decide!)

theorem pb_idx0 : PB 0 idx0 :=
  pb_new 10 0 pool10 0 false 1 "rel" 0 0 4 4 [] idx0 inv_pool10 (by decide) idx0_ok

theorem idx5_ok : insertAll 10 keys5 idx0 = .ok () idx5 :=
  after_eq _ idx0 (by decide!)

theorem pb_idx5 : PB 0 idx5 := pb_insertAll 10 keys5 0 idx0 idx5 pb_idx0 idx5_ok

theorem idx5f_ok :
    BTreeIndex.new 10 pool10 0 false 1 "rel" 0 0 4 4 keys5 = .ok () idx5f :=
  after_eq _ blankIndex (by decide!)

theorem pb_idx5f : PB 0 idx5f :=
  pb_new 10 0 pool10 0 false 1 "rel" 0 0 4 4 keys5 idx5f inv_pool10 (by decide) idx5f_ok

/-! ## The leaf loop of `recurScan` past a leaf boundary -/

theorem call_readPage_hit (t : BTreeIndex) (p : PageId) (j : FrameId)
    (h : t.bufMgr.hashTable t.file p = some j) :
    t.readPage p = .ok j { t with bufMgr := t.bufMgr.pin j } := by
  unfold BTreeIndex.readPage
  rw [readPage_hit t.bufMgr t.file p j h]
  rfl

theorem call_unPinPage_pinned (t : BTreeIndex) (p : PageId) (d : Bool) (j : FrameId)
    (h : t.bufMgr.hashTable t.file p = some j) (hp : 0 < (t.bufMgr.bufDescTable j).pinCnt) :
    t.unPinPage p d = .ok () { t with bufMgr := t.bufMgr.unpin j d } := by
  unfold BTreeIndex.unPinPage
  rw [unPinPage_pinned t.bufMgr t.file p d j h hp]
  rfl

theorem setNextScan_hit (t : BTreeIndex) (p : PageId) (j : FrameId)
    (h : t.bufMgr.hashTable t.file p = some j) :
    setNextScan t p = .ok () { t with
      nextEntry := 0, currentPageNum := p, currentPageData := some j,
      bufMgr := t.bufMgr.pin j } := by
  unfold setNextScan
  simp only []
  rw [call_readPage_hit { t with nextEntry := 0, currentPageNum := p } p j h]
  rfl

/-- Crossing to the cached right sibling keeps the situation: the loop goes on
reading the old leaf. -/
theorem leafGap_cross (t : BTreeIndex) (c : FrameId) (h : LeafGap t c) :
    ∃ t1 t2, setNextScan t (t.page c).rightSibPageNo = .ok () t1 ∧
      t1.unPinPage t.currentPageNum false = .ok () t2 ∧ LeafGap t2 c := by
  obtain ⟨j, hj⟩ := h.cached
  obtain ⟨jo, hjo, hpo⟩ := h.pinned
  have h1 := setNextScan_hit t (t.page c).rightSibPageNo j hj
  have hp1 : 0 < ((t.bufMgr.pin j).bufDescTable jo).pinCnt := by
    by_cases e : jo = j
    · subst e; simp [BufMgr.pin, BufMgr.setDesc]
    · simp only [BufMgr.pin, BufMgr.setDesc, Function.update_noteq e]; exact hpo
  have h2 := call_unPinPage_pinned
    { t with
      nextEntry := 0, currentPageNum := (t.page c).rightSibPageNo, currentPageData := some j,
      bufMgr := t.bufMgr.pin j } t.currentPageNum false jo hjo hp1
  refine ⟨_, _, h1, h2, ?_, h.below, h.sibling, ⟨j, hj⟩, ?_⟩
  · have := h.entry
    show (0 : Int) ≤ 0 ∧ (0 : Int) ≤ (t.page c).numKeys - 1
    omega
  · refine ⟨j, hj, ?_⟩
    show 0 < (((t.bufMgr.pin j).unpin jo false).bufDescTable j).pinCnt
    by_cases e : jo = j
    · subst e
      simp only [BufMgr.unpin, BufMgr.pin, BufMgr.setDesc, Function.update_same]
      omega
    · have e' : j ≠ jo := fun x => e x.symm
      simp only [BufMgr.unpin, BufMgr.pin, BufMgr.setDesc, Function.update_noteq e',
        Function.update_same]
      omega

/-- From such a situation the leaf loop of `recurScan` never ends. -/
theorem leafGap_never_ends (fuel : Nat) : ∀ (t : BTreeIndex) (c : FrameId),
    LeafGap t c → recurScanLoop fuel t c true = .nofuel := by
  induction fuel with
  | zero => intro t c _; rfl
  | succ fuel ih =>
    intro t c h
    rw [recurScanLoop]
    simp only [if_true]
    have hlt : (t.page c).keyArray t.nextEntry < t.inclLow :=
      h.below _ h.entry.1 (by have := h.entry.2; omega)
    rw [if_pos hlt]
    by_cases hlast : t.nextEntry = (t.page c).numKeys - 1
    · rw [if_pos hlast, if_pos h.sibling]
      obtain ⟨t1, t2, h1, h2, hg⟩ := leafGap_cross t c h
      rw [h1]
      simp only [Res.bind]
      rw [h2]
      exact ih _ c hg
    · rw [if_neg hlast]
      apply ih
      refine ⟨?_, h.below, h.sibling, h.cached, h.pinned⟩
      have := h.entry
      show 0 ≤ t.nextEntry + 1 ∧ t.nextEntry + 1 ≤ (t.page c).numKeys - 1
      omega

/-! ## Claims about the index -/

theorem scanA_ok : startScanSetup idx5 25 .GTE 100 .LTE = .ok () scanA :=
  after_eq _ idx5 (by decide!)

theorem scanA1_ok : scanA.unPinPage scanA.currentPageNum false = .ok () scanA1 :=
  after_eq _ scanA (by decide!)

theorem scanB_ok :
    setNextScan scanA1 ((scanA1.page 2).pageNoArray scanA1.nextEntry) = .ok () scanB :=
  after_eq _ scanA1 (by decide!)

theorem scanA_descends (n : Nat) :
    recurScan (n + 1) scanA = recurScanLoop n scanB 0 true := by
  have h0 : scanA.currentPageData = some 2 := by decide!
  have hl : isLeaf (scanA.page 2) = false := by decide!
  have h1 : ¬ ((scanA.page 2).keyArray scanA.nextEntry < scanA.inclLow) := by decide!
  have h2 : ¬ ((scanA.page 2).keyArray scanA.nextEntry = scanA.inclLow) := by decide!
  have h5 : scanB.currentPageData = some 0 := by decide!
  have h6 : isLeaf (scanB.page 0) = true := by decide!
  unfold recurScan
  rw [h0]
  simp only []
  rw [hl, recurScanLoop]
  simp only [Bool.false_eq_true, if_false]
  rw [if_neg h1, if_neg h2, scanA1_ok]
  simp only [Res.bind]
  rw [scanB_ok]
  simp only []
  rw [h5]
  simp only []
  rw [h6]

theorem leafGap_scanB : LeafGap scanB 0 := by
  have hn : (scanB.page 0).numKeys = 2 := by decide!
  refine ⟨by decide!, ?_, by decide!, ⟨1, by decide!⟩, ⟨0, by decide!, by decide!⟩⟩
  intro i h1 h2
  rw [hn] at h2
  have : i = 0 ∨ i = 1 := by omega
  rcases this with e | e
  · subst e; decide!
  · subst e; decide!

theorem scanA_zero : recurScan 0 scanA = .nofuel := by
  have h0 : scanA.currentPageData = some 2 := by decide!
  unfold recurScan
  rw [h0]
  simp only []
  rw [recurScanLoop]

theorem startScan_idx5 (fuel : Nat) :
    startScan fuel idx5 25 .GTE 100 .LTE = recurScan fuel scanA := by
  unfold startScan
  rw [scanA_ok]
  simp only [Res.bind]

/-- C1 (the code departs from the claim): a freshly created index (leaf capacity
4) receives the distinct keys 10, 20, 30, 40, 50 by insertEntry; the stored keys
30, 40, 50 lie in [25, 100]; yet startScan(25, GTE, 100, LTE) does not return,
whatever the fuel: the descent reaches the leaf [10, 20], crosses to its right
sibling and goes on reading the old leaf through the stale local `curPage`. -/
theorem C1_startScan_never_returns_at_leaf_gap :
    BTreeIndex.new 10 pool10 0 false 1 "rel" 0 0 4 4 [] = .ok () idx0 ∧
    insertAll 10 keys5 idx0 = .ok () idx5 ∧
    (keys5.map Prod.fst).Nodup ∧
    (∃ k ∈ keys5.map Prod.fst, (25 : Int) ≤ k ∧ k ≤ 100) ∧
    ∀ fuel, startScan fuel idx5 25 .GTE 100 .LTE = .nofuel := by
  refine ⟨idx0_ok, idx5_ok, by decide, ⟨30, by decide, by decide, by decide⟩, ?_⟩
  intro fuel
  rw [startScan_idx5]
  cases fuel with
  | zero => exact scanA_zero
  | succ n =>
    rw [scanA_descends n]
    exact leafGap_never_ends n scanB 0 leafGap_scanB

/-- C9 (the code departs from the claim): the index is created over a relation
with the keys 10..50 (leaf capacity 4) and flushed by the constructor; then
insertEntry(35) puts the key into the non-root leaf page 3, whose frame is
unpinned with its dirty bit still clear, so that the next flush leaves the old
image on disk and the entry is lost; the root page 4, which the call does not
change, is unpinned dirty.  Likewise the header page 1 of `idx5`, whose
rootPageNo the root split has rewritten to 4, is left clean. -/
theorem C9_modified_leaf_is_unpinned_clean :
    BTreeIndex.new 10 pool10 0 false 1 "rel" 0 0 4 4 keys5 = .ok () idx5f ∧
    insertEntry 10 idx5f 35 (ridOf 35) = .ok () idx5g ∧
    idx5g.rootPageNum = 4 ∧ idx5g.bufMgr.hashTable 0 3 = some 3 ∧
    (idx5g.bufMgr.bufPool 3).numKeys = 4 ∧ (idx5g.bufMgr.bufPool 3).keyArray 1 = 35 ∧
    (idx5g.bufMgr.bufDescTable 3).pinCnt = 0 ∧
    (idx5g.bufMgr.bufDescTable 3).dirty = false ∧
    (idx5g.bufMgr.hashTable 0 4 = some 2 ∧ (idx5g.bufMgr.bufDescTable 2).dirty = true) ∧
    (idx5g.call (flushFile idx5g.bufMgr idx5g.file)).val? = some () ∧
    (idx5h.bufMgr.disk 0 3).map (fun pg => (pg.numKeys, pg.keyArray 1)) = some (3, 40) ∧
    (idx5.bufMgr.hashTable 0 1 = some 3 ∧ (idx5.bufMgr.bufPool 3).rootPageNo = 4 ∧
      (idx5.bufMgr.bufDescTable 3).dirty = false) := by
  refine ⟨idx5f_ok, after_eq _ idx5f (by decide!), by decide!, by decide!, by decide!,
    by decide!, by decide!, by decide!, by decide!, by decide!, by decide!, by decide!⟩

theorem idx6_ok : insertEntry 10 idx5 35 (ridOf 35) = .ok () idx6 :=
  after_eq _ idx5 (by decide!)

theorem idx7_ok : insertEntry 10 idx6 36 (ridOf 36) = .ok () idx7 :=
  after_eq _ idx6 (by decide!)

theorem pb_idx6 : PB 0 idx6 := pb_insertEntry 10 0 idx5 35 (ridOf 35) idx6 pb_idx5 idx6_ok


/-! ## A running scan keeps its page pinned -/

theorem readPage_ok_facts (s : BufMgr) (hs : Inv s) (f : FileId) (p : PageId) (k : FrameId)
    (s' : BufMgr) (h : readPage s f p = .ok k s') :
    s'.hashTable f p = some k ∧ 0 < (s'.bufDescTable k).pinCnt ∧
    (∀ j, s.hashTable f p = some j → 1 < (s'.bufDescTable k).pinCnt ∨
      (s.bufDescTable j).pinCnt = 0) := by
  cases hl : s.hashTable f p with
  | some j =>
    rw [readPage_hit s f p j hl] at h
    injection h with h1 h2
    subst h1 h2
    refine ⟨hl, by simp [BufMgr.setDesc], ?_⟩
    intro j' hj'
    have : j = j' := Option.some.inj hj'
    subst this
    simp only [BufMgr.setDesc, Function.update_same]
    omega
  | none =>
    rcases readPage_miss s hs f p hl with ⟨e, s1, hr, _⟩ | hr |
      ⟨j, s1, pg, hr, _, _, _, _, _, _, _⟩
    · rw [hr] at h; exact Res.noConfusion h
    · rw [hr] at h; exact Res.noConfusion h
    · rw [hr] at h
      injection h with h1 h2
      subst h1 h2
      refine ⟨?_, ?_, fun j' hj' => absurd hj' (by simp)⟩
      · simp [BufMgr.install, BufMgr.setDesc, BufMgr.hashInsert, BufMgr.setPage]
      · simp [BufMgr.install, BufMgr.setDesc, BufMgr.hashInsert, BufMgr.setPage, BufDesc.Set]

theorem setNextScan_facts (t : BTreeIndex) (hI : Inv t.bufMgr) (p : PageId)
    (t' : BTreeIndex) (h : setNextScan t p = .ok () t') :
    t'.file = t.file ∧ t'.scanExecuting = t.scanExecuting ∧ t'.currentPageNum = p ∧
    ∃ k, t'.bufMgr.hashTable t.file p = some k ∧ 0 < (t'.bufMgr.bufDescTable k).pinCnt ∧
      (∀ j, t.bufMgr.hashTable t.file p = some j → 1 < (t'.bufMgr.bufDescTable k).pinCnt ∨
        (t.bufMgr.bufDescTable j).pinCnt = 0) := by
  unfold setNextScan at h
  obtain ⟨k, t2, h2, h⟩ := bind_ok _ _ _ _ h
  obtain ⟨b, hb, ht⟩ := call_ok _ _ k t2 h2
  injection h with _ h3
  subst h3 ht
  exact ⟨rfl, rfl, rfl, k, readPage_ok_facts t.bufMgr hI t.file p k b hb⟩

/-- `setNextScan(q)` followed by `unPinPage(old)`, `old` being the pinned page the
scan stood on, leaves the scan on the pinned page `q`. -/
theorem curPinned_cross (t : BTreeIndex) (hI : Inv t.bufMgr) (hc : CurPinned t)
    (q : PageId) (t1 t2 : BTreeIndex) (h1 : setNextScan t q = .ok () t1)
    (h2 : t1.unPinPage t.currentPageNum false = .ok () t2) :
    CurPinned t2 ∧ t2.file = t.file ∧ t2.scanExecuting = t.scanExecuting := by
  obtain ⟨hf, hse, hcur, k, hk, hkp, hhit⟩ := setNextScan_facts t hI q t1 h1
  obtain ⟨b, hb, ht⟩ := call_ok _ _ () t2 h2
  subst ht
  refine ⟨?_, hf, hse⟩
  obtain ⟨jo, hjo, hpo⟩ := hc
  have hI1 : Inv t1.bufMgr :=
    (pb_setNextScan _ t q t1 ⟨hI, rfl⟩ h1).1
  cases hl : t1.bufMgr.hashTable t1.file t.currentPageNum with
  | none => rw [unPinPage, hl] at hb; exact Res.noConfusion hb
  | some j1 =>
    by_cases hp1 : 0 < (t1.bufMgr.bufDescTable j1).pinCnt
    · rw [unPinPage_pinned _ _ _ _ j1 hl hp1] at hb
      injection hb with _ hb2
      subst hb2
      refine ⟨k, ?_, ?_⟩
      · show t1.bufMgr.hashTable t1.file t1.currentPageNum = some k
        rw [hf, hcur]; exact hk
      · show 0 < ((t1.bufMgr.setDesc j1 _).bufDescTable k).pinCnt
        by_cases e : k = j1
        · subst e
          simp only [BufMgr.setDesc, Function.update_same]
          have hsame : t.currentPageNum = q := by
            rw [hf] at hl
            have a := ((hI1.hash _ _ _).1 hl).2.2.2
            have b := ((hI1.hash _ _ _).1 hk).2.2.2
            rw [← a, ← b]
          rw [hsame] at hjo
          rcases hhit jo hjo with h | h
          · omega
          · omega
        · simp only [BufMgr.setDesc, Function.update_noteq e]
          exact hkp
    · rw [unPinPage, hl] at hb
      simp only [] at hb
      rw [if_pos (by omega)] at hb
      exact Res.noConfusion hb

theorem unPinPage_fields (t : BTreeIndex) (p : PageId) (d : Bool) (t' : BTreeIndex)
    (h : t.unPinPage p d = .ok () t') :
    t'.file = t.file ∧ t'.scanExecuting = t.scanExecuting ∧
    t'.currentPageNum = t.currentPageNum := by
  obtain ⟨b, _, ht⟩ := call_ok _ _ () t' h
  subst ht
  exact ⟨rfl, rfl, rfl⟩

/-- `unPinPage` followed by `setNextScan(q)` leaves the scan on the pinned page `q`. -/
theorem curPinned_descend (t : BTreeIndex) (hI : Inv t.bufMgr) (p q : PageId)
    (t1 t2 : BTreeIndex) (h1 : t.unPinPage p false = .ok () t1)
    (h2 : setNextScan t1 q = .ok () t2) :
    CurPinned t2 ∧ t2.file = t.file ∧ t2.scanExecuting = t.scanExecuting := by
  have hI1 : Inv t1.bufMgr := (pb_unPinPage _ t p false t1 ⟨hI, rfl⟩ h1).1
  obtain ⟨f1, s1, _⟩ := unPinPage_fields t p false t1 h1
  obtain ⟨hf, hse, hcur, k, hk, hkp, _⟩ := setNextScan_facts t1 hI1 q t2 h2
  refine ⟨⟨k, ?_, hkp⟩, hf.trans f1, hse.trans s1⟩
  rw [hf, hcur]; exact hk

theorem curPinned_recurScanLoop (fuel : Nat) : ∀ (t : BTreeIndex) (c : FrameId)
    (leaf : Bool) (t' : BTreeIndex), Inv t.bufMgr → CurPinned t →
    recurScanLoop fuel t c leaf = .ok () t' →
    CurPinned t' ∧ t'.file = t.file ∧ t'.scanExecuting = t.scanExecuting := by
  induction fuel with
  | zero =>
    intro t c leaf t' _ _ h
    exact Res.noConfusion h
  | succ fuel ih =>
    intro t c leaf t' hI hc h
    have enter : ∀ (t2 : BTreeIndex), Inv t2.bufMgr → CurPinned t2 →
        (match t2.currentPageData with
          | none => Res.undef
          | some p => recurScanLoop fuel t2 p (isLeaf (t2.page p))) = .ok () t' →
        CurPinned t' ∧ t'.file = t2.file ∧ t'.scanExecuting = t2.scanExecuting := by
      intro t2 i2 c2 h
      split at h
      · exact Res.noConfusion h
      · exact ih _ _ _ _ i2 c2 h
    have cross : ∀ (q : PageId) (k : BTreeIndex → Res BTreeIndex Unit),
        (∀ t2, Inv t2.bufMgr → CurPinned t2 → k t2 = .ok () t' →
          CurPinned t' ∧ t'.file = t2.file ∧ t'.scanExecuting = t2.scanExecuting) →
        ((setNextScan t q).bind fun _ t1 =>
          (t1.unPinPage t.currentPageNum false).bind fun _ t2 => k t2) = .ok () t' →
        CurPinned t' ∧ t'.file = t.file ∧ t'.scanExecuting = t.scanExecuting := by
      intro q k hk h
      obtain ⟨_, t1, h1, h⟩ := bind_ok _ _ _ _ h
      obtain ⟨_, t2, h2, h⟩ := bind_ok _ _ _ _ h
      obtain ⟨a, b, d⟩ := curPinned_cross t hI hc q t1 t2 h1 h2
      have i2 : Inv t2.bufMgr :=
        (pb_unPinPage _ t1 _ _ t2 (pb_setNextScan _ t q t1 ⟨hI, rfl⟩ h1) h2).1
      obtain ⟨x, y, z⟩ := hk t2 i2 a h
      exact ⟨x, y.trans b, z.trans d⟩
    have descend : ∀ (q : BTreeIndex → PageId),
        ((t.unPinPage t.currentPageNum false).bind fun _ t1 =>
          (setNextScan t1 (q t1)).bind fun _ t2 =>
            (match t2.currentPageData with
              | none => Res.undef
              | some p => recurScanLoop fuel t2 p (isLeaf (t2.page p)))) = .ok () t' →
        CurPinned t' ∧ t'.file = t.file ∧ t'.scanExecuting = t.scanExecuting := by
      intro q h
      obtain ⟨_, t1, h1, h⟩ := bind_ok _ _ _ _ h
      obtain ⟨_, t2, h2, h⟩ := bind_ok _ _ _ _ h
      obtain ⟨a, b, d⟩ := curPinned_descend t hI _ _ t1 t2 h1 h2
      have i2 : Inv t2.bufMgr :=
        (pb_setNextScan _ t1 _ t2 (pb_unPinPage _ t _ _ t1 ⟨hI, rfl⟩ h1) h2).1
      obtain ⟨x, y, z⟩ := enter t2 i2 a h
      exact ⟨x, y.trans b, z.trans d⟩
    have stay : recurScanLoop fuel { t with nextEntry := t.nextEntry + 1 } c leaf = .ok () t' →
        CurPinned t' ∧ t'.file = t.file ∧ t'.scanExecuting = t.scanExecuting := by
      intro h
      exact ih { t with nextEntry := t.nextEntry + 1 } c leaf t' hI hc h
    rw [recurScanLoop] at h
    simp only [] at h
    split at h
    · split at h
      · split at h
        · split at h
          · exact cross _ _ (fun t2 i2 c2 h2 => ih _ _ _ _ i2 c2 h2) h
          · exact Res.noConfusion h
        · exact stay h
      · split at h
        · injection h with _ h2
          subst h2; exact ⟨hc, rfl, rfl⟩
        · exact Res.noConfusion h
    · split at h
      · split at h
        · exact cross _ _ enter h
        · exact stay h
      · split at h
        · exact descend (fun t1 => (t1.page c).pageNoArray (t1.nextEntry + 1)) h
        · exact descend (fun t1 => (t1.page c).pageNoArray t1.nextEntry) h

theorem curPinned_scanNext (t : BTreeIndex) (hI : Inv t.bufMgr) (hc : CurPinned t)
    (rid : RecordId) (t' : BTreeIndex) (h : scanNext t = .ok rid t') :
    CurPinned t' ∧ t'.file = t.file ∧ t'.scanExecuting = t.scanExecuting := by
  unfold scanNext at h
  split at h
  · exact Res.noConfusion h
  · split at h
    · exact Res.noConfusion h
    · simp only [] at h
      split at h
      · exact Res.noConfusion h
      · split at h
        · split at h
          · obtain ⟨_, t1, h1, h⟩ := bind_ok _ _ _ _ h
            obtain ⟨_, t2, h2, h⟩ := bind_ok _ _ _ _ h
            injection h with _ h3
            subst h3
            exact curPinned_cross t hI hc _ t1 t2 h1 h2
          · injection h with _ h3
            subst h3; exact ⟨hc, rfl, rfl⟩
        · injection h with _ h3
          subst h3; exact ⟨hc, rfl, rfl⟩

theorem curPinned_startScan (fuel : Nat) (t : BTreeIndex) (hI : Inv t.bufMgr)
    (lowVal : Int) (lowOp : Operator) (highVal : Int) (highOp : Operator)
    (t' : BTreeIndex) (h : startScan fuel t lowVal lowOp highVal highOp = .ok () t') :
    CurPinned t' ∧ t'.scanExecuting = true := by
  unfold startScan at h
  obtain ⟨_, t7, h7, h⟩ := bind_ok _ _ _ _ h
  have p7 := pb_startScanSetup _ t lowVal lowOp highVal highOp t7 ⟨hI, rfl⟩ h7
  have c7 : CurPinned t7 ∧ t7.scanExecuting = true := by
    unfold startScanSetup at h7
    split at h7
    · exact Res.noConfusion h7
    · split at h7
      · exact Res.noConfusion h7
      · split at h7
        · exact Res.noConfusion h7
        · try simp only [] at h7
          obtain ⟨_, t0, h0, h7⟩ := bind_ok _ _ _ _ h7
          obtain ⟨_, t2, h2, h7⟩ := bind_ok _ _ _ _ h7
          injection h7 with _ h3
          subst h3
          have i0 : Inv t0.bufMgr := by
            split at h0
            · exact (pb_endScan _ t t0 ⟨hI, rfl⟩ h0).1
            · injection h0 with _ h4
              subst h4; exact hI
          obtain ⟨hf, hse, hcur, k, hk, hkp, _⟩ :=
            setNextScan_facts { t0 with scanExecuting := true } i0 _ t2 h2
          have key : ∀ t3 : BTreeIndex, t3.bufMgr = t2.bufMgr → t3.file = t2.file →
              t3.currentPageNum = t2.currentPageNum → t3.scanExecuting = t2.scanExecuting →
              CurPinned t3 ∧ t3.scanExecuting = true := by
            intro t3 e1 e2 e3 e4
            refine ⟨⟨k, ?_, ?_⟩, e4.trans hse⟩
            · rw [e1, e2, e3, hf, hcur]; exact hk
            · rw [e1]; exact hkp
          apply key
          · unfold setScanBounds; simp only []
            split <;> split <;> split <;> split <;> rfl
          · unfold setScanBounds; simp only []
            split <;> split <;> split <;> split <;> rfl
          · unfold setScanBounds; simp only []
            split <;> split <;> split <;> split <;> rfl
          · unfold setScanBounds; simp only []
            split <;> split <;> split <;> split <;> rfl
  unfold recurScan at h
  split at h
  · exact Res.noConfusion h
  · obtain ⟨a, _, b⟩ := curPinned_recurScanLoop fuel _ _ _ _ p7.1 c7.1 h
    exact ⟨a, b.trans c7.2⟩

theorem curPinned_scanNexts (t t' : BTreeIndex) (hI : Inv t.bufMgr) (hc : CurPinned t)
    (hs : t.scanExecuting = true) (h : ScanNexts t t') :
    Inv t'.bufMgr ∧ CurPinned t' ∧ t'.scanExecuting = true := by
  induction h with
  | none t => exact ⟨hI, hc, hs⟩
  | next t t1 t2 rid h1 _ ih =>
    obtain ⟨a, _, b⟩ := curPinned_scanNext t hI hc rid t1 h1
    exact ih (pb_scanNext _ t rid t1 ⟨hI, rfl⟩ h1).1 a (b.trans hs)

theorem endScan_returns (t : BTreeIndex) (hc : CurPinned t) (hs : t.scanExecuting = true) :
    ∃ t', endScan t = .ok () t' := by
  obtain ⟨j, hj, hp⟩ := hc
  unfold endScan
  rw [if_neg (by simp [hs])]
  simp only []
  rw [call_unPinPage_pinned { t with scanExecuting := false } t.currentPageNum false j hj hp]
  exact ⟨_, rfl⟩

theorem after_val {σ α : Type} (r : Res σ α) (s0 : σ) (a : α) (h : r.val? = some a) :
    r = .ok a (r.after s0) := by
  cases r with
  | ok b s =>
    have : b = a := by simpa [Res.val?] using h
    subst this; rfl
  | throw e s => exact absurd h (by simp [Res.val?])
  | undef => exact absurd h (by simp [Res.val?])
  | nofuel => exact absurd h (by simp [Res.val?])

/-- C10: pin balance.  For every index over a well-formed pool (as every pool
reachable from a fresh BufMgr is) in which no frame is pinned: when insertEntry
returns, no frame is pinned, whatever the tree looks like and whether or not
nodes or the root split; and when startScan returns, then after any number of
returning scanNext calls endScan returns and leaves no frame pinned. -/
theorem C10_pin_balance (t : BTreeIndex) (hI : Inv t.bufMgr)
    (h0 : ∀ k, k < t.bufMgr.numBufs → (t.bufMgr.bufDescTable k).pinCnt = 0) :
    (∀ fuel key rid t', insertEntry fuel t key rid = .ok () t' →
      ∀ k, k < t'.bufMgr.numBufs → (t'.bufMgr.bufDescTable k).pinCnt = 0) ∧
    (∀ fuel lowVal lowOp highVal highOp t1 t2,
      startScan fuel t lowVal lowOp highVal highOp = .ok () t1 →
      ScanNexts t1 t2 →
      ∃ t3, endScan t2 = .ok () t3 ∧
        ∀ k, k < t3.bufMgr.numBufs → (t3.bufMgr.bufDescTable k).pinCnt = 0) := by
  have hp : PB 0 t := (pb_zero t).2 ⟨hI, h0⟩
  constructor
  · intro fuel key rid t' h
    exact ((pb_zero t').1 (pb_insertEntry fuel 0 t key rid t' hp h)).2
  · intro fuel lowVal lowOp highVal highOp t1 t2 h1 h2
    have p1 := pb_startScan fuel 0 t lowVal lowOp highVal highOp t1 hp h1
    obtain ⟨c1, s1⟩ := curPinned_startScan fuel t hI lowVal lowOp highVal highOp t1 h1
    obtain ⟨_, c2, s2⟩ := curPinned_scanNexts t1 t2 p1.1 c1 s1 h2
    obtain ⟨t3, h3⟩ := endScan_returns t2 c2 s2
    refine ⟨t3, h3, ?_⟩
    cases hse : t.scanExecuting with
    | true =>
      rw [hse] at p1
      simp only [if_true] at p1
      have p3 := pb_endScan 0 t2 t3 (pb_scanNexts 0 t1 t2 p1 h2) h3
      exfalso
      have := p3.2
      omega
    | false =>
      rw [hse] at p1
      simp only [Bool.false_eq_true, if_false] at p1
      have p3 := pb_endScan _ t2 t3 (pb_scanNexts _ t1 t2 p1 h2) h3
      exact ((pb_zero t3).1 p3).2

theorem scanC_ok : startScan 20 idx5 30 .GTE 100 .LTE = .ok () scanC :=
  after_eq _ idx5 (by decide!)

theorem scanC1_ok : scanNext scanC = .ok (ridOf 30) scanC1 :=
  after_val _ scanC _ (by decide!)

theorem scanC2_ok : scanNext scanC1 = .ok (ridOf 40) scanC2 :=
  after_val _ scanC1 _ (by decide!)

/-- Witness of C10: `insertEntry(36)` on `idx6` splits the non-root leaf page 3
and returns with no frame pinned; on `idx5` the scan of [30, 100] returns the
records of 30 and 40, after which endScan returns with no frame pinned. -/
theorem C10_witness :
    (∀ k, k < idx6.bufMgr.numBufs → (idx6.bufMgr.bufDescTable k).pinCnt = 0) ∧
    insertEntry 10 idx6 36 (ridOf 36) = .ok () idx7 ∧
    idx7.bufMgr.hashTable 0 4 = some 2 ∧ (idx7.bufMgr.bufPool 2).pageNoArray 2 = 5 ∧
    (∀ k, k < idx7.bufMgr.numBufs → (idx7.bufMgr.bufDescTable k).pinCnt = 0) ∧
    (∀ k, k < idx5.bufMgr.numBufs → (idx5.bufMgr.bufDescTable k).pinCnt = 0) ∧
    startScan 20 idx5 30 .GTE 100 .LTE = .ok () scanC ∧
    scanNext scanC = .ok (ridOf 30) scanC1 ∧ scanNext scanC1 = .ok (ridOf 40) scanC2 ∧
    ∃ t3, endScan scanC2 = .ok () t3 ∧
      ∀ k, k < t3.bufMgr.numBufs → (t3.bufMgr.bufDescTable k).pinCnt = 0 :=
  ⟨((pb_zero idx6).1 pb_idx6).2, idx7_ok, by decide!, by decide!,
    (C10_pin_balance idx6 pb_idx6.1 ((pb_zero idx6).1 pb_idx6).2).1 10 36 (ridOf 36) idx7
      idx7_ok,
    ((pb_zero idx5).1 pb_idx5).2, scanC_ok, scanC1_ok, scanC2_ok,
    (C10_pin_balance idx5 pb_idx5.1 ((pb_zero idx5).1 pb_idx5).2).2 20 30 .GTE 100 .LTE
      scanC scanC2 scanC_ok
      (ScanNexts.next _ _ _ _ scanC1_ok (ScanNexts.next _ _ _ _ scanC2_ok (ScanNexts.none _)))⟩

/-! ## The shape of the tree after insertions -/

theorem image_cached (t : BTreeIndex) (p : PageId) (k : FrameId)
    (h : t.bufMgr.hashTable t.file p = some k) : t.image p = some (t.bufMgr.bufPool k) := by
  unfold BTreeIndex.image
  rw [h]

theorem idx9_ok : insertAll 10 keys9 idx0 = .ok () idx9 :=
  after_eq _ idx0 (by decide!)

/-- C11 (the code departs from the claim): a freshly created index (leaf
capacity 4) receives the keys 0, 10, 30, 40, 50, -10, -5, -7, 5 by insertEntry.
The leaf chain from the leftmost leaf is page 2, page 5, page 3 and carries the
keys -10, -7, -5, 5, 0, 10, 30, 40, 50, which is not non-decreasing: the split
of page 2 promoted the key 0, which `recursionInsert` takes for "no promotion",
so that the root (keys `[30]`, children 2 and 3) never learns of page 5 and the
later key 5 is routed to page 2. -/
theorem C11_leaf_chain_out_of_key_order :
    BTreeIndex.new 10 pool10 0 false 1 "rel" 0 0 4 4 [] = .ok () idx0 ∧
    insertAll 10 keys9 idx0 = .ok () idx9 ∧
    leftmostLeaf 10 idx9 idx9.rootPageNum = some 2 ∧
    (leafChain 10 idx9 2).map (fun l => l.map Prod.fst) = some [2, 5, 3] ∧
    (leafChain 10 idx9 2).map chainKeys = some [-10, -7, -5, 5, 0, 10, 30, 40, 50] ∧
    (∀ l, leafChain 10 idx9 2 = some l → ¬ List.Sorted (fun a b => a ≤ b) (chainKeys l)) ∧
    (idx9.image idx9.rootPageNum).map
      (fun pg => (pg.numKeys, pg.keyArray 0, pg.pageNoArray 0, pg.pageNoArray 1)) =
      some (1, 30, 2, 3) ∧
    idx9.newNonLeafNodePageNum = 5 ∧ idx9.newNonLeafNodeKey = 0 := by
  have hk : (leafChain 10 idx9 2).map chainKeys =
      some [-10, -7, -5, 5, 0, 10, 30, 40, 50] := by decide!
  refine ⟨idx0_ok, idx9_ok, by decide!, by decide!, hk, ?_, by decide!, by decide!,
    by decide!⟩
  intro l hl
  rw [hl] at hk
  have e : chainKeys l = [-10, -7, -5, 5, 0, 10, 30, 40, 50] := Option.some.inj hk
  rw [e]
  decide

theorem idx5d_ok : insertEntry 10 idx5 30 (ridOf 31) = .ok () idx5d :=
  after_eq _ idx5 (by decide!)

/-- C12 (the code departs from the claim): on the index holding 10, 20, 30, 40,
50 (root page 4 with the key 30 between the leaves page 2 and page 3),
insertEntry of a second record with key 30 descends to `pageNoArray[0]`, since
`keyArray[0] < 30` fails, and stores the key in page 2: the subtree of child 0
then holds a key that is not below `k_0 = 30`. -/
theorem C12_key_equal_to_separator_goes_left :
    insertAll 10 keys5 idx0 = .ok () idx5 ∧
    insertEntry 10 idx5 30 (ridOf 31) = .ok () idx5d ∧
    (idx5d.image idx5d.rootPageNum).map
      (fun pg => (isLeaf pg, pg.numKeys, pg.keyArray 0, pg.pageNoArray 0, pg.pageNoArray 1)) =
      some (false, 1, 30, 2, 3) ∧
    (idx5d.image 2).map (fun pg => (isLeaf pg, leafEntries pg)) =
      some (true, [(10, ridOf 10), (20, ridOf 20), (30, ridOf 31)]) ∧
    ∃ root child, idx5d.image idx5d.rootPageNum = some root ∧
      idx5d.image (root.pageNoArray 0) = some child ∧
      ∃ e ∈ leafEntries child, ¬ e.1 < root.keyArray 0 := by
  refine ⟨idx5_ok, idx5d_ok, by decide!, by decide!, idx5d.bufMgr.bufPool 2,
    idx5d.bufMgr.bufPool 0, image_cached _ _ _ (by decide!), ?_, (30, ridOf 31), by decide!,
    by decide!⟩
  have h : (idx5d.bufMgr.bufPool 2).pageNoArray 0 = 2 := by decide!
  rw [h]
  exact image_cached _ _ _ (by decide!)

/-! ## The header page -/

theorem bind_assoc {σ α β γ : Type} (r : Res σ α) (k : α → σ → Res σ β)
    (g : β → σ → Res σ γ) : (r.bind k).bind g = r.bind fun a s => (k a s).bind g := by
  cases r <;> rfl

/-- The constructor is `BTreeIndex.build` followed by the flush of the index file. -/
theorem new_eq_build (fuel : Nat) (bufMgr : BufMgr) (file : FileId) (found : Bool)
    (firstPageNo : PageId) (relationName : String) (attrByteOffset : Int) (attrType : Nat)
    (leafSize nodeSize : Int) (records : List (Int × RecordId)) :
    BTreeIndex.new fuel bufMgr file found firstPageNo relationName attrByteOffset attrType
        leafSize nodeSize records =
      (BTreeIndex.build fuel bufMgr file found firstPageNo relationName attrByteOffset attrType
        leafSize nodeSize records).bind fun _ t => t.call (flushFile t.bufMgr t.file) := by
  unfold BTreeIndex.new BTreeIndex.build
  simp only [bind_assoc]

theorem idx0b_ok : BTreeIndex.build 10 pool10 0 false 1 "rel" 0 0 4 4 [] = .ok () idx0b :=
  after_eq _ blankIndex (by decide!)

theorem idx5z_ok : idx5.call (flushFile idx5.bufMgr idx5.file) = .ok () idx5z :=
  after_eq _ idx5 (by decide!)

/-- C13 (the code departs from the claim): on the create path the constructor
writes `rootPageNo = firstId`, the number of the header page itself, and unpins
the header with dirty = false before it allocates the root: before the final
flush the cached header names page 1 while `rootPageNum` is 2, and what the
flush leaves on disk is the zero-filled header.  After the insertions of
`keys5`, whose root split rewrites the cached header to the new root 4, the
header frame is still clean and the next flush leaves `rootPageNo = 0` on disk. -/
theorem C13_header_does_not_follow_the_root :
    BTreeIndex.build 10 pool10 0 false 1 "rel" 0 0 4 4 [] = .ok () idx0b ∧
    idx0b.headerPageNum = 1 ∧ idx0b.rootPageNum = 2 ∧
    (idx0b.image 1).map (fun pg => pg.rootPageNo) = some 1 ∧
    (idx0b.bufMgr.hashTable 0 1 = some 9 ∧ (idx0b.bufMgr.bufDescTable 9).dirty = false) ∧
    BTreeIndex.new 10 pool10 0 false 1 "rel" 0 0 4 4 [] = .ok () idx0 ∧
    idx0.headerPageNum = 1 ∧ idx0.rootPageNum = 2 ∧
    (idx0.image 1).map (fun pg => pg.rootPageNo) = some 0 ∧
    insertAll 10 keys5 idx0 = .ok () idx5 ∧ idx5.rootPageNum = 4 ∧
    (idx5.image 1).map (fun pg => pg.rootPageNo) = some 4 ∧
    (idx5.bufMgr.hashTable 0 1 = some 3 ∧ (idx5.bufMgr.bufDescTable 3).dirty = false) ∧
    idx5.call (flushFile idx5.bufMgr idx5.file) = .ok () idx5z ∧
    (idx5z.bufMgr.disk 0 1).map (fun pg => pg.rootPageNo) = some 0 := by
  refine ⟨idx0b_ok, by decide!, by decide!, by decide!, by decide!, idx0_ok, by decide!,
    by decide!, by decide!, idx5_ok, by decide!, by decide!, by decide!, idx5z_ok, by decide!⟩

theorem disk14_wf : ∀ f p pg, disk14 f p = some pg → pg.page_number = p := by
  apply disk_update_wf _ pb_idx5f.1.disk
  intro pg h
  rw [← Option.some.inj h]
  rfl

theorem reachable_pool14 : Reachable pool14 :=
  Reachable.fresh 10 disk14 _ (by decide) disk14_wf

theorem idx14_ok : BTreeIndex.new 10 pool14 0 true 1 "rel" 0 0 4 4 [] = .ok () idx14 :=
  after_eq _ blankIndex (by decide!)

theorem idx14r_ok : BTreeIndex.new 10 pool14 0 true 1 "rel" 0 0 4 4 keys5 = .ok () idx14r :=
  after_eq _ blankIndex (by decide!)

/-- C14 (the code departs from the claim): the index file exists, its header
page 1 names the root page 4, a non-leaf over the leaves `[10, 20]` and
`[30, 40, 50]`, and the file has four pages.  The constructor reads the header
and then goes on as on the create path: it allocates page 5 as a new, empty root
leaf and `rootPageNum` is 5, not 4, and with the relation's five records it
inserts them again into the new pages 5, 6 and 7.  The stored header still names
page 4. -/
theorem C14_open_path_allocates_a_new_root :
    Reachable pool14 ∧ pool14.nextPageNo 0 = 5 ∧
    (pool14.disk 0 1).map (fun pg => pg.rootPageNo) = some 4 ∧
    (pool14.disk 0 4).map
      (fun pg => (isLeaf pg, pg.numKeys, pg.keyArray 0, pg.pageNoArray 0, pg.pageNoArray 1)) =
      some (false, 1, 30, 2, 3) ∧
    BTreeIndex.new 10 pool14 0 true 1 "rel" 0 0 4 4 [] = .ok () idx14 ∧
    idx14.rootPageNum = 5 ∧ idx14.bufMgr.nextPageNo 0 = 6 ∧
    (idx14.image 5).map (fun pg => (isLeaf pg, pg.numKeys)) = some (true, 0) ∧
    (idx14.image 1).map (fun pg => pg.rootPageNo) = some 4 ∧
    BTreeIndex.new 10 pool14 0 true 1 "rel" 0 0 4 4 keys5 = .ok () idx14r ∧
    idx14r.rootPageNum = 7 ∧ idx14r.bufMgr.nextPageNo 0 = 8 ∧
    (idx14r.image 7).map (fun pg => (isLeaf pg, pg.numKeys, pg.pageNoArray 0, pg.pageNoArray 1)) =
      some (false, 1, 5, 6) := by
  refine ⟨reachable_pool14, by decide!, by decide!, by decide!, idx14_ok, by decide!,
    by decide!, by decide!, by decide!, idx14r_ok, by decide!, by decide!, by decide!⟩

/-! ## A scan range in the gap between two leaves -/

theorem scanD_ok : startScanSetup idx5 25 .GTE 27 .LTE = .ok () scanD :=
  after_eq _ idx5 (by decide!)

theorem scanD1_ok : scanD.unPinPage scanD.currentPageNum false = .ok () scanD1 :=
  after_eq _ scanD (by decide!)

theorem scanE_ok :
    setNextScan scanD1 ((scanD1.page 2).pageNoArray scanD1.nextEntry) = .ok () scanE :=
  after_eq _ scanD1 (by decide!)

theorem scanD_descends (n : Nat) :
    recurScan (n + 1) scanD = recurScanLoop n scanE 0 true := by
  have h0 : scanD.currentPageData = some 2 := by decide!
  have hl : isLeaf (scanD.page 2) = false := by decide!
  have h1 : ¬ ((scanD.page 2).keyArray scanD.nextEntry < scanD.inclLow) := by decide!
  have h2 : ¬ ((scanD.page 2).keyArray scanD.nextEntry = scanD.inclLow) := by decide!
  have h5 : scanE.currentPageData = some 0 := by decide!
  have h6 : isLeaf (scanE.page 0) = true := by decide!
  unfold recurScan
  rw [h0]
  simp only []
  rw [hl, recurScanLoop]
  simp only [Bool.false_eq_true, if_false]
  rw [if_neg h1, if_neg h2, scanD1_ok]
  simp only [Res.bind]
  rw [scanE_ok]
  simp only []
  rw [h5]
  simp only []
  rw [h6]

theorem leafGap_scanE : LeafGap scanE 0 := by
  have hn : (scanE.page 0).numKeys = 2 := by decide!
  refine ⟨by decide!, ?_, by decide!, ⟨1, by decide!⟩, ⟨0, by decide!, by decide!⟩⟩
  intro i h1 h2
  rw [hn] at h2
  have : i = 0 ∨ i = 1 := by omega
  rcases this with e | e
  · subst e; decide!
  · subst e; decide!

theorem scanD_zero : recurScan 0 scanD = .nofuel := by
  have h0 : scanD.currentPageData = some 2 := by decide!
  unfold recurScan
  rw [h0]
  simp only []
  rw [recurScanLoop]

theorem startScan_idx5_gap (fuel : Nat) :
    startScan fuel idx5 25 .GTE 27 .LTE = recurScan fuel scanD := by
  unfold startScan
  rw [scanD_ok]
  simp only [Res.bind]

/-- C17 (the code departs from the claim): the index holds 10, 20, 30, 40, 50 in
the leaves `[10, 20]` and `[30, 40, 50]`; the range [25, 27] is accepted and no
stored key lies in it; yet startScan(25, GTE, 27, LTE) does not fail with
NoSuchKeyFound, it does not return at all, whatever the fuel: the descent
reaches the leaf `[10, 20]`, crosses to the right sibling and goes on reading
the old leaf through the stale local `curPage`. -/
theorem C17_startScan_never_fails_in_a_leaf_gap :
    BTreeIndex.new 10 pool10 0 false 1 "rel" 0 0 4 4 [] = .ok () idx0 ∧
    insertAll 10 keys5 idx0 = .ok () idx5 ∧
    (∀ k ∈ keys5.map Prod.fst, ¬ ((25 : Int) ≤ k ∧ k ≤ 27)) ∧
    ∀ fuel, startScan fuel idx5 25 .GTE 27 .LTE = .nofuel := by
  refine ⟨idx0_ok, idx5_ok, by decide, ?_⟩
  intro fuel
  rw [startScan_idx5_gap]
  cases fuel with
  | zero => exact scanD_zero
  | succ n =>
    rw [scanD_descends n]
    exact leafGap_never_ends n scanE 0 leafGap_scanE

/-! ## The victim's file is flushed as a whole -/

theorem reachable_pool2f : Reachable pool2f :=
  reachable_after_unPinPage pool2e 0 1 false reachable_pool2e

/-- C20 (the code departs from the claim): in the reachable pool `pool2f` the
clock hand stands on frame 1, which is unpinned with a cleared reference bit;
frame 0 is valid and unpinned with its reference bit set and holds a page of
the same file.  `readPage` of the uncached page 3 takes frame 1 as the victim
at once, and the `flushFile` of the victim's file releases frame 0 as well: it
is evicted with `refbit = true`, the hand never having passed it. -/
theorem C20_referenced_frame_evicted_with_the_victim :
    Reachable pool2f ∧ pool2f.numBufs = 2 ∧ pool2f.clockHand = 1 ∧
    pool2f.bufDescTable 0 =
      { file := some 0, pageNo := 2, frameNo := 0, pinCnt := 0, dirty := false,
        valid := true, refbit := true } ∧
    pool2f.bufDescTable 1 =
      { file := some 0, pageNo := 1, frameNo := 1, pinCnt := 0, dirty := false,
        valid := true, refbit := false } ∧
    pool2f.hashTable 0 2 = some 0 ∧ pool2f.hashTable 0 3 = none ∧
    readPage pool2f 0 3 = .ok 1 pool2g ∧ pool2g.clockHand = 1 ∧
    (pool2g.bufDescTable 0).valid = false ∧ pool2g.hashTable 0 2 = none := by
  refine ⟨reachable_pool2f, rfl, by decide, by decide, by decide, by decide, by decide,
    after_val _ pool2f _ (by decide), by decide, by decide, by decide⟩

/-! ## Insertion into a leaf next to equal keys -/

theorem shiftLeaf_spec (n : Nat) : ∀ (j : Int) (pg : Page),
    (shiftLeaf n j pg).numKeys = pg.numKeys ∧
    (∀ x, (shiftLeaf n j pg).keyArray x =
      if j + 1 - n < x ∧ x ≤ j + 1 then pg.keyArray (x - 1) else pg.keyArray x) ∧
    (∀ x, (shiftLeaf n j pg).ridArray x =
      if j + 1 - n < x ∧ x ≤ j + 1 then pg.ridArray (x - 1) else pg.ridArray x) := by
  induction n with
  | zero =>
    intro j pg
    refine ⟨rfl, fun x => ?_, fun x => ?_⟩
    · rw [if_neg (by push_cast; omega)]; rfl
    · rw [if_neg (by push_cast; omega)]; rfl
  | succ n ih =>
    intro j pg
    rw [shiftLeaf]
    obtain ⟨h1, h2, h3⟩ := ih (j - 1)
      { pg with
        keyArray := Function.update pg.keyArray (j + 1) (pg.keyArray j)
        ridArray := Function.update pg.ridArray (j + 1) (pg.ridArray j) }
    refine ⟨h1, fun x => ?_, fun x => ?_⟩
    · rw [h2]
      simp only [Function.update_apply]
      push_cast
      by_cases c1 : j - 1 + 1 - (n : Int) < x ∧ x ≤ j - 1 + 1
      · rw [if_pos c1, if_neg (by omega), if_pos (by omega)]
      · rw [if_neg c1]
        by_cases c2 : x = j + 1
        · rw [if_pos c2, if_pos (by omega)]
          subst c2
          congr 1
          omega
        · rw [if_neg c2, if_neg (by omega)]
    · rw [h3]
      simp only [Function.update_apply]
      push_cast
      by_cases c1 : j - 1 + 1 - (n : Int) < x ∧ x ≤ j - 1 + 1
      · rw [if_pos c1, if_neg (by omega), if_pos (by omega)]
      · rw [if_neg c1]
        by_cases c2 : x = j + 1
        · rw [if_pos c2, if_pos (by omega)]
          subst c2
          congr 1
          omega
        · rw [if_neg c2, if_neg (by omega)]

/-- The search loop stops at the first entry that is not below the key and
shifts the entries from there on. -/
theorem insertLeafLoop_at (cur : Page) (key : Int) (rid : RecordId) (i : Int)
    (hi : i < cur.numKeys) (hlt : ∀ x, 0 ≤ x → x < i → cur.keyArray x < key)
    (hge : ¬ cur.keyArray i < key) (n : Nat) :
    ∀ (i0 : Int), 0 ≤ i0 → i0 ≤ i → i - i0 < n →
    insertLeafLoop n i0 cur key rid =
      { shiftLeaf (cur.numKeys - i).toNat (cur.numKeys - 1) cur with
        keyArray := Function.update
          (shiftLeaf (cur.numKeys - i).toNat (cur.numKeys - 1) cur).keyArray i key
        ridArray := Function.update
          (shiftLeaf (cur.numKeys - i).toNat (cur.numKeys - 1) cur).ridArray i rid
        numKeys := (shiftLeaf (cur.numKeys - i).toNat (cur.numKeys - 1) cur).numKeys + 1 } := by
  induction n with
  | zero => intro i0 _ _ h; exfalso; simp at h; omega
  | succ n ih =>
    intro i0 h0 h1 h2
    rw [insertLeafLoop]
    rw [if_neg (by omega)]
    by_cases e : i0 = i
    · subst e
      rw [if_neg hge]
    · rw [if_pos (hlt i0 h0 (by omega))]
      exact ih (i0 + 1) (by omega) (by omega) (by push_cast at h2; omega)

/-- C15 (the code departs from the claim): in every leaf whose entry `i` is the
first one with key `k` (all entries before it hold smaller keys),
`findIndexAndInsertLeaf` puts a new pair `(k, rid)` at position `i` and moves the
existing entry with key `k` to position `i + 1`: the new entry comes before the
existing entries with the same key, not after them. -/
theorem C15_equal_key_is_inserted_before (cur : Page) (k : Int) (rid : RecordId) (i : Int)
    (h0 : 0 ≤ i) (hi : i < cur.numKeys)
    (hlt : ∀ x, 0 ≤ x → x < i → cur.keyArray x < k) (heq : cur.keyArray i = k) :
    (findIndexAndInsertLeaf cur k rid).numKeys = cur.numKeys + 1 ∧
    (findIndexAndInsertLeaf cur k rid).keyArray i = k ∧
    (findIndexAndInsertLeaf cur k rid).ridArray i = rid ∧
    (findIndexAndInsertLeaf cur k rid).keyArray (i + 1) = k ∧
    (findIndexAndInsertLeaf cur k rid).ridArray (i + 1) = cur.ridArray i := by
  have hn : ¬ cur.numKeys = 0 := by omega
  have hge : ¬ cur.keyArray i < k := by omega
  have hloop := insertLeafLoop_at cur k rid i hi hlt hge (cur.numKeys + 1).toNat 0
    (le_refl 0) h0 (by omega)
  obtain ⟨s1, s2, s3⟩ := shiftLeaf_spec (cur.numKeys - i).toNat (cur.numKeys - 1) cur
  have hne : i + 1 ≠ i := by omega
  have hc : cur.numKeys - 1 + 1 - ((cur.numKeys - i).toNat : Int) < i + 1 ∧
      i + 1 ≤ cur.numKeys - 1 + 1 := by omega
  unfold findIndexAndInsertLeaf
  rw [if_neg hn, hloop]
  refine ⟨?_, ?_, ?_, ?_, ?_⟩
  · dsimp only
    rw [s1]
  · dsimp only
    rw [Function.update_same]
  · dsimp only
    rw [Function.update_same]
  · dsimp only
    rw [Function.update_noteq hne, s2, if_pos hc]
    rw [show i + 1 - 1 = i by omega]
    exact heq
  · dsimp only
    rw [Function.update_noteq hne, s3, if_pos hc]
    rw [show i + 1 - 1 = i by omega]

theorem idx5e_ok : insertEntry 10 idx5 20 (ridOf 21) = .ok () idx5e :=
  after_eq _ idx5 (by decide!)

theorem scanF_ok : startScan 20 idx5e 20 .GTE 20 .LTE = .ok () scanF :=
  after_eq _ idx5e (by decide!)

/-- Witness of C15: the leaf `[10, 20]` of `idx5` (frame 0) and the key 20 at
position 1.  On the index, the record inserted second with key 20 is the one a
scan of [20, 20] returns first. -/
theorem C15_witness :
    (idx5.page 0).numKeys = 2 ∧ (idx5.page 0).keyArray 1 = 20 ∧
    (idx5.page 0).ridArray 1 = ridOf 20 ∧
    ((findIndexAndInsertLeaf (idx5.page 0) 20 (ridOf 21)).numKeys = (idx5.page 0).numKeys + 1 ∧
      (findIndexAndInsertLeaf (idx5.page 0) 20 (ridOf 21)).keyArray 1 = 20 ∧
      (findIndexAndInsertLeaf (idx5.page 0) 20 (ridOf 21)).ridArray 1 = ridOf 21 ∧
      (findIndexAndInsertLeaf (idx5.page 0) 20 (ridOf 21)).keyArray (1 + 1) = 20 ∧
      (findIndexAndInsertLeaf (idx5.page 0) 20 (ridOf 21)).ridArray (1 + 1) =
        (idx5.page 0).ridArray 1) ∧
    insertEntry 10 idx5 20 (ridOf 21) = .ok () idx5e ∧
    startScan 20 idx5e 20 .GTE 20 .LTE = .ok () scanF ∧
    (scanNext scanF).val? = some (ridOf 21) ∧ (scanNext scanF1).val? = some (ridOf 20) :=
  ⟨by decide!, by decide!, by decide!,
    C15_equal_key_is_inserted_before (idx5.page 0) 20 (ridOf 21) 1 (by decide) (by decide!)
      (fun x h0 h1 => by
        have e : x = 0 := by omega
        subst e
        decide!)
      (by decide!),
    idx5e_ok, scanF_ok, by decide!, by decide!⟩

/-! ## The exceptions an operation can end with -/

theorem bind_throw {σ α β : Type} (r : Res σ α) (k : α → σ → Res σ β) (e : Exn) (s' : σ)
    (h : r.bind k = .throw e s') :
    r = .throw e s' ∨ ∃ a s1, r = .ok a s1 ∧ k a s1 = .throw e s' := by
  cases r with
  | ok a s1 => exact Or.inr ⟨a, s1, rfl, h⟩
  | throw e1 s1 =>
    simp only [Res.bind] at h
    injection h with h1 h2
    subst h1 h2
    exact Or.inl rfl
  | undef => exact Res.noConfusion h
  | nofuel => exact Res.noConfusion h

theorem call_throw {α : Type} (t : BTreeIndex) (r : Res BufMgr α) (e : Exn) (t' : BTreeIndex)
    (h : t.call r = .throw e t') : ∃ b, r = .throw e b ∧ t' = { t with bufMgr := b } := by
  cases r with
  | ok a1 b => exact Res.noConfusion h
  | throw e1 s1 =>
    simp only [BTreeIndex.call] at h
    injection h with h1 h2
    subst h1 h2
    exact ⟨s1, rfl, rfl⟩
  | undef => exact Res.noConfusion h
  | nofuel => exact Res.noConfusion h

theorem after_throw {σ α : Type} (r : Res σ α) (s0 : σ) (e : Exn) (h : r.exn? = some e) :
    r = .throw e (r.after s0) := by
  cases r with
  | ok b s => exact absurd h (by simp [Res.exn?])
  | throw e1 s =>
    have : e1 = e := by simpa [Res.exn?] using h
    subst this; rfl
  | undef => exact absurd h (by simp [Res.exn?])
  | nofuel => exact absurd h (by simp [Res.exn?])

theorem flushFileLoop_throws (f : FileId) (n : Nat) : ∀ (i : FrameId) (s : BufMgr) (e : Exn)
    (s' : BufMgr), flushFileLoop f n i s = .throw e s' → e.ofBuffer = true := by
  induction n with
  | zero => intro i s e s' h; exact Res.noConfusion h
  | succ n ih =>
    intro i s e s' h
    rw [flushFileLoop] at h
    simp only [] at h
    split at h
    · split at h
      · injection h with h1; subst h1; rfl
      · split at h
        · injection h with h1; subst h1; rfl
        · split at h
          · injection h with h1; subst h1; rfl
          · exact ih _ _ _ _ h
    · exact ih _ _ _ _ h

theorem allocBufLoop_throws (n : Nat) : ∀ (pc : Nat) (s : BufMgr) (e : Exn) (s' : BufMgr),
    allocBufLoop n pc s = .throw e s' → e.ofBuffer = true := by
  induction n with
  | zero => intro pc s e s' h; exact Res.noConfusion h
  | succ n ih =>
    intro pc s e s' h
    rw [allocBufLoop] at h
    try simp only [] at h
    split at h
    · exact Res.noConfusion h
    · split at h
      · exact ih _ _ _ _ h
      · split at h
        · exact ih _ _ _ _ h
        · split at h
          · exact Res.noConfusion h
          · split at h
            · exact Res.noConfusion h
            · next hf =>
              injection h with h1 h2
              subst h1
              unfold flushFile at hf
              exact flushFileLoop_throws _ _ _ _ _ _ hf
            · exact Res.noConfusion h
            · exact Res.noConfusion h

theorem allocBuf_throws (s : BufMgr) (e : Exn) (s' : BufMgr)
    (h : allocBuf s = .throw e s') : e.ofBuffer = true := by
  unfold allocBuf at h
  split at h
  · split at h
    · injection h with h1; subst h1; rfl
    · exact Res.noConfusion h
  · next hl =>
    injection h with h1 h2
    subst h1
    exact allocBufLoop_throws _ _ _ _ _ hl
  · exact Res.noConfusion h
  · exact Res.noConfusion h

theorem readPage_throws (s : BufMgr) (f : FileId) (p : PageId) (e : Exn) (s' : BufMgr)
    (h : readPage s f p = .throw e s') : e.ofBuffer = true := by
  unfold readPage at h
  split at h
  · exact Res.noConfusion h
  · split at h
    · split at h
      · injection h with h1; subst h1; rfl
      · simp only [] at h
        split at h
        · injection h with h1; subst h1; rfl
        · exact Res.noConfusion h
    · exact Res.noConfusion h
    · next ha =>
      injection h with h1 h2
      subst h1
      exact allocBuf_throws _ _ _ ha
    · exact Res.noConfusion h
    · exact Res.noConfusion h

theorem unPinPage_throws (s : BufMgr) (f : FileId) (p : PageId) (d : Bool) (e : Exn)
    (s' : BufMgr) (h : unPinPage s f p d = .throw e s') :
    e.ofBuffer = true ∧ s' = s := by
  unfold unPinPage at h
  split at h
  · injection h with h1 h2; subst h1 h2; exact ⟨rfl, rfl⟩
  · simp only [] at h
    split at h
    · injection h with h1 h2; subst h1 h2; exact ⟨rfl, rfl⟩
    · split at h
      · exact Res.noConfusion h
      · exact Res.noConfusion h

theorem tree_readPage_throws (t : BTreeIndex) (p : PageId) (e : Exn) (t' : BTreeIndex)
    (h : t.readPage p = .throw e t') : e.ofBuffer = true := by
  obtain ⟨b, hb, _⟩ := call_throw t _ e t' h
  exact readPage_throws _ _ _ _ _ hb

theorem tree_unPinPage_throws (t : BTreeIndex) (p : PageId) (d : Bool) (e : Exn)
    (t' : BTreeIndex) (h : t.unPinPage p d = .throw e t') : e.ofBuffer = true := by
  obtain ⟨b, hb, _⟩ := call_throw t _ e t' h
  exact (unPinPage_throws _ _ _ _ _ _ hb).1

theorem setNextScan_throws (t : BTreeIndex) (p : PageId) (e : Exn) (t' : BTreeIndex)
    (h : setNextScan t p = .throw e t') : e.ofBuffer = true := by
  unfold setNextScan at h
  rcases bind_throw _ _ _ _ h with h1 | ⟨_, _, _, h2⟩
  · exact tree_readPage_throws _ _ _ _ h1
  · exact Res.noConfusion h2

theorem endScan_throws (t : BTreeIndex) (e : Exn) (t' : BTreeIndex)
    (h : endScan t = .throw e t') :
    (e = .ScanNotInitialized ∧ t.scanExecuting = false) ∨ e.ofBuffer = true := by
  unfold endScan at h
  split at h
  · next hs =>
    injection h with h1 h2
    subst h1
    exact Or.inl ⟨rfl, hs⟩
  · rcases bind_throw _ _ _ _ h with h1 | ⟨_, _, _, h2⟩
    · exact Or.inr (tree_unPinPage_throws _ _ _ _ _ h1)
    · exact Res.noConfusion h2

/-- The three outcomes of two calls followed by a continuation that end with
an exception. -/
theorem bind2_throw {σ : Type} (r1 : Res σ Unit) (r2 : σ → Res σ Unit) (k : σ → Res σ Unit)
    (e : Exn) (s' : σ)
    (h : (r1.bind fun _ t1 => (r2 t1).bind fun _ t2 => k t2) = .throw e s') :
    r1 = .throw e s' ∨ (∃ t1, r1 = .ok () t1 ∧ r2 t1 = .throw e s') ∨
    ∃ t1 t2, r1 = .ok () t1 ∧ r2 t1 = .ok () t2 ∧ k t2 = .throw e s' := by
  rcases bind_throw _ _ _ _ h with h1 | ⟨_, t1, h1, h2⟩
  · exact Or.inl h1
  · rcases bind_throw _ _ _ _ h2 with h3 | ⟨_, t2, h3, h4⟩
    · exact Or.inr (Or.inl ⟨t1, h1, h3⟩)
    · exact Or.inr (Or.inr ⟨t1, t2, h1, h3, h4⟩)

theorem recurScanLoop_throws (fuel : Nat) : ∀ (t : BTreeIndex) (c : FrameId) (leaf : Bool)
    (e : Exn) (t' : BTreeIndex), recurScanLoop fuel t c leaf = .throw e t' →
    e = .NoSuchKeyFound ∨ e.ofBuffer = true := by
  induction fuel with
  | zero => intro t c leaf e t' h; exact Res.noConfusion h
  | succ fuel ih =>
    intro t c leaf e t' h
    have enter : ∀ (t2 : BTreeIndex),
        (match t2.currentPageData with
          | none => Res.undef
          | some p => recurScanLoop fuel t2 p (isLeaf (t2.page p))) = .throw e t' →
        e = .NoSuchKeyFound ∨ e.ofBuffer = true := by
      intro t2 h
      split at h
      · exact Res.noConfusion h
      · exact ih _ _ _ _ _ h
    have cross : ∀ (q : PageId) (k : BTreeIndex → Res BTreeIndex Unit),
        (∀ t2, k t2 = .throw e t' → e = .NoSuchKeyFound ∨ e.ofBuffer = true) →
        ((setNextScan t q).bind fun _ t1 =>
          (t1.unPinPage t.currentPageNum false).bind fun _ t2 => k t2) = .throw e t' →
        e = .NoSuchKeyFound ∨ e.ofBuffer = true := by
      intro q k hk h
      rcases bind2_throw _ _ _ _ _ h with h1 | ⟨t1, _, h2⟩ | ⟨t1, t2, _, _, h3⟩
      · exact Or.inr (setNextScan_throws _ _ _ _ h1)
      · exact Or.inr (tree_unPinPage_throws _ _ _ _ _ h2)
      · exact hk t2 h3
    have descend : ∀ (q : BTreeIndex → PageId),
        ((t.unPinPage t.currentPageNum false).bind fun _ t1 =>
          (setNextScan t1 (q t1)).bind fun _ t2 =>
            (match t2.currentPageData with
              | none => Res.undef
              | some p => recurScanLoop fuel t2 p (isLeaf (t2.page p)))) = .throw e t' →
        e = .NoSuchKeyFound ∨ e.ofBuffer = true := by
      intro q h
      rcases bind2_throw _ _ _ _ _ h with h1 | ⟨t1, _, h2⟩ | ⟨t1, t2, _, _, h3⟩
      · exact Or.inr (tree_unPinPage_throws _ _ _ _ _ h1)
      · exact Or.inr (setNextScan_throws _ _ _ _ h2)
      · exact enter t2 h3
    rw [recurScanLoop] at h
    simp only [] at h
    split at h
    · split at h
      · split at h
        · split at h
          · exact cross _ _ (fun t2 h2 => ih _ _ _ _ _ h2) h
          · injection h with h1; exact Or.inl h1.symm
        · exact ih _ _ _ _ _ h
      · split at h
        · exact Res.noConfusion h
        · injection h with h1; exact Or.inl h1.symm
    · split at h
      · split at h
        · exact cross _ _ enter h
        · exact ih _ _ _ _ _ h
      · split at h
        · exact descend (fun t1 => (t1.page c).pageNoArray (t1.nextEntry + 1)) h
        · exact descend (fun t1 => (t1.page c).pageNoArray t1.nextEntry) h

theorem recurScan_throws (fuel : Nat) (t : BTreeIndex) (e : Exn) (t' : BTreeIndex)
    (h : recurScan fuel t = .throw e t') : e = .NoSuchKeyFound ∨ e.ofBuffer = true := by
  unfold recurScan at h
  split at h
  · exact Res.noConfusion h
  · exact recurScanLoop_throws fuel _ _ _ _ _ h

/-- When the operators are allowed and the range is not empty, the part of
`startScan` before `recurScan` can only fail in the buffer manager. -/
theorem startScanSetup_throws (t : BTreeIndex) (lowVal : Int) (lowOp : Operator)
    (highVal : Int) (highOp : Operator) (e : Exn) (t' : BTreeIndex)
    (h : startScanSetup t lowVal lowOp highVal highOp = .throw e t') :
    (e = .BadOpcodes ∧ t' = t ∧
      ((lowOp ≠ .GT ∧ lowOp ≠ .GTE) ∨ (highOp ≠ .LT ∧ highOp ≠ .LTE))) ∨
    (e = .BadScanrange ∧ t' = t ∧ ¬ (lowOp ≠ .GT ∧ lowOp ≠ .GTE) ∧
      ¬ (highOp ≠ .LT ∧ highOp ≠ .LTE) ∧ lowVal > highVal) ∨
    e.ofBuffer = true := by
  unfold startScanSetup at h
  split at h
  · next hl =>
    injection h with h1 h2
    exact Or.inl ⟨h1.symm, h2.symm, Or.inl hl⟩
  · next hl =>
    split at h
    · next hh =>
      injection h with h1 h2
      exact Or.inl ⟨h1.symm, h2.symm, Or.inr hh⟩
    · next hh =>
      split at h
      · next hr =>
        injection h with h1 h2
        exact Or.inr (Or.inl ⟨h1.symm, h2.symm, hl, hh, hr⟩)
      · try simp only [] at h
        rcases bind_throw _ _ _ _ h with h1 | ⟨_, t0, _, h2⟩
        · split at h1
          · next hs =>
            rcases endScan_throws _ _ _ h1 with ⟨_, hx⟩ | hx
            · rw [hs] at hx; exact absurd hx (by simp)
            · exact Or.inr (Or.inr hx)
          · exact Res.noConfusion h1
        · rcases bind_throw _ _ _ _ h2 with h3 | ⟨_, _, _, h4⟩
          · exact Or.inr (Or.inr (setNextScan_throws _ _ _ _ h3))
          · exact Res.noConfusion h4

/-! ## The argument checks of `startScan` -/

theorem startScan_throw_cases (fuel : Nat) (t : BTreeIndex) (lowVal : Int) (lowOp : Operator)
    (highVal : Int) (highOp : Operator) (e : Exn) (t' : BTreeIndex)
    (h : startScan fuel t lowVal lowOp highVal highOp = .throw e t') :
    (e = .BadOpcodes ∧ t' = t ∧
      ((lowOp ≠ .GT ∧ lowOp ≠ .GTE) ∨ (highOp ≠ .LT ∧ highOp ≠ .LTE))) ∨
    (e = .BadScanrange ∧ t' = t ∧ ¬ (lowOp ≠ .GT ∧ lowOp ≠ .GTE) ∧
      ¬ (highOp ≠ .LT ∧ highOp ≠ .LTE) ∧ lowVal > highVal) ∨
    e = .NoSuchKeyFound ∨ e.ofBuffer = true := by
  unfold startScan at h
  rcases bind_throw _ _ _ _ h with h1 | ⟨_, t7, _, h2⟩
  · rcases startScanSetup_throws _ _ _ _ _ _ _ h1 with a | a | a
    · exact Or.inl a
    · exact Or.inr (Or.inl a)
    · exact Or.inr (Or.inr (Or.inr a))
  · exact Or.inr (Or.inr (recurScan_throws fuel t7 e t' h2))

theorem startScan_bad_opcodes (fuel : Nat) (t : BTreeIndex) (lowVal : Int) (lowOp : Operator)
    (highVal : Int) (highOp : Operator)
    (h : (lowOp ≠ .GT ∧ lowOp ≠ .GTE) ∨ (highOp ≠ .LT ∧ highOp ≠ .LTE)) :
    startScan fuel t lowVal lowOp highVal highOp = .throw .BadOpcodes t := by
  unfold startScan startScanSetup
  by_cases hl : lowOp ≠ .GT ∧ lowOp ≠ .GTE
  · rw [if_pos hl]; rfl
  · rw [if_neg hl]
    have hh : highOp ≠ .LT ∧ highOp ≠ .LTE := by
      rcases h with h | h
      · exact absurd h hl
      · exact h
    rw [if_pos hh]; rfl

theorem startScan_bad_range (fuel : Nat) (t : BTreeIndex) (lowVal : Int) (lowOp : Operator)
    (highVal : Int) (highOp : Operator) (hl : lowOp = .GT ∨ lowOp = .GTE)
    (hh : highOp = .LT ∨ highOp = .LTE) (hr : lowVal > highVal) :
    startScan fuel t lowVal lowOp highVal highOp = .throw .BadScanrange t := by
  unfold startScan startScanSetup
  rw [if_neg (by rcases hl with e | e <;> simp [e]), if_neg (by rcases hh with e | e <;> simp [e]),
    if_pos hr]
  rfl

/-- C16: for every index state and all arguments, startScan fails with
BadOpcodes exactly when lowOp is not GT or GTE or highOp is not LT or LTE; with
allowed operators it fails with BadScanrange exactly when lowVal > highVal (the
values as given); and a call that fails with either error leaves the index as
it was, a running scan included. -/
theorem C16_startScan_argument_errors (fuel : Nat) (t : BTreeIndex) (lowVal : Int)
    (lowOp : Operator) (highVal : Int) (highOp : Operator) :
    ((∃ t', startScan fuel t lowVal lowOp highVal highOp = .throw .BadOpcodes t') ↔
      ((lowOp ≠ .GT ∧ lowOp ≠ .GTE) ∨ (highOp ≠ .LT ∧ highOp ≠ .LTE))) ∧
    ((lowOp = .GT ∨ lowOp = .GTE) → (highOp = .LT ∨ highOp = .LTE) →
      ((∃ t', startScan fuel t lowVal lowOp highVal highOp = .throw .BadScanrange t') ↔
        lowVal > highVal)) ∧
    (∀ e t', startScan fuel t lowVal lowOp highVal highOp = .throw e t' →
      e = .BadOpcodes ∨ e = .BadScanrange → t' = t) := by
  refine ⟨⟨?_, fun h => ⟨t, startScan_bad_opcodes fuel t lowVal lowOp highVal highOp h⟩⟩,
    fun hl hh => ⟨?_, fun hr => ⟨t, startScan_bad_range fuel t _ _ _ _ hl hh hr⟩⟩, ?_⟩
  · rintro ⟨t', h⟩
    rcases startScan_throw_cases _ _ _ _ _ _ _ _ h with a | a | a | a
    · exact a.2.2
    · exact absurd a.1 (by decide)
    · exact absurd a (by decide)
    · exact absurd a (by decide)
  · rintro ⟨t', h⟩
    rcases startScan_throw_cases _ _ _ _ _ _ _ _ h with a | a | a | a
    · exact absurd a.1 (by decide)
    · exact a.2.2.2.2
    · exact absurd a (by decide)
    · exact absurd a (by decide)
  · intro e t' h he
    rcases startScan_throw_cases _ _ _ _ _ _ _ _ h with a | a | a | a
    · exact a.2.1
    · exact a.2.1
    · rcases he with e1 | e1 <;> · rw [e1] at a; exact absurd a (by decide)
    · rcases he with e1 | e1 <;> · rw [e1] at a; exact absurd a (by decide)

/-- Witness of C16: on the running scan `scanC`, startScan with the low operator
LT fails with BadOpcodes and startScan(30, GTE, 20, LTE) with BadScanrange, and
the scan is as before. -/
theorem C16_witness :
    scanC.scanExecuting = true ∧
    startScan 5 scanC 10 .LT 20 .LTE = .throw .BadOpcodes scanC ∧
    startScan 5 scanC 30 .GTE 20 .LTE = .throw .BadScanrange scanC := by
  refine ⟨by decide!, ?_, ?_⟩
  · obtain ⟨t', h⟩ := (C16_startScan_argument_errors 5 scanC 10 .LT 20 .LTE).1.2
      (Or.inl ⟨by decide, by decide⟩)
    have e := (C16_startScan_argument_errors 5 scanC 10 .LT 20 .LTE).2.2 _ _ h (Or.inl rfl)
    rw [e] at h
    exact h
  · obtain ⟨t', h⟩ := ((C16_startScan_argument_errors 5 scanC 30 .GTE 20 .LTE).2.1
      (Or.inr rfl) (Or.inr rfl)).2 (by decide)
    have e := (C16_startScan_argument_errors 5 scanC 30 .GTE 20 .LTE).2.2 _ _ h (Or.inr rfl)
    rw [e] at h
    exact h

/-! ## The pins of a scan that fails with NoSuchKeyFound -/

theorem curPinned_startScanSetup (t : BTreeIndex) (hI : Inv t.bufMgr) (lowVal : Int)
    (lowOp : Operator) (highVal : Int) (highOp : Operator) (t7 : BTreeIndex)
    (h7 : startScanSetup t lowVal lowOp highVal highOp = .ok () t7) :
    CurPinned t7 ∧ t7.scanExecuting = true := by
  unfold startScanSetup at h7
  split at h7
  · exact Res.noConfusion h7
  · split at h7
    · exact Res.noConfusion h7
    · split at h7
      · exact Res.noConfusion h7
      · try simp only [] at h7
        obtain ⟨_, t0, h0, h7⟩ := bind_ok _ _ _ _ h7
        obtain ⟨_, t2, h2, h7⟩ := bind_ok _ _ _ _ h7
        injection h7 with _ h3
        subst h3
        have i0 : Inv t0.bufMgr := by
          split at h0
          · exact (pb_endScan _ t t0 ⟨hI, rfl⟩ h0).1
          · injection h0 with _ h4
            subst h4; exact hI
        obtain ⟨hf, hse, hcur, k, hk, hkp, _⟩ :=
          setNextScan_facts { t0 with scanExecuting := true } i0 _ t2 h2
        have key : ∀ t3 : BTreeIndex, t3.bufMgr = t2.bufMgr → t3.file = t2.file →
            t3.currentPageNum = t2.currentPageNum → t3.scanExecuting = t2.scanExecuting →
            CurPinned t3 ∧ t3.scanExecuting = true := by
          intro t3 e1 e2 e3 e4
          refine ⟨⟨k, ?_, ?_⟩, e4.trans hse⟩
          · rw [e1, e2, e3, hf, hcur]; exact hk
          · rw [e1]; exact hkp
        apply key
        · unfold setScanBounds; simp only []
          split <;> split <;> split <;> split <;> rfl
        · unfold setScanBounds; simp only []
          split <;> split <;> split <;> split <;> rfl
        · unfold setScanBounds; simp only []
          split <;> split <;> split <;> split <;> rfl
        · unfold setScanBounds; simp only []
          split <;> split <;> split <;> split <;> rfl

/-- Where `recurScan` throws NoSuchKeyFound, the pool holds as many pins as at
its entry and the page the scan stands on is pinned. -/
theorem nokey_recurScanLoop (fuel : Nat) : ∀ (n : Int) (t : BTreeIndex) (c : FrameId)
    (leaf : Bool) (t' : BTreeIndex), PB n t → CurPinned t →
    recurScanLoop fuel t c leaf = .throw .NoSuchKeyFound t' →
    PB n t' ∧ CurPinned t' ∧ t'.scanExecuting = t.scanExecuting := by
  induction fuel with
  | zero => intro n t c leaf t' _ _ h; exact Res.noConfusion h
  | succ fuel ih =>
    intro n t c leaf t' hp hc h
    have nb : ∀ e : Exn, e.ofBuffer = true → e = .NoSuchKeyFound → False := by
      intro e h1 h2
      rw [h2] at h1
      exact absurd h1 (by decide)
    have enter : ∀ (t2 : BTreeIndex), PB n t2 → CurPinned t2 →
        (match t2.currentPageData with
          | none => Res.undef
          | some p => recurScanLoop fuel t2 p (isLeaf (t2.page p))) =
            .throw .NoSuchKeyFound t' →
        PB n t' ∧ CurPinned t' ∧ t'.scanExecuting = t2.scanExecuting := by
      intro t2 p2 c2 h
      split at h
      · exact Res.noConfusion h
      · exact ih _ _ _ _ _ p2 c2 h
    have cross : ∀ (q : PageId) (k : BTreeIndex → Res BTreeIndex Unit),
        (∀ t2, PB n t2 → CurPinned t2 → k t2 = .throw .NoSuchKeyFound t' →
          PB n t' ∧ CurPinned t' ∧ t'.scanExecuting = t2.scanExecuting) →
        ((setNextScan t q).bind fun _ t1 =>
          (t1.unPinPage t.currentPageNum false).bind fun _ t2 => k t2) =
            .throw .NoSuchKeyFound t' →
        PB n t' ∧ CurPinned t' ∧ t'.scanExecuting = t.scanExecuting := by
      intro q k hk h
      rcases bind2_throw _ _ _ _ _ h with h1 | ⟨t1, _, h2⟩ | ⟨t1, t2, h1, h2, h3⟩
      · exact (nb _ (setNextScan_throws _ _ _ _ h1) rfl).elim
      · exact (nb _ (tree_unPinPage_throws _ _ _ _ _ h2) rfl).elim
      · have p1 := pb_setNextScan n t q t1 hp h1
        have p2 := pb_unPinPage _ _ _ _ t2 p1 h2
        have e : n + 1 - 1 = n := by ring
        rw [e] at p2
        obtain ⟨a, _, d⟩ := curPinned_cross t hp.1 hc q t1 t2 h1 h2
        obtain ⟨x, y, z⟩ := hk t2 p2 a h3
        exact ⟨x, y, z.trans d⟩
    have descend : ∀ (q : BTreeIndex → PageId),
        ((t.unPinPage t.currentPageNum false).bind fun _ t1 =>
          (setNextScan t1 (q t1)).bind fun _ t2 =>
            (match t2.currentPageData with
              | none => Res.undef
              | some p => recurScanLoop fuel t2 p (isLeaf (t2.page p)))) =
            .throw .NoSuchKeyFound t' →
        PB n t' ∧ CurPinned t' ∧ t'.scanExecuting = t.scanExecuting := by
      intro q h
      rcases bind2_throw _ _ _ _ _ h with h1 | ⟨t1, _, h2⟩ | ⟨t1, t2, h1, h2, h3⟩
      · exact (nb _ (tree_unPinPage_throws _ _ _ _ _ h1) rfl).elim
      · exact (nb _ (setNextScan_throws _ _ _ _ h2) rfl).elim
      · have p1 := pb_unPinPage _ _ _ _ t1 hp h1
        have p2 := pb_setNextScan _ t1 _ t2 p1 h2
        have e : n - 1 + 1 = n := by ring
        rw [e] at p2
        obtain ⟨a, _, d⟩ := curPinned_descend t hp.1 _ _ t1 t2 h1 h2
        obtain ⟨x, y, z⟩ := enter t2 p2 a h3
        exact ⟨x, y, z.trans d⟩
    have stay : recurScanLoop fuel { t with nextEntry := t.nextEntry + 1 } c leaf =
          .throw .NoSuchKeyFound t' →
        PB n t' ∧ CurPinned t' ∧ t'.scanExecuting = t.scanExecuting := by
      intro h
      refine ih n { t with nextEntry := t.nextEntry + 1 } c leaf t' ?_ ?_ h
      · exact hp
      · exact hc
    rw [recurScanLoop] at h
    try simp only [] at h
    split at h
    · split at h
      · split at h
        · split at h
          · exact cross _ _ (fun t2 p2 c2 h2 => ih _ _ _ _ _ p2 c2 h2) h
          · injection h with _ h2
            subst h2; exact ⟨hp, hc, rfl⟩
        · exact stay h
      · split at h
        · exact Res.noConfusion h
        · injection h with _ h2
          subst h2; exact ⟨hp, hc, rfl⟩
    · split at h
      · split at h
        · exact cross _ _ enter h
        · exact stay h
      · split at h
        · exact descend (fun t1 => (t1.page c).pageNoArray (t1.nextEntry + 1)) h
        · exact descend (fun t1 => (t1.page c).pageNoArray t1.nextEntry) h

/-- C19 (the code departs from the claim): whenever startScan, called on a
well-formed pool while no scan is running, fails with NoSuchKeyFound, the pool
holds one pin more than before the call: the page on which `recurScan` gave up
is still pinned, and the scan still counts as running. -/
theorem C19_NoSuchKeyFound_leaves_a_page_pinned (fuel : Nat) (t : BTreeIndex)
    (hI : Inv t.bufMgr) (hs : t.scanExecuting = false) (lowVal : Int) (lowOp : Operator)
    (highVal : Int) (highOp : Operator) (t' : BTreeIndex)
    (h : startScan fuel t lowVal lowOp highVal highOp = .throw .NoSuchKeyFound t') :
    totalPins t'.bufMgr = totalPins t.bufMgr + 1 ∧ CurPinned t' ∧
    t'.scanExecuting = true := by
  unfold startScan at h
  rcases bind_throw _ _ _ _ h with h1 | ⟨_, t7, h7, h2⟩
  · rcases startScanSetup_throws _ _ _ _ _ _ _ h1 with a | a | a
    · exact absurd a.1 (by decide)
    · exact absurd a.1 (by decide)
    · exact absurd a (by decide)
  · have p7 := pb_startScanSetup _ t lowVal lowOp highVal highOp t7 ⟨hI, rfl⟩ h7
    rw [hs] at p7
    simp only [Bool.false_eq_true, if_false] at p7
    obtain ⟨c7, s7⟩ := curPinned_startScanSetup t hI lowVal lowOp highVal highOp t7 h7
    unfold recurScan at h2
    split at h2
    · exact Res.noConfusion h2
    · obtain ⟨x, y, z⟩ := nokey_recurScanLoop fuel _ _ _ _ _ p7 c7 h2
      refine ⟨?_, y, z.trans s7⟩
      have := x.2
      omega

theorem scanH_ok : startScan 20 idx5 1 .GTE 5 .LTE = .throw .NoSuchKeyFound scanH :=
  after_throw _ idx5 _ (by decide!)

/-- Witness of C19: on `idx5`, where no frame is pinned, startScan(1, GTE, 5, LTE)
fails with NoSuchKeyFound on the leaf `[10, 20]` (page 2, frame 0), whose pin
count is 1 afterwards. -/
theorem C19_witness :
    idx5.scanExecuting = false ∧
    (∀ k, k < idx5.bufMgr.numBufs → (idx5.bufMgr.bufDescTable k).pinCnt = 0) ∧
    startScan 20 idx5 1 .GTE 5 .LTE = .throw .NoSuchKeyFound scanH ∧
    (scanH.bufMgr.hashTable 0 2 = some 0 ∧ (scanH.bufMgr.bufDescTable 0).pinCnt = 1) ∧
    (totalPins scanH.bufMgr = totalPins idx5.bufMgr + 1 ∧ CurPinned scanH ∧
      scanH.scanExecuting = true) :=
  ⟨by decide!, ((pb_zero idx5).1 pb_idx5).2, scanH_ok, by decide!,
    C19_NoSuchKeyFound_leaves_a_page_pinned 20 idx5 pb_idx5.1 (by decide!) 1 .GTE 5 .LTE scanH
      scanH_ok⟩

/-! ## The contract of `scanNext` -/

theorem call_readPage_ok (t : BTreeIndex) (p : PageId) (k : FrameId) (b : BufMgr)
    (h : readPage t.bufMgr t.file p = .ok k b) :
    t.readPage p = .ok k { t with bufMgr := b } := by
  unfold BTreeIndex.readPage
  rw [h]
  rfl

theorem call_unPinPage_ok (t : BTreeIndex) (p : PageId) (d : Bool) (b : BufMgr)
    (h : unPinPage t.bufMgr t.file p d = .ok () b) :
    t.unPinPage p d = .ok () { t with bufMgr := b } := by
  unfold BTreeIndex.unPinPage
  rw [h]
  rfl

theorem setNextScan_ok (t : BTreeIndex) (p : PageId) (k : FrameId) (b : BufMgr)
    (h : readPage t.bufMgr t.file p = .ok k b) :
    setNextScan t p = .ok () { t with
      nextEntry := 0, currentPageNum := p, currentPageData := some k, bufMgr := b } := by
  unfold setNextScan
  simp only []
  rw [call_readPage_ok { t with nextEntry := 0, currentPageNum := p } p k b h]
  rfl

/-- A page that is pinned can still be unpinned after `readPage` of any page
has returned. -/
theorem unPin_after_readPage (s : BufMgr) (hs : Inv s) (f : FileId) (p q : PageId)
    (j : FrameId) (hj : s.hashTable f p = some j) (hp : 0 < (s.bufDescTable j).pinCnt)
    (k : FrameId) (b : BufMgr) (h : readPage s f q = .ok k b) :
    ∃ b', unPinPage b f p false = .ok () b' := by
  obtain ⟨hk, _, hf, hpn⟩ := (hs.hash f p j).1 hj
  obtain ⟨ib, nb, v, fl, pn, _, _, pc⟩ :=
    pinned_core s hs f q b (Or.inl (by rw [h]; rfl)) j hk hp
  have hj' : b.hashTable f p = some j :=
    (ib.hash f p j).2 ⟨by rw [nb]; exact hk, v, by rw [fl]; exact hf, by rw [pn]; exact hpn⟩
  have hp' : 0 < (b.bufDescTable j).pinCnt := by
    rcases pc with e | ⟨_, e⟩ <;> omega
  exact ⟨_, unPinPage_pinned b f p false j hj' hp'⟩

/-- C18: scanNext fails with ScanNotInitialized when no scan is active, and
with IndexScanCompleted when `nextEntry` is -1 or the key at the cursor exceeds
`inclHigh`, the index being unchanged in both cases.  Otherwise it returns
`ridArray[nextEntry]` of the current leaf and moves the cursor: to
`nextEntry + 1` when the cursor is not on the last populated slot; to -1 when it
is and the leaf has no right sibling; and when it has one, to slot 0 of the
sibling, the pool being the one that `readPage` of the sibling followed by
`unPinPage` of the old leaf produce.  In the last case the call returns whenever
the read of the sibling returns (the pool being well-formed and the old leaf
pinned, as it is during a scan). -/
theorem C18_scanNext_contract (t : BTreeIndex) :
    (t.scanExecuting = false → scanNext t = .throw .ScanNotInitialized t) ∧
    (∀ c, t.scanExecuting = true → t.currentPageData = some c →
      ((t.nextEntry = -1 ∨ (t.page c).keyArray t.nextEntry > t.inclHigh) →
        scanNext t = .throw .IndexScanCompleted t) ∧
      (t.nextEntry ≠ -1 → (t.page c).keyArray t.nextEntry ≤ t.inclHigh →
        (t.nextEntry ≠ (t.page c).numKeys - 1 →
          scanNext t = .ok ((t.page c).ridArray t.nextEntry)
            { t with nextEntry := t.nextEntry + 1 }) ∧
        (t.nextEntry = (t.page c).numKeys - 1 →
          (t.page c).rightSibPageNo = INVALID_NUMBER →
          scanNext t = .ok ((t.page c).ridArray t.nextEntry) { t with nextEntry := -1 }) ∧
        (t.nextEntry = (t.page c).numKeys - 1 →
          (t.page c).rightSibPageNo ≠ INVALID_NUMBER →
          (∀ k b, readPage t.bufMgr t.file (t.page c).rightSibPageNo = .ok k b →
            Inv t.bufMgr → CurPinned t →
            ∃ b', unPinPage b t.file t.currentPageNum false = .ok () b' ∧
              scanNext t = .ok ((t.page c).ridArray t.nextEntry)
                { t with nextEntry := 0, currentPageNum := (t.page c).rightSibPageNo,
                         currentPageData := some k, bufMgr := b' }) ∧
          (∀ rid t', scanNext t = .ok rid t' →
            rid = (t.page c).ridArray t.nextEntry ∧
            ∃ k b, readPage t.bufMgr t.file (t.page c).rightSibPageNo = .ok k b ∧
              unPinPage b t.file t.currentPageNum false = .ok () t'.bufMgr ∧
              t' = { t with nextEntry := 0, currentPageNum := (t.page c).rightSibPageNo,
                            currentPageData := some k, bufMgr := t'.bufMgr })))) := by
  refine ⟨fun h => ?_, fun c hs hc => ⟨fun h => ?_, fun h1 h2 => ⟨fun h3 => ?_, fun h3 h4 => ?_,
    fun h3 h4 => ⟨fun k b hr hI hcp => ?_, fun rid t' h => ?_⟩⟩⟩⟩
  · unfold scanNext
    rw [if_pos h]
  · unfold scanNext
    rw [if_neg (by simp [hs]), hc]
    simp only []
    rw [if_pos (by rcases h with h | h; exact Or.inr h; exact Or.inl h)]
  · unfold scanNext
    rw [if_neg (by simp [hs]), hc]
    simp only []
    rw [if_neg (by intro h; rcases h with h | h; omega; exact h1 h), if_neg h3]
  · unfold scanNext
    rw [if_neg (by simp [hs]), hc]
    simp only []
    rw [if_neg (by intro h; rcases h with h | h; omega; exact h1 h), if_pos h3,
      if_neg (by simp [h4])]
  · obtain ⟨j, hj, hp⟩ := hcp
    obtain ⟨b', hb'⟩ := unPin_after_readPage t.bufMgr hI t.file t.currentPageNum _ j hj hp k b hr
    refine ⟨b', hb', ?_⟩
    unfold scanNext
    rw [if_neg (by simp [hs]), hc]
    simp only []
    rw [if_neg (by intro h; rcases h with h | h; omega; exact h1 h), if_pos h3, if_pos h4,
      setNextScan_ok t _ k b hr]
    simp only [Res.bind]
    rw [call_unPinPage_ok _ t.currentPageNum false b' hb']
  · unfold scanNext at h
    rw [if_neg (by simp [hs]), hc] at h
    simp only [] at h
    rw [if_neg (by intro h; rcases h with h | h; omega; exact h1 h), if_pos h3, if_pos h4] at h
    obtain ⟨_, t1, e1, h⟩ := bind_ok _ _ _ _ h
    obtain ⟨_, t2, e2, h⟩ := bind_ok _ _ _ _ h
    injection h with hrid ht
    subst hrid ht
    unfold setNextScan at e1
    obtain ⟨k, t0, e0, e1⟩ := bind_ok _ _ _ _ e1
    obtain ⟨b, hb, ht0⟩ := call_ok _ _ k t0 e0
    injection e1 with _ ht1
    subst ht1 ht0
    obtain ⟨b2, hb2, ht2⟩ := call_ok _ _ () t2 e2
    subst ht2
    exact ⟨rfl, k, b, hb, hb2, rfl⟩

theorem scanG_ok : startScan 20 idx5 10 .GTE 100 .LTE = .ok () scanG :=
  after_eq _ idx5 (by decide!)

theorem scanG1_ok : scanNext scanG = .ok (ridOf 10) scanG1 :=
  after_val _ scanG _ (by decide!)

/-- Witness of C18: the scan `scanG1` stands on the last entry (key 20) of the
leaf page 2, whose right sibling is page 3; the read of page 3 returns and
`scanNext` returns the rid of 20 with the cursor on slot 0 of page 3. -/
theorem C18_witness :
    scanG1.scanExecuting = true ∧ scanG1.currentPageData = some 0 ∧
    scanG1.nextEntry = 1 ∧ (scanG1.page 0).numKeys = 2 ∧
    (scanG1.page 0).rightSibPageNo = 3 ∧ (scanG1.page 0).ridArray 1 = ridOf 20 ∧
    ∃ b', unPinPage
        ((readPage scanG1.bufMgr scanG1.file (scanG1.page 0).rightSibPageNo).after
          scanG1.bufMgr) scanG1.file scanG1.currentPageNum false = .ok () b' ∧
      scanNext scanG1 = .ok ((scanG1.page 0).ridArray scanG1.nextEntry)
        { scanG1 with nextEntry := 0, currentPageNum := (scanG1.page 0).rightSibPageNo,
                      currentPageData := some 1, bufMgr := b' } :=
  ⟨by decide!, by decide!, by decide!, by decide!, by decide!, by decide!,
    ((((C18_scanNext_contract scanG1).2 0 (by decide!) (by decide!)).2 (by decide!)
      (by decide!)).2.2 (by decide!) (by decide!)).1 1 _
      (after_val (readPage scanG1.bufMgr scanG1.file (scanG1.page 0).rightSibPageNo)
        scanG1.bufMgr 1 (by decide!))
      (pb_scanNext _ scanG (ridOf 10) scanG1
        (pb_startScan 20 0 idx5 10 .GTE 100 .LTE scanG pb_idx5 scanG_ok) scanG1_ok).1
      ⟨0, by decide!, by decide!⟩⟩

/-! ## Splits of non-leaf nodes and of the root -/

theorem idxFull_ok : insertAll 10 keysFull idx0 = .ok () idxFull :=
  after_eq _ idx0 (by decide!)

theorem idxSplit_ok : insertEntry 10 idxFull 53 (ridOf 53) = .ok () idxSplit :=
  after_eq _ idxFull (by decide!)

/-- C23 (the code departs from the claim): the root of `idxFull` (node capacity
4) is a full non-leaf with the keys 30, 32, 50, 70 over the children 2, 3, 7, 5,
6.  insertEntry(53) splits the leaf page 5, which promotes (52, page 8), and then
the root.  Afterwards the left node (page 4) has the keys 0, 0 and the children
0, 0, 7, the new right node (page 9) the keys 50, 70 and the children 7, 9, 6:
the keys 30, 32 and 52 and the children 2, 3, 5 and 8 are gone, the key 50 that
was pushed up stands in the right node, and the right node is its own child. -/
theorem C23_nonleaf_split_loses_keys_and_children :
    insertAll 10 keysFull idx0 = .ok () idxFull ∧
    idxFull.nodeOccupancy = 4 ∧ idxFull.rootPageNum = 4 ∧
    (idxFull.image 4).map (fun pg => (isLeaf pg, nodeKeys pg, nodeChildren pg)) =
      some (false, [30, 32, 50, 70], [2, 3, 7, 5, 6]) ∧
    insertEntry 10 idxFull 53 (ridOf 53) = .ok () idxSplit ∧
    (idxSplit.image 5).map (fun pg => (isLeaf pg, (leafEntries pg).map Prod.fst)) =
      some (true, [50, 51]) ∧
    (idxSplit.image 8).map (fun pg => (isLeaf pg, (leafEntries pg).map Prod.fst)) =
      some (true, [52, 53, 60]) ∧
    (idxSplit.image 4).map (fun pg => (isLeaf pg, nodeKeys pg, nodeChildren pg)) =
      some (false, [0, 0], [0, 0, 7]) ∧
    (idxSplit.image 9).map (fun pg => (isLeaf pg, nodeKeys pg, nodeChildren pg)) =
      some (false, [50, 70], [7, 9, 6]) := by
  refine ⟨idxFull_ok, by decide!, by decide!, by decide!, idxSplit_ok, by decide!, by decide!,
    by decide!, by decide!⟩

/-- C24 (the code departs from the claim): when the full non-leaf root of
`idxFull` (page 4) is split by insertEntry(53), `split` is handed the page id of
the child (5), not of the root, so that no new root is allocated: the only new
pages are 8 and 9, `rootPageNum` is still 4 and page 4 is the left half of the
split.  When the leaf root of the fresh index is split (the fifth insertion of
`keys5`), the new root page 4 is as the claim says and the cached header names
it, but the header frame was unpinned with dirty = false. -/
theorem C24_root_split :
    insertAll 10 keysFull idx0 = .ok () idxFull ∧
    idxFull.rootPageNum = 4 ∧ idxFull.bufMgr.nextPageNo 0 = 8 ∧
    (idxFull.image 4).map (fun pg => (isLeaf pg, pg.numKeys)) = some (false, 4) ∧
    insertEntry 10 idxFull 53 (ridOf 53) = .ok () idxSplit ∧
    idxSplit.rootPageNum = 4 ∧ idxSplit.bufMgr.nextPageNo 0 = 10 ∧
    (idxSplit.image 8).map isLeaf = some true ∧ (idxSplit.image 9).map isLeaf = some false ∧
    (idxSplit.image 4).map (fun pg => (nodeKeys pg, nodeChildren pg)) =
      some ([0, 0], [0, 0, 7]) ∧
    (idx0.rootPageNum = 2 ∧ (idx0.image 2).map isLeaf = some true) ∧
    insertAll 10 keys5 idx0 = .ok () idx5 ∧ idx5.rootPageNum = 4 ∧
    (idx5.image 4).map
      (fun pg => (pg.level, pg.numKeys, pg.keyArray 0, pg.pageNoArray 0, pg.pageNoArray 1)) =
      some (1, 1, 30, 2, 3) ∧
    idx5.bufMgr.hashTable 0 idx5.headerPageNum = some 3 ∧
    (idx5.bufMgr.bufPool 3).rootPageNo = 4 ∧ (idx5.bufMgr.bufDescTable 3).dirty = false := by
  refine ⟨idxFull_ok, by decide!, by decide!, by decide!, idxSplit_ok, by decide!, by decide!,
    by decide!, by decide!, by decide!, by decide!, idx5_ok, by decide!, by decide!, by decide!,
    by decide!, by decide!⟩

theorem idxAsc_ok : insertAll 10 keysAsc idx0 = .ok () idxAsc :=
  after_eq _ idx0 (by decide!)

theorem idxAsc1_ok : insertEntry 10 idxAsc 110 (ridOf 110) = .ok () idxAsc1 :=
  after_eq _ idxAsc (by decide!)

theorem idx9a_ok : insertAll 10 (keys9.take 7) idx0 = .ok () idx9a :=
  after_eq _ idx0 (by decide!)

theorem idx9b_ok : insertEntry 10 idx9a (-7) (ridOf 8) = .ok () idx9b :=
  after_eq _ idx9a (by decide!)

/-- C25 (the code departs from the claim): in `idxAsc` (node capacity 4) the
root holds three keys, 30, 50, 70, and the non-root leaf page 6 is full;
insertEntry(110) splits it and promotes 90, a key greater than all keys of the
root, with the new leaf page 7; when insertEntry returns the root still has its
three keys and four children, page 7 not among them.  In `idx9a` the root holds
one key and the non-root leaf page 2 is full; insertEntry(-7) splits it and
promotes the key 0 with the new leaf page 5; the root is unchanged as well. -/
theorem C25_promotion_dropped :
    insertAll 10 keysAsc idx0 = .ok () idxAsc ∧ idxAsc.nodeOccupancy = 4 ∧
    idxAsc.rootPageNum = 4 ∧
    (idxAsc.image 4).map (fun pg => (isLeaf pg, nodeKeys pg, nodeChildren pg)) =
      some (false, [30, 50, 70], [2, 3, 5, 6]) ∧
    (idxAsc.image 6).map (fun pg => (isLeaf pg, (leafEntries pg).map Prod.fst)) =
      some (true, [70, 80, 90, 100]) ∧
    insertEntry 10 idxAsc 110 (ridOf 110) = .ok () idxAsc1 ∧
    (idxAsc1.image 6).map (fun pg => ((leafEntries pg).map Prod.fst, pg.rightSibPageNo)) =
      some ([70, 80], 7) ∧
    (idxAsc1.image 7).map (fun pg => (isLeaf pg, (leafEntries pg).map Prod.fst)) =
      some (true, [90, 100, 110]) ∧
    idxAsc1.rootPageNum = 4 ∧
    (idxAsc1.image 4).map (fun pg => (nodeKeys pg, nodeChildren pg)) =
      some ([30, 50, 70], [2, 3, 5, 6]) ∧
    insertAll 10 (keys9.take 7) idx0 = .ok () idx9a ∧ idx9a.rootPageNum = 4 ∧
    (idx9a.image 4).map (fun pg => (isLeaf pg, nodeKeys pg, nodeChildren pg)) =
      some (false, [30], [2, 3]) ∧
    (idx9a.image 2).map (fun pg => (isLeaf pg, (leafEntries pg).map Prod.fst)) =
      some (true, [-10, -5, 0, 10]) ∧
    insertEntry 10 idx9a (-7) (ridOf 8) = .ok () idx9b ∧
    (idx9b.image 2).map (fun pg => ((leafEntries pg).map Prod.fst, pg.rightSibPageNo)) =
      some ([-10, -7, -5], 5) ∧
    (idx9b.image 5).map (fun pg => (isLeaf pg, (leafEntries pg).map Prod.fst)) =
      some (true, [0, 10]) ∧
    idx9b.rootPageNum = 4 ∧
    (idx9b.image 4).map (fun pg => (nodeKeys pg, nodeChildren pg)) = some ([30], [2, 3]) := by
  refine ⟨idxAsc_ok, by decide!, by decide!, by decide!, by decide!, idxAsc1_ok, by decide!,
    by decide!, by decide!, by decide!, idx9a_ok, by decide!, by decide!, by decide!, idx9b_ok,
    by decide!, by decide!, by decide!, by decide!⟩

/-! ## Termination of `startScan` -/

/-- C26 (the code departs from the claim): whenever `recurScan` is entered on a
leaf all of whose keys are below `inclLow` and which has a right sibling in the
pool, it does not finish: no amount of fuel suffices. -/
theorem C26_recurScan_never_ends_past_a_leaf (t : BTreeIndex) (c : FrameId)
    (hc : t.currentPageData = some c) (hl : isLeaf (t.page c) = true) (hg : LeafGap t c) :
    ∀ fuel, recurScan fuel t = .nofuel := by
  intro fuel
  unfold recurScan
  rw [hc]
  simp only []
  rw [hl]
  exact leafGap_never_ends fuel t c hg

theorem scanI_ok : startScanSetup idx5 20 .GT 40 .LT = .ok () scanI :=
  after_eq _ idx5 (by decide!)

theorem scanI1_ok : scanI.unPinPage scanI.currentPageNum false = .ok () scanI1 :=
  after_eq _ scanI (by decide!)

theorem scanJ_ok :
    setNextScan scanI1 ((scanI1.page 2).pageNoArray scanI1.nextEntry) = .ok () scanJ :=
  after_eq _ scanI1 (by decide!)

theorem scanI_descends (n : Nat) : recurScan (n + 1) scanI = recurScan n scanJ := by
  have h0 : scanI.currentPageData = some 2 := by decide!
  have hl : isLeaf (scanI.page 2) = false := by decide!
  have h1 : ¬ ((scanI.page 2).keyArray scanI.nextEntry < scanI.inclLow) := by decide!
  have h2 : ¬ ((scanI.page 2).keyArray scanI.nextEntry = scanI.inclLow) := by decide!
  unfold recurScan
  rw [h0]
  simp only []
  rw [hl, recurScanLoop]
  simp only [Bool.false_eq_true, if_false]
  rw [if_neg h1, if_neg h2, scanI1_ok]
  simp only [Res.bind]
  rw [scanJ_ok]

theorem leafGap_scanJ : LeafGap scanJ 0 := by
  have hn : (scanJ.page 0).numKeys = 2 := by decide!
  refine ⟨by decide!, ?_, by decide!, ⟨1, by decide!⟩, ⟨0, by decide!, by decide!⟩⟩
  intro i h1 h2
  rw [hn] at h2
  have : i = 0 ∨ i = 1 := by omega
  rcases this with e | e
  · subst e; decide!
  · subst e; decide!

/-- Witness of C26: the tree of `idx5` is the root `[30]` over the leaves
`[10, 20]` (page 2) and `[30, 40, 50]` (page 3), linked 2, 3; the scan
startScan(20, GT, 40, LT), whose range [21, 39] holds the key 30, descends to
page 2 and never finishes. -/
theorem C26_witness :
    (idx5.image idx5.rootPageNum).map (fun pg => (isLeaf pg, nodeKeys pg, nodeChildren pg)) =
      some (false, [30], [2, 3]) ∧
    (leafChain 10 idx5 2).map (fun l => l.map fun e => (e.1, e.2.map Prod.fst)) =
      some [(2, [10, 20]), (3, [30, 40, 50])] ∧
    scanJ.currentPageData = some 0 ∧ scanJ.currentPageNum = 2 ∧ scanJ.inclLow = 21 ∧
    scanJ.inclHigh = 39 ∧ LeafGap scanJ 0 ∧
    (∀ fuel, recurScan fuel scanJ = .nofuel) ∧
    ∀ fuel, startScan fuel idx5 20 .GT 40 .LT = .nofuel := by
  have key := C26_recurScan_never_ends_past_a_leaf scanJ 0 (by decide!) (by decide!)
    leafGap_scanJ
  refine ⟨by decide!, by decide!, by decide!, by decide!, by decide!, by decide!,
    leafGap_scanJ, key, ?_⟩
  intro fuel
  unfold startScan
  rw [scanI_ok]
  simp only [Res.bind]
  cases fuel with
  | zero =>
    have h0 : scanI.currentPageData = some 2 := by decide!
    unfold recurScan
    rw [h0]
    simp only []
    rw [recurScanLoop]
  | succ n =>
    rw [scanI_descends n]
    exact key n

/-! ## The frame handed out by `allocBuf` -/

theorem reachable_free_frame (s : BufMgr) (hR : Reachable s) (k : FrameId) (s' : BufMgr)
    (h : allocBuf s = .ok (some k) s') :
    k < s.numBufs ∧ k = s'.clockHand ∧ (s'.bufDescTable k).valid = false ∧
    (s'.bufDescTable k).pinCnt = 0 ∧ (s'.bufDescTable k).dirty = false ∧
    ∀ f p, s'.hashTable f p ≠ some k := by
  have hs := allocBuf_spec s (reachable_inv s hR)
  rw [h] at hs
  obtain ⟨hI, hK, hk, _⟩ := hs
  obtain ⟨h1, h2, h3⟩ := hk k rfl
  have hk' : k < s'.numBufs := by rw [hK.numBufs]; exact h2
  obtain ⟨_, c2, c3⟩ := hI.clear k hk' h3
  refine ⟨h2, h1, h3, c2, c3, ?_⟩
  intro f p hfp
  have := ((hI.hash f p k).1 hfp).2.1
  rw [h3] at this
  exact absurd this (by simp)

/-- C27 (the code departs from the claim): in the reachable pool `pool2c` (two
frames, both pinned, both reference bits set) `allocBuf` returns normally
without having assigned its output frame number, and `readPage` of an uncached
page goes on with the unassigned number.  Whenever `allocBuf` does assign a
frame, in any reachable pool, the frame is as the claim says. -/
theorem C27_allocBuf_returns_without_a_frame :
    Reachable pool2c ∧ pool2c.numBufs = 2 ∧
    allocBuf pool2c = .ok none pool2h ∧
    (∀ k, k < 2 → (pool2h.bufDescTable k).valid = true ∧
      0 < (pool2h.bufDescTable k).pinCnt) ∧
    pool2c.hashTable 0 3 = none ∧ readPage pool2c 0 3 = .undef ∧
    allocPage pool2c 0 = .undef ∧
    ∀ s k s', Reachable s → allocBuf s = .ok (some k) s' →
      k < s.numBufs ∧ k = s'.clockHand ∧ (s'.bufDescTable k).valid = false ∧
      (s'.bufDescTable k).pinCnt = 0 ∧ (s'.bufDescTable k).dirty = false ∧
      ∀ f p, s'.hashTable f p ≠ some k := by
  refine ⟨reachable_pool2c, rfl, after_val _ pool2c _ (by decide), by decide, by decide,
    ?_, ?_, fun s k s' hR h => reachable_free_frame s hR k s' h⟩
  · have hh : pool2c.hashTable 0 3 = none := by decide
    have ha : allocBuf pool2c = .ok none pool2h := after_val _ pool2c _ (by decide)
    rw [readPage, hh]
    simp only []
    rw [ha]
  · have ha := after_val (allocBuf (pool2c.fileAlloc 0)) pool2c none (by decide)
    unfold BufMgr.fileAlloc at ha
    rw [allocPage]
    simp only []
    rw [ha]

/-! ## Insertion into a sorted leaf -/

theorem flatMap_single {α β : Type} (f : α → β) (l : List α) :
    (l.flatMap fun a => [f a]) = l.map f := by
  induction l with
  | nil => rfl
  | cons a l ih => simp [List.flatMap_cons, ih]

theorem leafEntries_eq (pg : Page) :
    leafEntries pg = (List.range pg.numKeys.toNat).map
      (fun k : Nat => (pg.keyArray (k : Int), pg.ridArray (k : Int))) := by
  unfold leafEntries
  simp only [List.bind_eq_flatMap, List.pure_def, flatMap_single, List.map_map]
  rfl

theorem leafEntries_getElem? (pg : Page) (k : Nat) :
    (leafEntries pg)[k]? =
      if k < pg.numKeys.toNat then some (pg.keyArray k, pg.ridArray k) else none := by
  rw [leafEntries_eq, List.getElem?_map]
  by_cases h : k < pg.numKeys.toNat
  · rw [if_pos h, List.getElem?_range h]; rfl
  · rw [if_neg h, List.getElem?_eq_none (by simpa using h)]; rfl

theorem leafEntries_length (pg : Page) : (leafEntries pg).length = pg.numKeys.toNat := by
  rw [leafEntries_eq]; simp

/-- The entries of a leaf into which a pair has been put at slot `i`. -/
theorem entries_insert (cur r : Page) (i : Nat) (key : Int) (rid : RecordId)
    (hn : 0 ≤ cur.numKeys) (hi : (i : Int) ≤ cur.numKeys)
    (h1 : r.numKeys = cur.numKeys + 1)
    (h2 : ∀ x : Int, r.keyArray x = if x = i then key else
      if (i : Int) < x ∧ x ≤ cur.numKeys then cur.keyArray (x - 1) else cur.keyArray x)
    (h3 : ∀ x : Int, r.ridArray x = if x = i then rid else
      if (i : Int) < x ∧ x ≤ cur.numKeys then cur.ridArray (x - 1) else cur.ridArray x) :
    leafEntries r = (leafEntries cur).take i ++ (key, rid) :: (leafEntries cur).drop i := by
  apply List.ext_getElem?
  intro k
  have hlen : (List.take i (leafEntries cur)).length = i := by
    rw [List.length_take, leafEntries_length]; omega
  rw [leafEntries_getElem?, h1, h2, h3]
  by_cases c1 : k < i
  · have a1 : k < (cur.numKeys + 1).toNat := by omega
    have a2 : k < cur.numKeys.toNat := by omega
    have a3 : ¬ ((k : Int) = i) := by omega
    have a4 : ¬ ((i : Int) < k ∧ (k : Int) ≤ cur.numKeys) := by omega
    rw [List.getElem?_append_left (by rw [hlen]; exact c1), List.getElem?_take, if_pos c1,
      leafEntries_getElem?, if_pos a1, if_pos a2, if_neg a3, if_neg a3, if_neg a4, if_neg a4]
  · rw [List.getElem?_append_right (by rw [hlen]; omega), hlen]
    by_cases c2 : k = i
    · subst c2
      have a1 : k < (cur.numKeys + 1).toNat := by omega
      rw [Nat.sub_self, List.getElem?_cons_zero, if_pos a1, if_pos rfl, if_pos rfl]
    · obtain ⟨j, hj⟩ : ∃ j, k - i = j + 1 := ⟨k - i - 1, by omega⟩
      have a3 : ¬ ((k : Int) = i) := by omega
      rw [hj, List.getElem?_cons_succ, List.getElem?_drop, leafEntries_getElem?, if_neg a3,
        if_neg a3]
      have e : ((k : Nat) : Int) - 1 = ((i + j : Nat) : Int) := by omega
      by_cases c3 : k < (cur.numKeys + 1).toNat
      · have a4 : (i : Int) < k ∧ (k : Int) ≤ cur.numKeys := by omega
        have a5 : i + j < cur.numKeys.toNat := by omega
        rw [if_pos c3, if_pos a5, if_pos a4, if_pos a4, e]
      · have a5 : ¬ i + j < cur.numKeys.toNat := by omega
        rw [if_neg c3, if_neg a5]

theorem shiftLeaf_fields (n : Nat) : ∀ (j : Int) (pg : Page),
    (shiftLeaf n j pg).level = pg.level ∧
    (shiftLeaf n j pg).rightSibPageNo = pg.rightSibPageNo ∧
    (shiftLeaf n j pg).page_number = pg.page_number := by
  induction n with
  | zero => intro j pg; exact ⟨rfl, rfl, rfl⟩
  | succ n ih =>
    intro j pg
    rw [shiftLeaf]
    exact ih (j - 1) _

theorem shiftInsert_spec (cur : Page) (i : Int) (key : Int) (rid : RecordId)
    (hi : i ≤ cur.numKeys) :
    (shiftInsert cur i key rid).numKeys = cur.numKeys + 1 ∧
    (∀ x, (shiftInsert cur i key rid).keyArray x = if x = i then key else
      if i < x ∧ x ≤ cur.numKeys then cur.keyArray (x - 1) else cur.keyArray x) ∧
    (∀ x, (shiftInsert cur i key rid).ridArray x = if x = i then rid else
      if i < x ∧ x ≤ cur.numKeys then cur.ridArray (x - 1) else cur.ridArray x) ∧
    (shiftInsert cur i key rid).level = cur.level ∧
    (shiftInsert cur i key rid).rightSibPageNo = cur.rightSibPageNo ∧
    (shiftInsert cur i key rid).page_number = cur.page_number := by
  obtain ⟨s1, s2, s3⟩ := shiftLeaf_spec (cur.numKeys - i).toNat (cur.numKeys - 1) cur
  obtain ⟨f1, f2, f3⟩ := shiftLeaf_fields (cur.numKeys - i).toNat (cur.numKeys - 1) cur
  have hc : ∀ x, (cur.numKeys - 1 + 1 - ((cur.numKeys - i).toNat : Int) < x ∧
      x ≤ cur.numKeys - 1 + 1) ↔ (i < x ∧ x ≤ cur.numKeys) := by
    intro x; omega
  unfold shiftInsert
  refine ⟨?_, ?_, ?_, f1, f2, f3⟩
  · dsimp only
    rw [s1]
  · intro x
    dsimp only
    rw [Function.update_apply, s2]
    simp only [hc]
  · intro x
    dsimp only
    rw [Function.update_apply, s3]
    simp only [hc]

/-- The search loop ends in the shift branch at the first slot whose key is not
below the new key, or at `numKeys`, where it appends. -/
theorem insertLeafLoop_total (cur : Page) (key : Int) (rid : RecordId) (m : Nat) :
    ∀ (i0 : Int), 0 ≤ i0 → i0 ≤ cur.numKeys → cur.numKeys - i0 < m →
    (∀ x, 0 ≤ x → x < i0 → cur.keyArray x < key) →
    ∃ i, i0 ≤ i ∧ i ≤ cur.numKeys ∧ (∀ x, 0 ≤ x → x < i → cur.keyArray x < key) ∧
      (i < cur.numKeys → ¬ cur.keyArray i < key) ∧
      insertLeafLoop m i0 cur key rid = shiftInsert cur i key rid := by
  induction m with
  | zero => intro i0 _ h1 h2 _; exfalso; simp at h2; omega
  | succ m ih =>
    intro i0 h0 h1 h2 hlt
    rw [insertLeafLoop]
    by_cases e : i0 = cur.numKeys
    · rw [if_pos e]
      refine ⟨i0, le_refl _, h1, hlt, fun h => by omega, ?_⟩
      unfold shiftInsert
      rw [e, Int.sub_self]
      rfl
    · rw [if_neg e]
      by_cases c : cur.keyArray i0 < key
      · rw [if_pos c]
        obtain ⟨i, a1, a2, a3, a4, a5⟩ := ih (i0 + 1) (by omega) (by omega)
          (by push_cast at h2; omega)
          (fun x hx hx' => by
            by_cases ex : x = i0
            · rw [ex]; exact c
            · exact hlt x hx (by omega))
        exact ⟨i, by omega, a2, a3, a4, a5⟩
      · rw [if_neg c]
        exact ⟨i0, le_refl _, h1, hlt, fun _ => c, rfl⟩

theorem findIndexAndInsertLeaf_total (cur : Page) (key : Int) (rid : RecordId)
    (hn : 0 ≤ cur.numKeys) :
    ∃ i, 0 ≤ i ∧ i ≤ cur.numKeys ∧ (∀ x, 0 ≤ x → x < i → cur.keyArray x < key) ∧
      (i < cur.numKeys → ¬ cur.keyArray i < key) ∧
      findIndexAndInsertLeaf cur key rid = shiftInsert cur i key rid := by
  unfold findIndexAndInsertLeaf
  by_cases e : cur.numKeys = 0
  · rw [if_pos e]
    refine ⟨0, le_refl _, hn, fun x h1 h2 => by omega, fun h => by omega, ?_⟩
    have z : (cur.numKeys - 0).toNat = 0 := by rw [e]; rfl
    unfold shiftInsert
    rw [z]
    rfl
  · rw [if_neg e]
    exact insertLeafLoop_total cur key rid (cur.numKeys + 1).toNat 0 (le_refl _) hn (by omega)
      (fun x h1 h2 => by omega)

/-- Sortedness of a leaf into which a pair has been put at its sorted slot. -/
theorem sorted_insert (cur r : Page) (i : Int) (key : Int) (h0 : 0 ≤ i)
    (hi : i ≤ cur.numKeys) (hs : LeafSorted cur cur.numKeys)
    (hlt : ∀ x, 0 ≤ x → x < i → cur.keyArray x < key)
    (hge : i < cur.numKeys → ¬ cur.keyArray i < key)
    (hk : ∀ x, r.keyArray x = if x = i then key else
      if i < x ∧ x ≤ cur.numKeys then cur.keyArray (x - 1) else cur.keyArray x) :
    LeafSorted r (cur.numKeys + 1) := by
  have rl : ∀ z, z < i → r.keyArray z = cur.keyArray z := by
    intro z hz
    rw [hk, if_neg (by omega), if_neg (by omega)]
  have rm : r.keyArray i = key := by rw [hk, if_pos rfl]
  have rh : ∀ z, i < z → z ≤ cur.numKeys → r.keyArray z = cur.keyArray (z - 1) := by
    intro z hz hz'
    rw [hk, if_neg (by omega), if_pos ⟨hz, hz'⟩]
  intro x y hx hxy hy
  rcases lt_trichotomy x i with a | a | a
  · rw [rl x a]
    rcases lt_trichotomy y i with b | b | b
    · rw [rl y b]; exact hs x y hx hxy (by omega)
    · rw [b, rm]; exact le_of_lt (hlt x hx a)
    · rw [rh y b (by omega)]; exact hs x (y - 1) hx (by omega) (by omega)
  · rw [a, rm]
    rcases lt_trichotomy y i with b | b | b
    · omega
    · rw [b, rm]
    · rw [rh y b (by omega)]
      have h1 : ¬ cur.keyArray i < key := hge (by omega)
      have h2 := hs i (y - 1) h0 (by omega) (by omega)
      omega
  · rw [rh x a (by omega), rh y (by omega) (by omega)]
    exact hs (x - 1) (y - 1) (by omega) (by omega) (by omega)

/-- What `findIndexAndInsertLeaf` does to a sorted leaf. -/
theorem insert_sorted_leaf (cur : Page) (key : Int) (rid : RecordId)
    (hn : 0 ≤ cur.numKeys) (hs : LeafSorted cur cur.numKeys) :
    (findIndexAndInsertLeaf cur key rid).numKeys = cur.numKeys + 1 ∧
    LeafSorted (findIndexAndInsertLeaf cur key rid) (cur.numKeys + 1) ∧
    (∃ i, i ≤ cur.numKeys.toNat ∧
      leafEntries (findIndexAndInsertLeaf cur key rid) =
        (leafEntries cur).take i ++ (key, rid) :: (leafEntries cur).drop i) ∧
    List.Perm (leafEntries (findIndexAndInsertLeaf cur key rid))
      ((key, rid) :: leafEntries cur) := by
  obtain ⟨i, h0, hi, hlt, hge, hr⟩ := findIndexAndInsertLeaf_total cur key rid hn
  obtain ⟨s1, s2, s3, _⟩ := shiftInsert_spec cur i key rid hi
  rw [hr]
  have hi' : ((i.toNat : Nat) : Int) = i := Int.toNat_of_nonneg h0
  have hl : leafEntries (shiftInsert cur i key rid) =
      (leafEntries cur).take i.toNat ++ (key, rid) :: (leafEntries cur).drop i.toNat := by
    apply entries_insert cur _ i.toNat key rid hn (by omega) s1
    · intro x; rw [s2 x, hi']
    · intro x; rw [s3 x, hi']
  refine ⟨s1, sorted_insert cur _ i key h0 hi hs hlt hge s2, ⟨i.toNat, by omega, hl⟩, ?_⟩
  rw [hl]
  have := @List.perm_middle _ (key, rid) ((leafEntries cur).take i.toNat)
    ((leafEntries cur).drop i.toNat)
  rw [List.take_append_drop] at this
  exact this

/-- C21: for every leaf page with `numKeys >= 0` whose entries
`keyArray[0..numKeys)` are sorted ascending and every pair `(key, rid)`,
`findIndexAndInsertLeaf` yields a leaf with `numKeys + 1` entries that are
sorted ascending; its list of (key, rid) pairs is the old list with the new
pair put in at one place, so every old pair is kept with its rid and nothing
else is added.  (The bound `numKeys < L` of the claim keeps the C++ arrays in
range; the arrays of the model have no bound.) -/
theorem C21_findIndexAndInsertLeaf_sorted (cur : Page) (key : Int) (rid : RecordId)
    (hn : 0 ≤ cur.numKeys) (hs : LeafSorted cur cur.numKeys) :
    (findIndexAndInsertLeaf cur key rid).numKeys = cur.numKeys + 1 ∧
    LeafSorted (findIndexAndInsertLeaf cur key rid) (cur.numKeys + 1) ∧
    (∃ i, i ≤ cur.numKeys.toNat ∧
      leafEntries (findIndexAndInsertLeaf cur key rid) =
        (leafEntries cur).take i ++ (key, rid) :: (leafEntries cur).drop i) ∧
    List.Perm (leafEntries (findIndexAndInsertLeaf cur key rid))
      ((key, rid) :: leafEntries cur) :=
  insert_sorted_leaf cur key rid hn hs

/-- Sortedness of `keyArray[0..n)` follows from the order of neighbours. -/
theorem leafSorted_of_nat (pg : Page) (n : Nat)
    (h : ∀ k : Nat, k < n - 1 → pg.keyArray k ≤ pg.keyArray (k + 1)) : LeafSorted pg n := by
  have step : ∀ (d : Nat) (x : Int), 0 ≤ x → x + d < n →
      pg.keyArray x ≤ pg.keyArray (x + d) := by
    intro d
    induction d with
    | zero => intro x _ _; simp
    | succ d ih =>
      intro x hx hd
      have h1 := ih x hx (by push_cast at hd; omega)
      have h2 := h (x + d).toNat (by push_cast at hd; omega)
      have e1 : (((x + d).toNat : Nat) : Int) = x + d := Int.toNat_of_nonneg (by omega)
      rw [e1] at h2
      have e2 : x + ((d + 1 : Nat) : Int) = x + d + 1 := by push_cast; ring
      rw [e2]
      exact le_trans h1 h2
  intro x y hx hxy hy
  have := step (y - x).toNat x hx (by omega)
  have e : x + (((y - x).toNat : Nat) : Int) = y := by omega
  rw [e] at this
  exact this

/-- Witness of C21: the leaf `[10, 20]` of `idx5` (frame 0) and the pair with
key 15. -/
theorem C21_witness :
    (0 : Int) ≤ (idx5.page 0).numKeys ∧
    leafEntries (idx5.page 0) = [(10, ridOf 10), (20, ridOf 20)] ∧
    leafEntries (findIndexAndInsertLeaf (idx5.page 0) 15 (ridOf 15)) =
      [(10, ridOf 10), (15, ridOf 15), (20, ridOf 20)] ∧
    ((findIndexAndInsertLeaf (idx5.page 0) 15 (ridOf 15)).numKeys = (idx5.page 0).numKeys + 1 ∧
      LeafSorted (findIndexAndInsertLeaf (idx5.page 0) 15 (ridOf 15))
        ((idx5.page 0).numKeys + 1) ∧
      (∃ i, i ≤ (idx5.page 0).numKeys.toNat ∧
        leafEntries (findIndexAndInsertLeaf (idx5.page 0) 15 (ridOf 15)) =
          (leafEntries (idx5.page 0)).take i ++
            (15, ridOf 15) :: (leafEntries (idx5.page 0)).drop i) ∧
      List.Perm (leafEntries (findIndexAndInsertLeaf (idx5.page 0) 15 (ridOf 15)))
        ((15, ridOf 15) :: leafEntries (idx5.page 0))) :=
  ⟨by decide!, by decide!, by decide!,
    C21_findIndexAndInsertLeaf_sorted (idx5.page 0) 15 (ridOf 15) (by decide!) (by
      have e : (idx5.page 0).numKeys = ((2 : Nat) : Int) := by decide!
      rw [e]
      exact leafSorted_of_nat _ 2 (by decide!))⟩

/-! ## The leaf branch of `split` -/

theorem page_edit_same (t : BTreeIndex) (k : FrameId) (f : Page → Page) :
    (t.edit k f).page k = f (t.page k) := by
  simp [BTreeIndex.page, BTreeIndex.edit, BufMgr.setPage]

theorem page_edit_other (t : BTreeIndex) (k j : FrameId) (f : Page → Page) (h : j ≠ k) :
    (t.edit k f).page j = t.page j := by
  simp [BTreeIndex.page, BTreeIndex.edit, BufMgr.setPage, Function.update_noteq h]

theorem splitLeafMove_succ (n : Nat) (i mid : Int) (c nw : FrameId) (t : BTreeIndex) :
    splitLeafMove (n + 1) i mid c nw t =
      splitLeafMove n (i + 1) mid c nw (splitLeafStep i mid c nw t) := by
  rw [splitLeafMove]
  rfl

/-- What one iteration of the move loop does to the two pages. -/
theorem splitLeafStep_spec (i mid : Int) (c nw : FrameId) (hne : c ≠ nw) (t : BTreeIndex) :
    ((splitLeafStep i mid c nw t).page c).numKeys = (t.page c).numKeys - 1 ∧
    ((splitLeafStep i mid c nw t).page nw).numKeys = (t.page nw).numKeys + 1 ∧
    ((splitLeafStep i mid c nw t).page nw).keyArray =
      Function.update (t.page nw).keyArray (i - mid) ((t.page c).keyArray i) ∧
    ((splitLeafStep i mid c nw t).page nw).ridArray =
      Function.update (t.page nw).ridArray (i - mid) ((t.page c).ridArray i) ∧
    ((splitLeafStep i mid c nw t).page c).keyArray = Function.update (t.page c).keyArray i 0 ∧
    (∀ x, x ≠ i → ((splitLeafStep i mid c nw t).page c).ridArray x = (t.page c).ridArray x) ∧
    ((splitLeafStep i mid c nw t).page c).rightSibPageNo = (t.page c).rightSibPageNo := by
  have hne' : nw ≠ c := fun h => hne h.symm
  unfold splitLeafStep
  simp only [page_edit_same, page_edit_other _ _ _ _ hne, page_edit_other _ _ _ _ hne']
  refine ⟨trivial, trivial, trivial, trivial, trivial, ?_, trivial⟩
  intro x hx
  rw [Function.update_noteq hx]

/-- What the move loop of the leaf split does to the two pages. -/
theorem splitLeafMove_spec (mid : Int) (c nw : FrameId) (hne : c ≠ nw) (n : Nat) :
    ∀ (i : Int) (t : BTreeIndex),
    ((splitLeafMove n i mid c nw t).page c).numKeys = (t.page c).numKeys - n ∧
    ((splitLeafMove n i mid c nw t).page nw).numKeys = (t.page nw).numKeys + n ∧
    (∀ x, ((splitLeafMove n i mid c nw t).page nw).keyArray x =
      if i - mid ≤ x ∧ x < i - mid + n then (t.page c).keyArray (x + mid)
      else (t.page nw).keyArray x) ∧
    (∀ x, ((splitLeafMove n i mid c nw t).page nw).ridArray x =
      if i - mid ≤ x ∧ x < i - mid + n then (t.page c).ridArray (x + mid)
      else (t.page nw).ridArray x) ∧
    (∀ x, x < i → ((splitLeafMove n i mid c nw t).page c).keyArray x = (t.page c).keyArray x ∧
      ((splitLeafMove n i mid c nw t).page c).ridArray x = (t.page c).ridArray x) ∧
    ((splitLeafMove n i mid c nw t).page c).rightSibPageNo = (t.page c).rightSibPageNo := by
  induction n with
  | zero =>
    intro i t
    refine ⟨by simp [splitLeafMove], by simp [splitLeafMove], fun x => ?_, fun x => ?_,
      fun x _ => ⟨rfl, rfl⟩, rfl⟩
    · rw [if_neg (by push_cast; omega)]; rfl
    · rw [if_neg (by push_cast; omega)]; rfl
  | succ n ih =>
    intro i t
    rw [splitLeafMove_succ]
    obtain ⟨a1, a2, a3, a4, a5, a6⟩ := ih (i + 1) (splitLeafStep i mid c nw t)
    obtain ⟨b1, b2, b3, b4, b5, b6, b7⟩ := splitLeafStep_spec i mid c nw hne t
    refine ⟨?_, ?_, ?_, ?_, ?_, ?_⟩
    · rw [a1, b1]; push_cast; ring
    · rw [a2, b2]; push_cast; ring
    · intro x
      rw [a3 x, b3, b5]
      simp only [Function.update_apply]
      push_cast
      by_cases c1 : i + 1 - mid ≤ x ∧ x < i + 1 - mid + n
      · rw [if_pos c1, if_neg (by omega), if_pos (by omega)]
      · rw [if_neg c1]
        by_cases c2 : x = i - mid
        · rw [if_pos c2, if_pos (by omega)]
          subst c2
          congr 1
          ring
        · rw [if_neg c2, if_neg (by omega)]
    · intro x
      rw [a4 x, b4]
      simp only [Function.update_apply]
      push_cast
      by_cases c1 : i + 1 - mid ≤ x ∧ x < i + 1 - mid + n
      · rw [if_pos c1, if_pos (by omega)]
        exact b6 (x + mid) (by omega)
      · rw [if_neg c1]
        by_cases c2 : x = i - mid
        · rw [if_pos c2, if_pos (by omega)]
          subst c2
          congr 1
          ring
        · rw [if_neg c2, if_neg (by omega)]
    · intro x hx
      obtain ⟨d1, d2⟩ := a5 x (by omega)
      rw [d1, d2, b5, Function.update_noteq (by omega), b6 x (by omega)]
      exact ⟨rfl, rfl⟩
    · rw [a6, b7]

theorem entries_take (old r : Page) (a : Int) (ha : a ≤ old.numKeys)
    (h1 : r.numKeys = a)
    (h2 : ∀ x, 0 ≤ x → x < a →
      r.keyArray x = old.keyArray x ∧ r.ridArray x = old.ridArray x) :
    leafEntries r = (leafEntries old).take a.toNat := by
  apply List.ext_getElem?
  intro k
  rw [leafEntries_getElem?, List.getElem?_take, leafEntries_getElem?, h1]
  by_cases c1 : k < a.toNat
  · obtain ⟨e1, e2⟩ := h2 k (by omega) (by omega)
    rw [if_pos c1, if_pos c1, if_pos (by omega), e1, e2]
  · rw [if_neg c1, if_neg c1]

theorem entries_drop (old r : Page) (a : Int) (h0 : 0 ≤ a) (ha : a ≤ old.numKeys)
    (h1 : r.numKeys = old.numKeys - a)
    (h2 : ∀ x, 0 ≤ x → x < old.numKeys - a →
      r.keyArray x = old.keyArray (x + a) ∧ r.ridArray x = old.ridArray (x + a)) :
    leafEntries r = (leafEntries old).drop a.toNat := by
  apply List.ext_getElem?
  intro k
  rw [leafEntries_getElem?, List.getElem?_drop, leafEntries_getElem?, h1]
  have e : (((a.toNat + k : Nat)) : Int) = (k : Int) + a := by omega
  by_cases c1 : k < (old.numKeys - a).toNat
  · obtain ⟨e1, e2⟩ := h2 k (by omega) (by omega)
    rw [if_pos c1, if_pos (by omega), e1, e2, e]
  · rw [if_neg c1, if_neg (by omega)]

/-- The two pages and the promotion channel after the part of the leaf split
that precedes the root test, when the new entry goes into the old leaf. -/
theorem splitLeafBody_old (t1 : BTreeIndex) (c nw : FrameId) (hne : c ≠ nw)
    (newPageNum : PageId) (key : Int) (rid : RecordId) (t2 : BTreeIndex)
    (h2 : t2 = splitLeafMove (t1.leafOccupancy - t1.leafOccupancy / 2).toNat
      (t1.leafOccupancy / 2) (t1.leafOccupancy / 2) c nw t1)
    (hk : key < (t2.page nw).keyArray 0) :
    (splitLeafBody t1 c nw newPageNum key rid).page c =
      { findIndexAndInsertLeaf (t2.page c) key rid with rightSibPageNo := newPageNum } ∧
    (splitLeafBody t1 c nw newPageNum key rid).page nw =
      { t2.page nw with
        rightSibPageNo := (findIndexAndInsertLeaf (t2.page c) key rid).rightSibPageNo
        level := -1 } ∧
    (splitLeafBody t1 c nw newPageNum key rid).newNonLeafNodePageNum = newPageNum ∧
    (splitLeafBody t1 c nw newPageNum key rid).newNonLeafNodeKey =
      ((splitLeafBody t1 c nw newPageNum key rid).page nw).keyArray 0 := by
  have hne' : nw ≠ c := fun h => hne h.symm
  subst h2
  unfold splitLeafBody
  simp only [if_pos hk]
  refine ⟨?_, ?_, rfl, rfl⟩
  · simp only [BTreeIndex.setPromotion]
    simp only [BTreeIndex.page, BTreeIndex.edit, BufMgr.setPage, Function.update_same,
      Function.update_noteq hne, Function.update_noteq hne']
  · simp only [BTreeIndex.setPromotion]
    simp only [BTreeIndex.page, BTreeIndex.edit, BufMgr.setPage, Function.update_same,
      Function.update_noteq hne, Function.update_noteq hne']

/-- The same when the new entry goes into the new leaf. -/
theorem splitLeafBody_new (t1 : BTreeIndex) (c nw : FrameId) (hne : c ≠ nw)
    (newPageNum : PageId) (key : Int) (rid : RecordId) (t2 : BTreeIndex)
    (h2 : t2 = splitLeafMove (t1.leafOccupancy - t1.leafOccupancy / 2).toNat
      (t1.leafOccupancy / 2) (t1.leafOccupancy / 2) c nw t1)
    (hk : ¬ key < (t2.page nw).keyArray 0) :
    (splitLeafBody t1 c nw newPageNum key rid).page c =
      { t2.page c with rightSibPageNo := newPageNum } ∧
    (splitLeafBody t1 c nw newPageNum key rid).page nw =
      { findIndexAndInsertLeaf (t2.page nw) key rid with
        rightSibPageNo := (t2.page c).rightSibPageNo
        level := -1 } ∧
    (splitLeafBody t1 c nw newPageNum key rid).newNonLeafNodePageNum = newPageNum ∧
    (splitLeafBody t1 c nw newPageNum key rid).newNonLeafNodeKey =
      ((splitLeafBody t1 c nw newPageNum key rid).page nw).keyArray 0 := by
  have hne' : nw ≠ c := fun h => hne h.symm
  subst h2
  unfold splitLeafBody
  simp only [if_neg hk]
  refine ⟨?_, ?_, rfl, rfl⟩
  · simp only [BTreeIndex.setPromotion]
    simp only [BTreeIndex.page, BTreeIndex.edit, BufMgr.setPage, Function.update_same,
      Function.update_noteq hne, Function.update_noteq hne']
  · simp only [BTreeIndex.setPromotion]
    simp only [BTreeIndex.page, BTreeIndex.edit, BufMgr.setPage, Function.update_same,
      Function.update_noteq hne, Function.update_noteq hne']

/-- The two pages after the move loop of the split of a full sorted leaf. -/
theorem leaf_split_prep (t1 : BTreeIndex) (c nw : FrameId) (hne : c ≠ nw)
    (hL : 0 < t1.leafOccupancy) (hfull : (t1.page c).numKeys = t1.leafOccupancy)
    (hz : (t1.page nw).numKeys = 0) (t2 : BTreeIndex)
    (h2 : t2 = splitLeafMove (t1.leafOccupancy - t1.leafOccupancy / 2).toNat
      (t1.leafOccupancy / 2) (t1.leafOccupancy / 2) c nw t1) :
    (t2.page c).numKeys = t1.leafOccupancy / 2 ∧
    (t2.page nw).numKeys = t1.leafOccupancy - t1.leafOccupancy / 2 ∧
    (∀ x, 0 ≤ x → x < t1.leafOccupancy - t1.leafOccupancy / 2 →
      (t2.page nw).keyArray x = (t1.page c).keyArray (x + t1.leafOccupancy / 2) ∧
      (t2.page nw).ridArray x = (t1.page c).ridArray (x + t1.leafOccupancy / 2)) ∧
    (∀ x, x < t1.leafOccupancy / 2 →
      (t2.page c).keyArray x = (t1.page c).keyArray x ∧
      (t2.page c).ridArray x = (t1.page c).ridArray x) ∧
    (t2.page c).rightSibPageNo = (t1.page c).rightSibPageNo := by
  obtain ⟨m1, m2, m3, m4, m5, m6⟩ := splitLeafMove_spec (t1.leafOccupancy / 2) c nw hne
    (t1.leafOccupancy - t1.leafOccupancy / 2).toNat (t1.leafOccupancy / 2) t1
  have hn : (((t1.leafOccupancy - t1.leafOccupancy / 2).toNat : Nat) : Int) =
      t1.leafOccupancy - t1.leafOccupancy / 2 := Int.toNat_of_nonneg (by omega)
  rw [hn] at m1 m2 m3 m4
  rw [← h2] at m1 m2 m3 m4 m5 m6
  refine ⟨by rw [m1, hfull]; ring, by rw [m2, hz]; ring, fun x h0 h1 => ?_, m5, m6⟩
  rw [m3 x, m4 x, if_pos (by omega), if_pos (by omega)]
  exact ⟨rfl, rfl⟩

/-- The leaf split when the new key is below the first key of the upper half. -/
theorem leaf_split_old (t1 : BTreeIndex) (c nw : FrameId) (newPageNum : PageId) (key : Int)
    (rid : RecordId) (hne : c ≠ nw) (hL : 0 < t1.leafOccupancy)
    (hfull : (t1.page c).numKeys = t1.leafOccupancy)
    (hs : LeafSorted (t1.page c) t1.leafOccupancy) (hz : (t1.page nw).numKeys = 0)
    (hk : key < (t1.page c).keyArray (t1.leafOccupancy / 2)) :
    ((∃ i, i ≤ (t1.leafOccupancy / 2).toNat ∧
        leafEntries ((splitLeafBody t1 c nw newPageNum key rid).page c) =
          ((leafEntries (t1.page c)).take (t1.leafOccupancy / 2).toNat).take i ++
            (key, rid) ::
              ((leafEntries (t1.page c)).take (t1.leafOccupancy / 2).toNat).drop i) ∧
      leafEntries ((splitLeafBody t1 c nw newPageNum key rid).page nw) =
        (leafEntries (t1.page c)).drop (t1.leafOccupancy / 2).toNat) ∧
    LeafSorted ((splitLeafBody t1 c nw newPageNum key rid).page c)
      ((splitLeafBody t1 c nw newPageNum key rid).page c).numKeys ∧
    LeafSorted ((splitLeafBody t1 c nw newPageNum key rid).page nw)
      ((splitLeafBody t1 c nw newPageNum key rid).page nw).numKeys ∧
    (∀ x y, 0 ≤ x → x < ((splitLeafBody t1 c nw newPageNum key rid).page c).numKeys →
      0 ≤ y → y < ((splitLeafBody t1 c nw newPageNum key rid).page nw).numKeys →
      ((splitLeafBody t1 c nw newPageNum key rid).page c).keyArray x ≤
        ((splitLeafBody t1 c nw newPageNum key rid).page nw).keyArray y) ∧
    ((splitLeafBody t1 c nw newPageNum key rid).page nw).level = -1 ∧
    ((splitLeafBody t1 c nw newPageNum key rid).page nw).rightSibPageNo =
      (t1.page c).rightSibPageNo ∧
    ((splitLeafBody t1 c nw newPageNum key rid).page c).rightSibPageNo = newPageNum ∧
    (splitLeafBody t1 c nw newPageNum key rid).newNonLeafNodeKey =
      ((splitLeafBody t1 c nw newPageNum key rid).page nw).keyArray 0 ∧
    (splitLeafBody t1 c nw newPageNum key rid).newNonLeafNodePageNum = newPageNum := by
  obtain ⟨c2n, n2n, n2k, c2k, c2s⟩ := leaf_split_prep t1 c nw hne hL hfull hz _ rfl
  have k0 := (n2k 0 (le_refl 0) (by omega)).1
  rw [zero_add] at k0
  obtain ⟨pc, pn, pp, pk⟩ := splitLeafBody_old t1 c nw hne newPageNum key rid _ rfl
    (by rw [k0]; exact hk)
  generalize splitLeafMove (t1.leafOccupancy - t1.leafOccupancy / 2).toNat
    (t1.leafOccupancy / 2) (t1.leafOccupancy / 2) c nw t1 = t2 at c2n n2n n2k c2k c2s k0 pc pn
  generalize splitLeafBody t1 c nw newPageNum key rid = r at pc pn pp pk ⊢
  have sc2 : LeafSorted (t2.page c) (t2.page c).numKeys := by
    intro x y hx hxy hy
    rw [c2n] at hy
    rw [(c2k x (by omega)).1, (c2k y hy).1]
    exact hs x y hx hxy (by omega)
  obtain ⟨i, i0, i1, ilt, ige, ir⟩ :=
    findIndexAndInsertLeaf_total (t2.page c) key rid (by rw [c2n]; omega)
  obtain ⟨s1, s2, s3, _, s5, _⟩ := shiftInsert_spec (t2.page c) i key rid i1
  rw [ir] at pc pn
  have hcn : (r.page c).numKeys = t1.leafOccupancy / 2 + 1 := by rw [pc]; show _ = _; rw [← c2n]; exact s1
  have hck : ∀ x, (r.page c).keyArray x = if x = i then key else
      if i < x ∧ x ≤ t1.leafOccupancy / 2 then (t2.page c).keyArray (x - 1)
      else (t2.page c).keyArray x := by
    intro x; rw [pc, ← c2n]; exact s2 x
  have hnn : (r.page nw).numKeys = t1.leafOccupancy - t1.leafOccupancy / 2 := by
    rw [pn]; exact n2n
  have hnk : ∀ x, (r.page nw).keyArray x = (t2.page nw).keyArray x := by
    intro x; rw [pn]
  have ec2 : leafEntries (t2.page c) =
      (leafEntries (t1.page c)).take (t1.leafOccupancy / 2).toNat :=
    entries_take (t1.page c) _ _ (by omega) c2n (fun x _ h1 => c2k x h1)
  have en2 : leafEntries (t2.page nw) =
      (leafEntries (t1.page c)).drop (t1.leafOccupancy / 2).toNat :=
    entries_drop (t1.page c) _ _ (by omega) (by omega) (by rw [n2n, hfull])
      (fun x h0 h1 => n2k x h0 (by omega))
  have hi' : ((i.toNat : Nat) : Int) = i := Int.toNat_of_nonneg i0
  have el : leafEntries (r.page c) =
      (leafEntries (t2.page c)).take i.toNat ++ (key, rid) ::
        (leafEntries (t2.page c)).drop i.toNat := by
    rw [pc]
    show leafEntries (shiftInsert (t2.page c) i key rid) = _
    apply entries_insert (t2.page c) _ i.toNat key rid (by rw [c2n]; omega) (by omega) s1
    · intro x; rw [s2 x, hi']
    · intro x; rw [s3 x, hi']
  have en : leafEntries (r.page nw) = leafEntries (t2.page nw) := by rw [pn]; rfl
  refine ⟨⟨⟨i.toNat, by omega, by rw [el, ec2]⟩, by rw [en, en2]⟩, ?_, ?_, ?_, ?_, ?_, ?_, pk,
    pp⟩
  · rw [hcn, ← c2n]
    apply sorted_insert (t2.page c) _ i key i0 i1 sc2 ilt ige
    intro x; rw [pc]; exact s2 x
  · intro x y hx hxy hy
    rw [hnn] at hy
    rw [hnk, hnk, (n2k x hx (by omega)).1, (n2k y (by omega) hy).1]
    exact hs _ _ (by omega) (by omega) (by omega)
  · intro x y hx hx' hy hy'
    rw [hcn] at hx'
    rw [hnn] at hy'
    rw [hnk, (n2k y hy hy').1, hck]
    have hm := hs (t1.leafOccupancy / 2) (y + t1.leafOccupancy / 2) (by omega) (by omega)
      (by omega)
    by_cases e1 : x = i
    · rw [if_pos e1]; omega
    · rw [if_neg e1]
      by_cases e2 : i < x ∧ x ≤ t1.leafOccupancy / 2
      · rw [if_pos e2, (c2k (x - 1) (by omega)).1]
        exact hs _ _ (by omega) (by omega) (by omega)
      · rw [if_neg e2, (c2k x (by omega)).1]
        exact hs _ _ (by omega) (by omega) (by omega)
  · rw [pn]
  · rw [pn]; show (shiftInsert (t2.page c) i key rid).rightSibPageNo = _
    rw [s5, c2s]
  · rw [pc]

/-- The leaf split when the new key is not below the first key of the upper
half. -/
theorem leaf_split_new (t1 : BTreeIndex) (c nw : FrameId) (newPageNum : PageId) (key : Int)
    (rid : RecordId) (hne : c ≠ nw) (hL : 0 < t1.leafOccupancy)
    (hfull : (t1.page c).numKeys = t1.leafOccupancy)
    (hs : LeafSorted (t1.page c) t1.leafOccupancy) (hz : (t1.page nw).numKeys = 0)
    (hk : ¬ key < (t1.page c).keyArray (t1.leafOccupancy / 2)) :
    (leafEntries ((splitLeafBody t1 c nw newPageNum key rid).page c) =
        (leafEntries (t1.page c)).take (t1.leafOccupancy / 2).toNat ∧
      ∃ i, i ≤ (t1.leafOccupancy - t1.leafOccupancy / 2).toNat ∧
        leafEntries ((splitLeafBody t1 c nw newPageNum key rid).page nw) =
          ((leafEntries (t1.page c)).drop (t1.leafOccupancy / 2).toNat).take i ++
            (key, rid) ::
              ((leafEntries (t1.page c)).drop (t1.leafOccupancy / 2).toNat).drop i) ∧
    LeafSorted ((splitLeafBody t1 c nw newPageNum key rid).page c)
      ((splitLeafBody t1 c nw newPageNum key rid).page c).numKeys ∧
    LeafSorted ((splitLeafBody t1 c nw newPageNum key rid).page nw)
      ((splitLeafBody t1 c nw newPageNum key rid).page nw).numKeys ∧
    (∀ x y, 0 ≤ x → x < ((splitLeafBody t1 c nw newPageNum key rid).page c).numKeys →
      0 ≤ y → y < ((splitLeafBody t1 c nw newPageNum key rid).page nw).numKeys →
      ((splitLeafBody t1 c nw newPageNum key rid).page c).keyArray x ≤
        ((splitLeafBody t1 c nw newPageNum key rid).page nw).keyArray y) ∧
    ((splitLeafBody t1 c nw newPageNum key rid).page nw).level = -1 ∧
    ((splitLeafBody t1 c nw newPageNum key rid).page nw).rightSibPageNo =
      (t1.page c).rightSibPageNo ∧
    ((splitLeafBody t1 c nw newPageNum key rid).page c).rightSibPageNo = newPageNum ∧
    (splitLeafBody t1 c nw newPageNum key rid).newNonLeafNodeKey =
      ((splitLeafBody t1 c nw newPageNum key rid).page nw).keyArray 0 ∧
    (splitLeafBody t1 c nw newPageNum key rid).newNonLeafNodePageNum = newPageNum := by
  obtain ⟨c2n, n2n, n2k, c2k, c2s⟩ := leaf_split_prep t1 c nw hne hL hfull hz _ rfl
  have k0 := (n2k 0 (le_refl 0) (by omega)).1
  rw [zero_add] at k0
  obtain ⟨pc, pn, pp, pk⟩ := splitLeafBody_new t1 c nw hne newPageNum key rid _ rfl
    (by rw [k0]; exact hk)
  generalize splitLeafMove (t1.leafOccupancy - t1.leafOccupancy / 2).toNat
    (t1.leafOccupancy / 2) (t1.leafOccupancy / 2) c nw t1 = t2 at c2n n2n n2k c2k c2s k0 pc pn
  generalize splitLeafBody t1 c nw newPageNum key rid = r at pc pn pp pk ⊢
  have sn2 : LeafSorted (t2.page nw) (t2.page nw).numKeys := by
    intro x y hx hxy hy
    rw [n2n] at hy
    rw [(n2k x hx (by omega)).1, (n2k y (by omega) hy).1]
    exact hs _ _ (by omega) (by omega) (by omega)
  obtain ⟨i, i0, i1, ilt, ige, ir⟩ :=
    findIndexAndInsertLeaf_total (t2.page nw) key rid (by rw [n2n]; omega)
  obtain ⟨s1, s2, s3, _, _, _⟩ := shiftInsert_spec (t2.page nw) i key rid i1
  rw [ir] at pn
  have hcn : (r.page c).numKeys = t1.leafOccupancy / 2 := by rw [pc]; exact c2n
  have hck : ∀ x, (r.page c).keyArray x = (t2.page c).keyArray x := by
    intro x; rw [pc]
  have hnn : (r.page nw).numKeys = t1.leafOccupancy - t1.leafOccupancy / 2 + 1 := by
    rw [pn]; show _ = _; rw [← n2n]; exact s1
  have hnk : ∀ x, (r.page nw).keyArray x = if x = i then key else
      if i < x ∧ x ≤ t1.leafOccupancy - t1.leafOccupancy / 2 then (t2.page nw).keyArray (x - 1)
      else (t2.page nw).keyArray x := by
    intro x; rw [pn, ← n2n]; exact s2 x
  have ec2 : leafEntries (t2.page c) =
      (leafEntries (t1.page c)).take (t1.leafOccupancy / 2).toNat :=
    entries_take (t1.page c) _ _ (by omega) c2n (fun x _ h1 => c2k x h1)
  have en2 : leafEntries (t2.page nw) =
      (leafEntries (t1.page c)).drop (t1.leafOccupancy / 2).toNat :=
    entries_drop (t1.page c) _ _ (by omega) (by omega) (by rw [n2n, hfull])
      (fun x h0 h1 => n2k x h0 (by omega))
  have hi' : ((i.toNat : Nat) : Int) = i := Int.toNat_of_nonneg i0
  have el : leafEntries (r.page nw) =
      (leafEntries (t2.page nw)).take i.toNat ++ (key, rid) ::
        (leafEntries (t2.page nw)).drop i.toNat := by
    rw [pn]
    show leafEntries (shiftInsert (t2.page nw) i key rid) = _
    apply entries_insert (t2.page nw) _ i.toNat key rid (by rw [n2n]; omega) (by omega) s1
    · intro x; rw [s2 x, hi']
    · intro x; rw [s3 x, hi']
  have ec : leafEntries (r.page c) = leafEntries (t2.page c) := by rw [pc]; rfl
  refine ⟨⟨by rw [ec, ec2], i.toNat, by omega, by rw [el, en2]⟩, ?_, ?_, ?_, ?_, ?_, ?_, pk,
    pp⟩
  · intro x y hx hxy hy
    rw [hcn] at hy
    rw [hck, hck, (c2k x (by omega)).1, (c2k y hy).1]
    exact hs x y hx hxy (by omega)
  · rw [hnn, ← n2n]
    apply sorted_insert (t2.page nw) _ i key i0 i1 sn2 ilt ige
    intro x; rw [pn]; exact s2 x
  · intro x y hx hx' hy hy'
    rw [hcn] at hx'
    rw [hnn] at hy'
    rw [hck, (c2k x hx').1, hnk]
    have hm := hs x (t1.leafOccupancy / 2) hx (by omega) (by omega)
    by_cases e1 : y = i
    · rw [if_pos e1]; omega
    · rw [if_neg e1]
      by_cases e2 : i < y ∧ y ≤ t1.leafOccupancy - t1.leafOccupancy / 2
      · rw [if_pos e2, (n2k (y - 1) (by omega) (by omega)).1]
        exact hs _ _ (by omega) (by omega) (by omega)
      · rw [if_neg e2, (n2k y hy (by omega)).1]
        exact hs _ _ (by omega) (by omega) (by omega)
  · rw [pn]
  · rw [pn]; exact c2s
  · rw [pc]

/-- The leaf branch of `split`, when the node is not the root: the allocation of
the new leaf, `splitLeafBody`, and the unpin of the new leaf. -/
theorem split_leaf_nonroot (t : BTreeIndex) (c : FrameId) (nodePageId : PageId) (key : Int)
    (rid : RecordId) (a : PageId × FrameId) (t1 : BTreeIndex) (h : t.allocPage = .ok a t1)
    (hr : nodePageId ≠ (splitLeafBody t1 c a.2 a.1 key rid).rootPageNum) :
    split t true c nodePageId key rid =
      (splitLeafBody t1 c a.2 a.1 key rid).unPinPage a.1 true := by
  unfold split splitLeaf
  rw [h]
  simp only [Res.bind, if_true]
  rw [if_neg hr]

/-- The two leaves after the part of the leaf branch of `split` between the
allocation of the new leaf and the root test. -/
theorem leaf_split_body (t1 : BTreeIndex) (c nw : FrameId) (newPageNum : PageId) (key : Int)
    (rid : RecordId) (t' : BTreeIndex) (ht : t' = splitLeafBody t1 c nw newPageNum key rid)
    (hne : c ≠ nw) (hL : 0 < t1.leafOccupancy)
    (hfull : (t1.page c).numKeys = t1.leafOccupancy)
    (hs : LeafSorted (t1.page c) t1.leafOccupancy) (hz : (t1.page nw).numKeys = 0) :
    (key < (t1.page c).keyArray (t1.leafOccupancy / 2) →
      (∃ i, i ≤ (t1.leafOccupancy / 2).toNat ∧
        leafEntries (t'.page c) =
          ((leafEntries (t1.page c)).take (t1.leafOccupancy / 2).toNat).take i ++
            (key, rid) ::
              ((leafEntries (t1.page c)).take (t1.leafOccupancy / 2).toNat).drop i) ∧
      leafEntries (t'.page nw) =
        (leafEntries (t1.page c)).drop (t1.leafOccupancy / 2).toNat) ∧
    (¬ key < (t1.page c).keyArray (t1.leafOccupancy / 2) →
      leafEntries (t'.page c) =
        (leafEntries (t1.page c)).take (t1.leafOccupancy / 2).toNat ∧
      ∃ i, i ≤ (t1.leafOccupancy - t1.leafOccupancy / 2).toNat ∧
        leafEntries (t'.page nw) =
          ((leafEntries (t1.page c)).drop (t1.leafOccupancy / 2).toNat).take i ++
            (key, rid) ::
              ((leafEntries (t1.page c)).drop (t1.leafOccupancy / 2).toNat).drop i) ∧
    LeafSorted (t'.page c) (t'.page c).numKeys ∧
    LeafSorted (t'.page nw) (t'.page nw).numKeys ∧
    (∀ x y, 0 ≤ x → x < (t'.page c).numKeys → 0 ≤ y → y < (t'.page nw).numKeys →
      (t'.page c).keyArray x ≤ (t'.page nw).keyArray y) ∧
    List.Perm (leafEntries (t'.page c) ++ leafEntries (t'.page nw))
      ((key, rid) :: leafEntries (t1.page c)) ∧
    (t'.page nw).level = -1 ∧
    (t'.page nw).rightSibPageNo = (t1.page c).rightSibPageNo ∧
    (t'.page c).rightSibPageNo = newPageNum ∧
    t'.newNonLeafNodeKey = (t'.page nw).keyArray 0 ∧
    t'.newNonLeafNodePageNum = newPageNum := by
  subst ht
  by_cases hk : key < (t1.page c).keyArray (t1.leafOccupancy / 2)
  · obtain ⟨⟨⟨i, hi, e1⟩, e2⟩, a2, a3, a4, a5, a6, a7, a8, a9⟩ :=
      leaf_split_old t1 c nw newPageNum key rid hne hL hfull hs hz hk
    refine ⟨fun _ => ⟨⟨i, hi, e1⟩, e2⟩, fun h => absurd hk h, a2, a3, a4, ?_, a5, a6, a7, a8,
      a9⟩
    rw [e1, e2]
    have p1 := @List.perm_middle _ (key, rid)
      (((leafEntries (t1.page c)).take (t1.leafOccupancy / 2).toNat).take i)
      (((leafEntries (t1.page c)).take (t1.leafOccupancy / 2).toNat).drop i)
    rw [List.take_append_drop] at p1
    have p2 := p1.append_right ((leafEntries (t1.page c)).drop (t1.leafOccupancy / 2).toNat)
    rw [List.cons_append, List.take_append_drop] at p2
    exact p2
  · obtain ⟨⟨e1, i, hi, e2⟩, a2, a3, a4, a5, a6, a7, a8, a9⟩ :=
      leaf_split_new t1 c nw newPageNum key rid hne hL hfull hs hz hk
    refine ⟨fun h => absurd h hk, fun _ => ⟨e1, i, hi, e2⟩, a2, a3, a4, ?_, a5, a6, a7, a8,
      a9⟩
    rw [e1, e2]
    have p1 := @List.perm_middle _ (key, rid)
      (((leafEntries (t1.page c)).drop (t1.leafOccupancy / 2).toNat).take i)
      (((leafEntries (t1.page c)).drop (t1.leafOccupancy / 2).toNat).drop i)
    rw [List.take_append_drop] at p1
    have p2 := p1.append_left ((leafEntries (t1.page c)).take (t1.leafOccupancy / 2).toNat)
    have p3 := @List.perm_middle _ (key, rid)
      ((leafEntries (t1.page c)).take (t1.leafOccupancy / 2).toNat)
      ((leafEntries (t1.page c)).drop (t1.leafOccupancy / 2).toNat)
    rw [List.take_append_drop] at p3
    exact p2.trans p3

theorem splitLeafMove_frame (n : Nat) : ∀ (i mid : Int) (c nw : FrameId) (t : BTreeIndex),
    (splitLeafMove n i mid c nw t).rootPageNum = t.rootPageNum ∧
    (splitLeafMove n i mid c nw t).file = t.file ∧
    (splitLeafMove n i mid c nw t).bufMgr.hashTable = t.bufMgr.hashTable ∧
    (splitLeafMove n i mid c nw t).bufMgr.bufDescTable = t.bufMgr.bufDescTable := by
  induction n with
  | zero =>
    intro i mid c nw t
    rw [splitLeafMove]
    exact ⟨rfl, rfl, rfl, rfl⟩
  | succ n ih =>
    intro i mid c nw t
    rw [splitLeafMove_succ]
    exact ih (i + 1) mid c nw (splitLeafStep i mid c nw t)

theorem splitLeafBody_frame (t1 : BTreeIndex) (c nw : FrameId) (newPageNum : PageId)
    (key : Int) (rid : RecordId) :
    (splitLeafBody t1 c nw newPageNum key rid).rootPageNum = t1.rootPageNum ∧
    (splitLeafBody t1 c nw newPageNum key rid).file = t1.file ∧
    (splitLeafBody t1 c nw newPageNum key rid).bufMgr.hashTable = t1.bufMgr.hashTable ∧
    (splitLeafBody t1 c nw newPageNum key rid).bufMgr.bufDescTable =
      t1.bufMgr.bufDescTable := by
  unfold splitLeafBody
  simp only []
  split
  · exact splitLeafMove_frame _ _ _ c nw t1
  · exact splitLeafMove_frame _ _ _ c nw t1

/-- What `allocPage` of the index returns: the new page is zero-filled, cached
in the returned frame with pin count 1, and the pages of the pinned frames are
as before. -/
theorem allocPage_new_leaf (t : BTreeIndex) (hI : Inv t.bufMgr) (p : PageId) (nw : FrameId)
    (t1 : BTreeIndex) (h : t.allocPage = .ok (p, nw) t1) :
    t1.rootPageNum = t.rootPageNum ∧ t1.leafOccupancy = t.leafOccupancy ∧
    t1.file = t.file ∧ (t1.page nw).numKeys = 0 ∧
    t1.bufMgr.hashTable t.file p = some nw ∧ (t1.bufMgr.bufDescTable nw).pinCnt = 1 ∧
    ∀ c, c < t.bufMgr.numBufs → 0 < (t.bufMgr.bufDescTable c).pinCnt →
      t1.page c = t.page c := by
  obtain ⟨b, hb, ht⟩ := call_ok t _ (p, nw) t1 h
  subst ht
  have hpin : ∀ c, c < t.bufMgr.numBufs → 0 < (t.bufMgr.bufDescTable c).pinCnt →
      b.bufPool c = t.bufMgr.bufPool c := fun c hc hp =>
    (pinned_core t.bufMgr hI t.file p b (Or.inr (by rw [hb]; rfl)) c hc hp).2.2.2.2.2.1
  rcases allocPage_cases t.bufMgr hI t.file with ⟨e, s1, he, _⟩ | hu | ⟨k, s1, hk, _⟩
  · rw [he] at hb
    exact Res.noConfusion hb
  · rw [hu] at hb
    exact Res.noConfusion hb
  · rw [hk] at hb
    injection hb with h1 h2
    injection h1 with h3 h4
    subst h2 h3 h4
    refine ⟨rfl, rfl, rfl, ?_, ?_, ?_, hpin⟩
    · show ((s1.install k t.file _ _).bufPool k).numKeys = 0
      simp [BufMgr.install, BufMgr.setPage, BufMgr.hashInsert, BufMgr.setDesc, Page.zero]
    · simp [BufMgr.install, BufMgr.setPage, BufMgr.hashInsert, BufMgr.setDesc]
    · simp [BufMgr.install, BufMgr.setPage, BufMgr.hashInsert, BufMgr.setDesc, BufDesc.Set]

/-- The leaf branch of `split` on a leaf that is not the root returns once the
allocation has returned; the pages and the promoted pair are those of
`splitLeafBody`. -/
theorem split_leaf_returns (t : BTreeIndex) (hI : Inv t.bufMgr) (c : FrameId)
    (nodePageId : PageId) (key : Int) (rid : RecordId) (p : PageId) (nw : FrameId)
    (t1 : BTreeIndex) (h : t.allocPage = .ok (p, nw) t1) (hr : nodePageId ≠ t.rootPageNum) :
    ∃ t', split t true c nodePageId key rid = .ok () t' ∧
      (∀ k, t'.page k = (splitLeafBody t1 c nw p key rid).page k) ∧
      t'.newNonLeafNodeKey = (splitLeafBody t1 c nw p key rid).newNonLeafNodeKey ∧
      t'.newNonLeafNodePageNum = (splitLeafBody t1 c nw p key rid).newNonLeafNodePageNum ∧
      t'.bufMgr.hashTable t'.file p = some nw := by
  obtain ⟨r1, _, f1, _, hh, hpc, _⟩ := allocPage_new_leaf t hI p nw t1 h
  obtain ⟨r2, f2, hh2, hd2⟩ := splitLeafBody_frame t1 c nw p key rid
  have e := split_leaf_nonroot t c nodePageId key rid (p, nw) t1 h
    (by rw [r2, r1]; exact hr)
  have hl : (splitLeafBody t1 c nw p key rid).bufMgr.hashTable
      (splitLeafBody t1 c nw p key rid).file p = some nw := by
    rw [hh2, f2, f1]; exact hh
  have hp : 0 < ((splitLeafBody t1 c nw p key rid).bufMgr.bufDescTable nw).pinCnt := by
    rw [hd2, hpc]; exact Nat.one_pos
  have hu : ∃ b, unPinPage (splitLeafBody t1 c nw p key rid).bufMgr
      (splitLeafBody t1 c nw p key rid).file p true = .ok () b ∧
      b.bufPool = (splitLeafBody t1 c nw p key rid).bufMgr.bufPool ∧
      b.hashTable = (splitLeafBody t1 c nw p key rid).bufMgr.hashTable :=
    ⟨_, unPinPage_pinned _ _ p true nw hl hp, rfl, rfl⟩
  obtain ⟨b, hb, hb1, hb2⟩ := hu
  refine ⟨{ splitLeafBody t1 c nw p key rid with bufMgr := b }, ?_, ?_, rfl, rfl, ?_⟩
  · rw [e]
    show (splitLeafBody t1 c nw p key rid).unPinPage p true = _
    unfold BTreeIndex.unPinPage
    rw [hb]
    rfl
  · intro k
    show b.bufPool k = (splitLeafBody t1 c nw p key rid).bufMgr.bufPool k
    rw [hb1]
  · show b.hashTable (splitLeafBody t1 c nw p key rid).file p = some nw
    rw [hb2]
    exact hl


/-! ## The hash table after `allocBuf` has left the frame number unassigned -/

/-- Where `allocBuf` assigns the frame number, `readPageFrom` is `readPage`. -/
theorem readPageFrom_eq (v : FrameId) (s : BufMgr) (f : FileId) (p : PageId)
    (h : ∀ s1, allocBuf s ≠ .ok none s1) : readPageFrom v s f p = readPage s f p := by
  unfold readPageFrom readPage
  cases hl : s.hashTable f p with
  | some j => rfl
  | none =>
    simp only []
    cases ha : allocBuf s with
    | ok fr s1 =>
      cases fr with
      | none => exact absurd ha (h s1)
      | some k => rfl
    | throw e s1 => rfl
    | undef => rfl
    | nofuel => rfl

/-- What `readPageFrom` does in `pool2c` for page 3. -/
theorem readPageFrom_pool2c (v : FrameId) :
    readPageFrom v pool2c 0 3 = .ok v (pool2h.install v 0 3 (Page.zero 3)) := by
  have hh : pool2c.hashTable 0 3 = none := by decide
  have ha : allocBuf pool2c = .ok none pool2h := after_val _ pool2c _ (by decide)
  have hd : pool2h.disk 0 3 = some (Page.zero 3) := by rfl
  have hn : pool2h.hashTable 0 3 = none := by decide
  unfold readPageFrom
  rw [hh]
  simp only []
  rw [ha]
  simp only [Option.getD_none]
  rw [hd]
  simp only []
  have hn' : (pool2h.setPage v (Page.zero 3)).hashTable 0 3 = none := hn
  rw [hn']
  rfl

/-- C6 (the code departs from the claim): in the reachable pool `pool2c` (two
frames, holding the pinned pages 2 and 1) `allocBuf` returns without having
assigned the frame number, and `readPage(f, 3)` installs page 3 in the frame its
local `frameNo` names.  Whatever value `v` that is, the call returns and the
hash table no longer matches the valid frames: the entry of page 3 points to
`v`, and when `v` is a frame of the pool the entry of the page that frame held
is still there, so two pages are mapped to one frame. -/
theorem C6_hash_table_broken_by_unassigned_frame :
    Reachable pool2c ∧ pool2c.numBufs = 2 ∧ pool2c.hashTable 0 3 = none ∧
    pool2c.hashTable 0 2 = some 0 ∧ pool2c.hashTable 0 1 = some 1 ∧
    allocBuf pool2c = .ok none pool2h ∧
    ∀ v, ∃ s', readPageFrom v pool2c 0 3 = .ok v s' ∧
      ¬ (∀ f p k, s'.hashTable f p = some k ↔
          (k < s'.numBufs ∧ (s'.bufDescTable k).valid = true ∧
            (s'.bufDescTable k).file = some f ∧ (s'.bufDescTable k).pageNo = p)) ∧
      s'.hashTable 0 3 = some v ∧
      (v < 2 → s'.hashTable 0 (2 - v) = some v ∧ (s'.bufDescTable v).pageNo = 3 ∧
        s'.bufPool v = Page.zero 3) := by
  refine ⟨reachable_pool2c, rfl, by decide, by decide, by decide,
    after_val _ pool2c _ (by decide), ?_⟩
  intro v
  have h3 : (pool2h.install v 0 3 (Page.zero 3)).hashTable 0 3 = some v := by
    simp [BufMgr.install, BufMgr.setDesc, BufMgr.hashInsert, BufMgr.setPage]
  have hp : ((pool2h.install v 0 3 (Page.zero 3)).bufDescTable v).pageNo = 3 := by
    simp [BufMgr.install, BufMgr.setDesc, BufMgr.hashInsert, BufMgr.setPage, BufDesc.Set]
  have hb : (pool2h.install v 0 3 (Page.zero 3)).bufPool v = Page.zero 3 := by
    simp [BufMgr.install, BufMgr.setDesc, BufMgr.hashInsert, BufMgr.setPage]
  have hold : v < 2 → (pool2h.install v 0 3 (Page.zero 3)).hashTable 0 (2 - v) = some v := by
    intro hv
    have h1 : pool2h.hashTable 0 (2 - v) = some v := by
      interval_cases v
      · decide
      · decide
    have h2 : 2 - v ≠ 3 := by
      intro e
      have e' : (2 : Nat) - v = 3 := e
      omega
    simpa [BufMgr.install, BufMgr.setDesc, BufMgr.hashInsert, BufMgr.setPage,
      Function.update_noteq h2] using h1
  refine ⟨_, readPageFrom_pool2c v, ?_, h3, fun hv => ⟨hold hv, hp, hb⟩⟩
  intro H
  have hv : v < 2 := ((H 0 3 v).1 h3).1
  have := ((H 0 (2 - v) v).1 (hold hv)).2.2.2
  rw [hp] at this
  have e : (3 : Nat) = 2 - v := this
  omega

/-! ## Frames of a file one of whose pages is pinned

`allocBuf` releases a valid frame only through `flushFile` of that frame's file,
which throws when it meets a pinned frame of the file.  So while one page of a
file is pinned, a call that returns has released no frame of that file. -/

theorem allocBufLoop_protect : ∀ (n pc : Nat) (s : BufMgr), Inv s →
    ∀ (r : Option FrameId × Nat) (s1 : BufMgr), allocBufLoop n pc s = .ok r s1 →
    ∀ (j x : FrameId) (g : FileId), j < s.numBufs → 0 < (s.bufDescTable j).pinCnt →
      (s.bufDescTable j).file = some g → x < s.numBufs → (s.bufDescTable x).file = some g →
      (s1.bufDescTable x).valid = true := by
  intro n
  induction n with
  | zero =>
    intro pc s hs r s1 h j x g _ _ _ hx hxf
    rw [allocBufLoop] at h
    injection h with _ h2
    subst h2
    exact inv_valid_of_file s hs x hx g hxf
  | succ n ih =>
    intro pc s hs r s1 h j x g hj hjp hjf hx hxf
    have hh := hs.hand
    rw [allocBufLoop] at h
    by_cases hv : (s.bufDescTable s.clockHand).valid = false
    · rw [if_pos hv] at h
      injection h with _ h2
      subst h2
      have hc := hs.clear _ hh hv
      have hxk : x ≠ s.clockHand := by
        intro e
        rw [e, hc.1] at hxf
        exact absurd hxf (by simp)
      simp only [BufMgr.setDesc, Function.update_noteq hxk]
      exact inv_valid_of_file s hs x hx g hxf
    · rw [if_neg hv] at h
      have hv' : (s.bufDescTable s.clockHand).valid = true := by simpa using hv
      by_cases hr : (s.bufDescTable s.clockHand).refbit = true
      · rw [if_pos hr] at h
        have hs1 : Inv (s.setDesc s.clockHand
            { s.bufDescTable s.clockHand with refbit := false }) := by
          apply inv_setDesc s hs <;> simp [hv']
        refine ih pc _ (inv_advanceClock _ hs1) r s1 h j x g hj ?_ ?_ hx ?_
        · by_cases hk : j = s.clockHand
          · subst hk
            simp only [advanceClock, BufMgr.setDesc, Function.update_same]
            exact hjp
          · simp only [advanceClock, BufMgr.setDesc, Function.update_noteq hk]
            exact hjp
        · by_cases hk : j = s.clockHand
          · subst hk
            simp only [advanceClock, BufMgr.setDesc, Function.update_same]
            exact hjf
          · simp only [advanceClock, BufMgr.setDesc, Function.update_noteq hk]
            exact hjf
        · by_cases hk : x = s.clockHand
          · subst hk
            simp only [advanceClock, BufMgr.setDesc, Function.update_same]
            exact hxf
          · simp only [advanceClock, BufMgr.setDesc, Function.update_noteq hk]
            exact hxf
      · rw [if_neg hr] at h
        by_cases hp : (s.bufDescTable s.clockHand).pinCnt > 0
        · rw [if_pos hp] at h
          exact ih (pc + 1) _ (inv_advanceClock _ hs) r s1 h j x g hj hjp hjf hx hxf
        · rw [if_neg hp] at h
          obtain ⟨f, hf⟩ := hs.file _ hh hv'
          rw [hf] at h
          simp only [] at h
          have hfl := flushFile_spec f s hs
          cases hres : flushFile s f with
          | ok a s2 =>
            rw [hres] at hfl h
            simp only [] at h
            injection h with _ h2
            subst h2
            obtain ⟨_, _, _, h4, h5, _, _⟩ := hfl
            have hgf : g ≠ f := by
              intro e
              subst e
              have := h4 j (Nat.zero_le _) hj hjf
              omega
            rw [h5 x hx, if_neg]
            · exact inv_valid_of_file s hs x hx g hxf
            · intro hc
              rw [hxf] at hc
              exact hgf (Option.some.inj hc.2)
          | throw e s2 => rw [hres] at h; exact Res.noConfusion h
          | undef => rw [hres] at h; exact Res.noConfusion h
          | nofuel => rw [hres] at h; exact Res.noConfusion h

theorem allocBuf_protect (s : BufMgr) (hs : Inv s) (r : Option FrameId) (s1 : BufMgr)
    (h : allocBuf s = .ok r s1) (j x : FrameId) (g : FileId) (hj : j < s.numBufs)
    (hjp : 0 < (s.bufDescTable j).pinCnt) (hjf : (s.bufDescTable j).file = some g)
    (hx : x < s.numBufs) (hxf : (s.bufDescTable x).file = some g) :
    (s1.bufDescTable x).valid = true := by
  rw [allocBuf] at h
  cases hr : allocBufLoop (s.numBufs + 1) 0 s with
  | ok a s2 =>
    rw [hr] at h
    obtain ⟨fr, pc⟩ := a
    simp only [] at h
    by_cases hp : pc ≥ s2.numBufs
    · rw [if_pos hp] at h; exact Res.noConfusion h
    · rw [if_neg hp] at h
      injection h with _ h2
      subst h2
      exact allocBufLoop_protect _ _ s hs _ _ hr j x g hj hjp hjf hx hxf
  | throw e s2 => rw [hr] at h; exact Res.noConfusion h
  | undef => rw [hr] at h; exact Res.noConfusion h
  | nofuel => rw [hr] at h; exact Res.noConfusion h

/-- While a page of file `g` is pinned, a returning `readPage` leaves the image
in every frame of `g` as it is. -/
theorem readPage_protect (s : BufMgr) (hs : Inv s) (f : FileId) (p : PageId) (k : FrameId)
    (s' : BufMgr) (h : readPage s f p = .ok k s') (j x : FrameId) (g : FileId)
    (hj : j < s.numBufs) (hjp : 0 < (s.bufDescTable j).pinCnt)
    (hjf : (s.bufDescTable j).file = some g) (hx : x < s.numBufs)
    (hxf : (s.bufDescTable x).file = some g) : s'.bufPool x = s.bufPool x := by
  cases hl : s.hashTable f p with
  | some i =>
    rw [readPage_hit s f p i hl] at h
    injection h with _ h2
    subst h2
    rfl
  | none =>
    rw [readPage, hl] at h
    simp only [] at h
    cases ha : allocBuf s with
    | ok fr s1 =>
      rw [ha] at h
      cases fr with
      | none => exact Res.noConfusion h
      | some i =>
        simp only [] at h
        have hxv := allocBuf_protect s hs _ s1 ha j x g hj hjp hjf hx hxf
        have hP := allocBuf_spec s hs
        rw [ha] at hP
        obtain ⟨_, hK, hk, _⟩ := hP
        have hiv := (hk i rfl).2.2
        have hxi : x ≠ i := by
          intro e
          rw [e, hiv] at hxv
          exact absurd hxv (by simp)
        cases hd : s1.disk f p with
        | none => rw [hd] at h; exact Res.noConfusion h
        | some pg =>
          rw [hd] at h
          simp only [] at h
          cases hh2 : (s1.setPage i pg).hashTable f p with
          | some _ => rw [hh2] at h; exact Res.noConfusion h
          | none =>
            rw [hh2] at h
            injection h with _ e2
            subst e2
            show Function.update s1.bufPool i pg x = s.bufPool x
            rw [Function.update_noteq hxi, hK.bufPool]
    | throw e s1 => rw [ha] at h; exact Res.noConfusion h
    | undef => rw [ha] at h; exact Res.noConfusion h
    | nofuel => rw [ha] at h; exact Res.noConfusion h

/-! ## The two leaves after `split`, the root leaf included -/

theorem sameLeaf_refl (p : Page) : SameLeaf p p := ⟨rfl, rfl, rfl, rfl, rfl⟩

theorem sameLeaf_rootPageNo (p : Page) (r : PageId) :
    SameLeaf p { p with rootPageNo := r } := ⟨rfl, rfl, rfl, rfl, rfl⟩

theorem leafEntries_sameLeaf (p q : Page) (h : SameLeaf p q) :
    leafEntries q = leafEntries p := by
  obtain ⟨a, b, c, _, _⟩ := h
  unfold leafEntries
  rw [a, b, c]

theorem leafSorted_sameLeaf (p q : Page) (h : SameLeaf p q) (n : Int)
    (hs : LeafSorted p n) : LeafSorted q n := by
  intro x y h0 h1 h2
  rw [h.2.1]
  exact hs x y h0 h1 h2

/-- A pinned page stays cached in its frame, pinned and with its image, over a
returning or throwing `readPage` or `allocPage`. -/
theorem pinned_keeps (s : BufMgr) (hs : Inv s) (f : FileId) (p : PageId) (s' : BufMgr)
    (h : (readPage s f p).state? = some s' ∨ (allocPage s f).state? = some s')
    (g : FileId) (q : PageId) (x : FrameId) (hx : s.hashTable g q = some x)
    (hp : 0 < (s.bufDescTable x).pinCnt) :
    Inv s' ∧ s'.hashTable g q = some x ∧ 0 < (s'.bufDescTable x).pinCnt ∧
    s'.bufPool x = s.bufPool x := by
  obtain ⟨hxN, _, hxf, hxp⟩ := (hs.hash g q x).1 hx
  obtain ⟨hi, hN, a, b, c, d, _, e⟩ := pinned_core s hs f p s' h x hxN hp
  refine ⟨hi, (hi.hash g q x).2 ⟨hN ▸ hxN, a, b.trans hxf, c.trans hxp⟩, ?_, d⟩
  rcases e with e | e
  · omega
  · omega

/-- The frame `allocPage` returns is none of the pinned frames. -/
theorem allocPage_frame_other (s : BufMgr) (hs : Inv s) (f : FileId) (p : PageId)
    (k : FrameId) (s' : BufMgr) (h : allocPage s f = .ok (p, k) s') (x : FrameId)
    (hx : x < s.numBufs) (hp : 0 < (s.bufDescTable x).pinCnt) : x ≠ k := by
  rcases allocPage_cases s hs f with ⟨e, s1, hr, _⟩ | hr | ⟨j, s1, hr, _, hK, _, hjv, _⟩
  · rw [hr] at h; exact Res.noConfusion h
  · rw [hr] at h; exact Res.noConfusion h
  · rw [hr] at h
    injection h with h1 _
    injection h1 with _ h3
    subst h3
    have hkv := ((kept_pinned (s.fileAlloc f) s1 hK x hx hp).2.2.2.2.1).trans
      (pinned_valid s hs x hx hp)
    intro e
    rw [e, hjv] at hkv
    exact absurd hkv (by simp)

/-- What a returning `unPinPage` keeps. -/
theorem unPinPage_keeps (s : BufMgr) (f : FileId) (p : PageId) (d : Bool) (s' : BufMgr)
    (h : unPinPage s f p d = .ok () s') :
    s'.bufPool = s.bufPool ∧ s'.hashTable = s.hashTable ∧
    (∀ x, s.hashTable f p ≠ some x → s'.bufDescTable x = s.bufDescTable x) := by
  cases hl : s.hashTable f p with
  | none => rw [unPinPage, hl] at h; exact Res.noConfusion h
  | some k =>
    by_cases hp : 0 < (s.bufDescTable k).pinCnt
    · rw [unPinPage_pinned s f p d k hl hp] at h
      injection h with _ h2
      subst h2
      refine ⟨rfl, rfl, ?_⟩
      intro x hx
      have hxk : x ≠ k := fun e => hx (by rw [e])
      simp only [BufMgr.setDesc, Function.update_noteq hxk]
    · rw [unPinPage, hl] at h
      simp only [] at h
      rw [if_pos (by omega)] at h
      exact Res.noConfusion h

theorem initNewRoot_page (t : BTreeIndex) (nr x : FrameId) (a b : PageId) (h : x ≠ nr) :
    (initNewRoot t nr a b).page x = t.page x := by
  unfold initNewRoot
  simp only [page_edit_other _ nr x _ h]

/-- The tail of the leaf branch of `split`, after `splitLeafBody` has left the
old leaf (page `nodePageId`, frame `c`) and the new leaf (page `newPageNum`,
frame `nw`) in state `T`: when it returns, the leaf view of both frames is as
in `T`, and so is the promoted pair. -/
theorem split_leaf_tail (T : BTreeIndex) (hI : Inv T.bufMgr) (c nw : FrameId)
    (nodePageId newPageNum : PageId) (hcn : c ≠ nw)
    (hc : T.bufMgr.hashTable T.file nodePageId = some c)
    (hcp : 0 < (T.bufMgr.bufDescTable c).pinCnt)
    (hn : T.bufMgr.hashTable T.file newPageNum = some nw)
    (hnp : 0 < (T.bufMgr.bufDescTable nw).pinCnt) (t' : BTreeIndex)
    (h : (if nodePageId = T.rootPageNum then
        T.allocPage.bind fun b t8 =>
          let newRootId := b.1
          let t13 := initNewRoot t8 b.2 nodePageId newPageNum
          (t13.unPinPage nodePageId true).bind fun _ t14 =>
            let t15 : BTreeIndex := { t14 with rootPageNum := newRootId }
            (t15.readPage t15.headerPageNum).bind fun h t16 =>
              let t17 := t16.edit h fun pg => { pg with rootPageNo := newRootId }
              (t17.unPinPage t17.headerPageNum false).bind fun _ t18 =>
                t18.unPinPage newPageNum true
      else T.unPinPage newPageNum true) = .ok () t') :
    SameLeaf (T.page c) (t'.page c) ∧ SameLeaf (T.page nw) (t'.page nw) ∧
    t'.newNonLeafNodeKey = T.newNonLeafNodeKey ∧
    t'.newNonLeafNodePageNum = T.newNonLeafNodePageNum ∧
    t'.bufMgr.hashTable t'.file newPageNum = some nw := by
  split at h
  · obtain ⟨b, t8, h8, h⟩ := bind_ok _ _ _ _ h
    obtain ⟨newRoot, fr⟩ := b
    try simp only [] at h
    obtain ⟨b8, hb8, ht8⟩ := call_ok T _ _ t8 h8
    subst ht8
    obtain ⟨hcN, _, _, _⟩ := (hI.hash _ _ _).1 hc
    obtain ⟨hnN, _, _, _⟩ := (hI.hash _ _ _).1 hn
    have hst : (allocPage T.bufMgr T.file).state? = some b8 := by rw [hb8]; rfl
    obtain ⟨hI8, hc8, hcp8, hcb8⟩ :=
      pinned_keeps T.bufMgr hI T.file 0 b8 (Or.inr hst) T.file nodePageId c hc hcp
    obtain ⟨_, hn8, hnp8, hnb8⟩ :=
      pinned_keeps T.bufMgr hI T.file 0 b8 (Or.inr hst) T.file newPageNum nw hn hnp
    have hfc : c ≠ fr := allocPage_frame_other T.bufMgr hI T.file newRoot fr b8 hb8 c hcN hcp
    have hfn : nw ≠ fr :=
      allocPage_frame_other T.bufMgr hI T.file newRoot fr b8 hb8 nw hnN hnp
    have hI13 : Inv (initNewRoot { T with bufMgr := b8 } fr nodePageId newPageNum).bufMgr :=
      (pb_initNewRoot _ { T with bufMgr := b8 } fr nodePageId newPageNum ⟨hI8, rfl⟩).1
    have hpc13 := initNewRoot_page { T with bufMgr := b8 } fr c nodePageId newPageNum hfc
    have hpn13 := initNewRoot_page { T with bufMgr := b8 } fr nw nodePageId newPageNum hfn
    revert hI13 hpc13 hpn13 h
    generalize hT13 : initNewRoot { T with bufMgr := b8 } fr nodePageId newPageNum = T13
    have e1 : T13.bufMgr.hashTable = b8.hashTable := by rw [← hT13]; rfl
    have e2 : T13.bufMgr.bufDescTable = b8.bufDescTable := by rw [← hT13]; rfl
    have e3 : T13.file = T.file := by rw [← hT13]; rfl
    have e4 : T13.newNonLeafNodeKey = T.newNonLeafNodeKey := by rw [← hT13]; rfl
    have e5 : T13.newNonLeafNodePageNum = T.newNonLeafNodePageNum := by rw [← hT13]; rfl
    intro h hI13 hpc13 hpn13
    obtain ⟨_, t14, h14, h⟩ := bind_ok _ _ _ _ h
    try simp only [] at h
    obtain ⟨b14, hb14, ht14⟩ := call_ok T13 _ _ t14 h14
    subst ht14
    obtain ⟨k1, k2, k3⟩ := unPinPage_keeps _ _ _ _ _ hb14
    have hI14 : Inv b14 := inv_unPinPage _ hI13 _ _ _ b14 (by rw [hb14]; rfl)
    have hc14 : b14.hashTable T.file nodePageId = some c := by rw [k2, e1]; exact hc8
    have hn14 : b14.hashTable T.file newPageNum = some nw := by rw [k2, e1]; exact hn8
    have hnp14 : 0 < (b14.bufDescTable nw).pinCnt := by
      rw [k3 nw, e2]
      · exact hnp8
      · rw [e1, e3, hc8]
        intro e
        exact hcn (Option.some.inj e)
    obtain ⟨hcN14, _, hcf14, _⟩ := (hI14.hash _ _ _).1 hc14
    obtain ⟨hnN14, _, hnf14, _⟩ := (hI14.hash _ _ _).1 hn14
    obtain ⟨hd, t16, h16, h⟩ := bind_ok _ _ _ _ h
    try simp only [] at h
    obtain ⟨b16, hb16, ht16⟩ := call_ok _ _ _ t16 h16
    subst ht16
    have hb16' : readPage b14 T13.file T13.headerPageNum = .ok hd b16 := hb16
    have hcb16 := readPage_protect b14 hI14 _ _ hd b16 hb16' nw c T.file hnN14 hnp14 hnf14
      hcN14 hcf14
    have hnb16 := readPage_protect b14 hI14 _ _ hd b16 hb16' nw nw T.file hnN14 hnp14 hnf14
      hnN14 hnf14
    obtain ⟨_, hn16, _, _⟩ := pinned_keeps b14 hI14 _ _ b16 (Or.inl (by rw [hb16']; rfl))
      T.file newPageNum nw hn14 hnp14
    obtain ⟨_, t18, h18, h⟩ := bind_ok _ _ _ _ h
    obtain ⟨b18, hb18, ht18⟩ := call_ok _ _ _ t18 h18
    subst ht18
    obtain ⟨m1, m2, _⟩ := unPinPage_keeps _ _ _ _ _ hb18
    obtain ⟨b19, hb19, ht19⟩ := call_ok _ _ _ t' h
    subst ht19
    obtain ⟨n1, n2, _⟩ := unPinPage_keeps _ _ _ _ _ hb19
    have hpage : ∀ x, (x = c ∨ x = nw) → b16.bufPool x = T.page x := by
      intro x hx
      rcases hx with hx | hx
      · subst hx
        rw [hcb16, k1]
        exact hpc13.trans hcb8
      · subst hx
        rw [hnb16, k1]
        exact hpn13.trans hnb8
    have hfin : ∀ x, (x = c ∨ x = nw) → SameLeaf (T.page x) (b19.bufPool x) := by
      intro x hx
      rw [n1, m1]
      show SameLeaf (T.page x)
        (Function.update b16.bufPool hd { b16.bufPool hd with rootPageNo := newRoot } x)
      by_cases hxd : x = hd
      · subst hxd
        rw [Function.update_same, ← hpage x hx]
        exact sameLeaf_rootPageNo _ _
      · rw [Function.update_noteq hxd, hpage x hx]
        exact sameLeaf_refl _
    refine ⟨hfin c (Or.inl rfl), hfin nw (Or.inr rfl), e4, e5, ?_⟩
    show b19.hashTable T13.file newPageNum = some nw
    rw [n2, m2, e3]
    exact hn16
  · obtain ⟨b, hb, ht⟩ := call_ok T _ _ t' h
    subst ht
    obtain ⟨k1, k2, _⟩ := unPinPage_keeps _ _ _ _ _ hb
    refine ⟨?_, ?_, rfl, rfl, ?_⟩
    · show SameLeaf (T.page c) (b.bufPool c)
      rw [k1]
      exact sameLeaf_refl _
    · show SameLeaf (T.page nw) (b.bufPool nw)
      rw [k1]
      exact sameLeaf_refl _
    · show b.hashTable T.file newPageNum = some nw
      rw [k2]
      exact hn

/-- The leaf branch of `split` with its allocation: when `split` returns, the
new leaf was allocated in a frame other than the old leaf's, and the leaf view of
both frames afterwards is the one `splitLeafBody` has left. -/
theorem split_leaf_pages (t : BTreeIndex) (hI : Inv t.bufMgr) (c : FrameId)
    (nodePageId : PageId) (key : Int) (rid : RecordId)
    (hcache : t.bufMgr.hashTable t.file nodePageId = some c)
    (hp : 0 < (t.bufMgr.bufDescTable c).pinCnt) (t' : BTreeIndex)
    (h : split t true c nodePageId key rid = .ok () t') :
    ∃ newPageNum nw t1, t.allocPage = .ok (newPageNum, nw) t1 ∧ c ≠ nw ∧
      t1.page c = t.page c ∧ (t1.page nw).numKeys = 0 ∧
      t1.leafOccupancy = t.leafOccupancy ∧
      SameLeaf ((splitLeafBody t1 c nw newPageNum key rid).page c) (t'.page c) ∧
      SameLeaf ((splitLeafBody t1 c nw newPageNum key rid).page nw) (t'.page nw) ∧
      t'.newNonLeafNodeKey = (splitLeafBody t1 c nw newPageNum key rid).newNonLeafNodeKey ∧
      t'.newNonLeafNodePageNum =
        (splitLeafBody t1 c nw newPageNum key rid).newNonLeafNodePageNum ∧
      t'.bufMgr.hashTable t'.file newPageNum = some nw := by
  unfold split splitLeaf at h
  simp only [if_true] at h
  obtain ⟨a, t1, h1, h⟩ := bind_ok _ _ _ _ h
  obtain ⟨newPageNum, nw⟩ := a
  obtain ⟨hcN, _, _, _⟩ := (hI.hash _ _ _).1 hcache
  obtain ⟨_, l1, f1, hz, hn1, hnp1, hpin⟩ := allocPage_new_leaf t hI newPageNum nw t1 h1
  have hpc : t1.page c = t.page c := hpin c hcN hp
  obtain ⟨b1, hb1, ht1⟩ := call_ok t _ _ t1 h1
  have hst : (allocPage t.bufMgr t.file).state? = some b1 := by rw [hb1]; rfl
  obtain ⟨hI1, hc1, hcp1, _⟩ :=
    pinned_keeps t.bufMgr hI t.file 0 b1 (Or.inr hst) t.file nodePageId c hcache hp
  have hcn : c ≠ nw :=
    allocPage_frame_other t.bufMgr hI t.file newPageNum nw b1 hb1 c hcN hp
  have hb : t1.bufMgr = b1 := by rw [ht1]
  obtain ⟨_, f2, hh2, hd2⟩ := splitLeafBody_frame t1 c nw newPageNum key rid
  have hI7 : Inv (splitLeafBody t1 c nw newPageNum key rid).bufMgr :=
    (pb_splitLeafBody _ t1 c nw newPageNum key rid ⟨hb ▸ hI1, rfl⟩).1
  refine ⟨newPageNum, nw, t1, h1, hcn, hpc, hz, l1, ?_⟩
  refine split_leaf_tail _ hI7 c nw nodePageId newPageNum hcn ?_ ?_ ?_ ?_ t' h
  · rw [hh2, f2, f1, hb]; exact hc1
  · rw [hd2, hb]; exact hcp1
  · rw [hh2, f2, f1]; exact hn1
  · rw [hd2, hnp1]; exact Nat.one_pos

/-- C22: leaf split.  For every full leaf (`numKeys = L`, `L >= 1`), the root
leaf or another, with sorted entries, cached and pinned in frame `c`, and every
pending pair: whenever `split` returns, it has allocated the new leaf (page
`newPageNum`, in a frame `nw` other than `c`), and then: when the pending key
is below the key formerly at `L/2`, the old leaf holds the entries formerly at
`[0, L/2)` with the pending pair put in at one place and the new leaf those
formerly at `[L/2, L)`; otherwise the old leaf holds the entries formerly at
`[0, L/2)` and the new leaf the others with the pending pair put in.  Both
leaves are sorted, no key of the old leaf exceeds a key of the new leaf, and the
entries of the two leaves together are the `L` old entries and the pending one.
The new leaf has level -1 and the old leaf's former right sibling, the old
leaf's right sibling is the new page, and the promoted pair is the first key of
the new leaf with the new page id.  When the leaf is not the root, `split`
returns as soon as its `allocPage` has returned. -/
theorem C22_leaf_split (t : BTreeIndex) (c : FrameId) (nodePageId : PageId) (key : Int)
    (rid : RecordId) (hI : Inv t.bufMgr)
    (hcache : t.bufMgr.hashTable t.file nodePageId = some c)
    (hp : 0 < (t.bufMgr.bufDescTable c).pinCnt) (hL : 0 < t.leafOccupancy)
    (hfull : (t.page c).numKeys = t.leafOccupancy)
    (hs : LeafSorted (t.page c) t.leafOccupancy) :
    (∀ t', split t true c nodePageId key rid = .ok () t' →
      ∃ newPageNum nw, (∃ t1, t.allocPage = .ok (newPageNum, nw) t1) ∧ c ≠ nw ∧
      t'.bufMgr.hashTable t'.file newPageNum = some nw ∧
      (key < (t.page c).keyArray (t.leafOccupancy / 2) →
        (∃ i, i ≤ (t.leafOccupancy / 2).toNat ∧
          leafEntries (t'.page c) =
            ((leafEntries (t.page c)).take (t.leafOccupancy / 2).toNat).take i ++
              (key, rid) ::
                ((leafEntries (t.page c)).take (t.leafOccupancy / 2).toNat).drop i) ∧
        leafEntries (t'.page nw) =
          (leafEntries (t.page c)).drop (t.leafOccupancy / 2).toNat) ∧
      (¬ key < (t.page c).keyArray (t.leafOccupancy / 2) →
        leafEntries (t'.page c) =
          (leafEntries (t.page c)).take (t.leafOccupancy / 2).toNat ∧
        ∃ i, i ≤ (t.leafOccupancy - t.leafOccupancy / 2).toNat ∧
          leafEntries (t'.page nw) =
            ((leafEntries (t.page c)).drop (t.leafOccupancy / 2).toNat).take i ++
              (key, rid) ::
                ((leafEntries (t.page c)).drop (t.leafOccupancy / 2).toNat).drop i) ∧
      LeafSorted (t'.page c) (t'.page c).numKeys ∧
      LeafSorted (t'.page nw) (t'.page nw).numKeys ∧
      (∀ x y, 0 ≤ x → x < (t'.page c).numKeys → 0 ≤ y → y < (t'.page nw).numKeys →
        (t'.page c).keyArray x ≤ (t'.page nw).keyArray y) ∧
      List.Perm (leafEntries (t'.page c) ++ leafEntries (t'.page nw))
        ((key, rid) :: leafEntries (t.page c)) ∧
      (t'.page nw).level = -1 ∧
      (t'.page nw).rightSibPageNo = (t.page c).rightSibPageNo ∧
      (t'.page c).rightSibPageNo = newPageNum ∧
      t'.newNonLeafNodeKey = (t'.page nw).keyArray 0 ∧
      t'.newNonLeafNodePageNum = newPageNum) ∧
    (nodePageId ≠ t.rootPageNum → ∀ newPageNum nw t1,
      t.allocPage = .ok (newPageNum, nw) t1 →
      ∃ t', split t true c nodePageId key rid = .ok () t') := by
  constructor
  · intro t' h
    obtain ⟨newPageNum, nw, t1, h1, hcn, hpc, hz, l1, sc, sn, k1, k2, hh⟩ :=
      split_leaf_pages t hI c nodePageId key rid hcache hp t' h
    refine ⟨newPageNum, nw, ⟨t1, h1⟩, hcn, hh, ?_⟩
    rw [← hpc, ← l1] at hfull hs
    obtain ⟨a1, a2, a3, a4, a5, a6, a7, a8, a9, a10, a11⟩ :=
      leaf_split_body t1 c nw newPageNum key rid _ rfl hcn (by rw [l1]; exact hL) hfull hs hz
    rw [leafEntries_sameLeaf _ _ sc, leafEntries_sameLeaf _ _ sn, sc.1, sn.1, sc.2.1, sn.2.1,
      sn.2.2.2.1, sn.2.2.2.2, sc.2.2.2.2, k1, k2, ← hpc, ← l1]
    exact ⟨a1, a2, leafSorted_sameLeaf _ _ sc _ a3, leafSorted_sameLeaf _ _ sn _ a4, a5, a6,
      a7, a8, a9, a10, a11⟩
  · intro hroot newPageNum nw t1 h1
    obtain ⟨t', ht, _⟩ := split_leaf_returns t hI c nodePageId key rid newPageNum nw t1 h1 hroot
    exact ⟨t', ht⟩

theorem idx4_ok : insertAll 10 keys4 idx0 = .ok () idx4 :=
  after_eq _ idx0 (by decide!)

theorem rsplit0_ok : idx4.readPage idx4.rootPageNum = .ok 0 rsplit0 :=
  after_val _ idx4 _ (by decide!)

theorem rsplit1_ok : split rsplit0 true 0 2 50 (ridOf 50) = .ok () rsplit1 :=
  after_eq _ rsplit0 (by decide!)

theorem pb_rsplit0 : PB (0 + 1) rsplit0 :=
  pb_readPage 0 idx4 _ 0 rsplit0 (pb_insertAll 10 keys4 0 idx0 idx4 pb_idx0 idx4_ok) rsplit0_ok

theorem split0_ok : idx6.readPage idx6.rootPageNum = .ok 2 split0 :=
  after_val _ idx6 _ (by decide!)

theorem split1_ok : split0.readPage 3 = .ok 1 split1 :=
  after_val _ split0 _ (by decide!)

theorem split2_ok : split1.allocPage = .ok (5, 4) split2 :=
  after_val _ split1 _ (by decide!)

theorem pb_split1 : PB (0 + 1 + 1) split1 :=
  pb_readPage _ split0 3 1 split1 (pb_readPage 0 idx6 _ 2 split0 pb_idx6 split0_ok) split1_ok

/-- Witness of C22.  Inside insertEntry(50) on `idx4` the full root leaf page 2
(`[10, 20, 30, 40]`, pinned in frame 0) is split into `[10, 20]` and the new
leaf `[30, 40, 50]` (page 3, frame 1); and inside insertEntry(36) on `idx6` the
split of the full leaf page 3 (`[30, 35, 40, 50]`, pinned in frame 1, not the
root) returns. -/
theorem C22_witness :
    rsplit0.rootPageNum = 2 ∧ rsplit0.bufMgr.hashTable rsplit0.file 2 = some 0 ∧
    rsplit0.leafOccupancy = 4 ∧
    leafEntries (rsplit0.page 0) =
      [(10, ridOf 10), (20, ridOf 20), (30, ridOf 30), (40, ridOf 40)] ∧
    split rsplit0 true 0 2 50 (ridOf 50) = .ok () rsplit1 ∧
    leafEntries (rsplit1.page 0) = [(10, ridOf 10), (20, ridOf 20)] ∧
    leafEntries (rsplit1.page 1) = [(30, ridOf 30), (40, ridOf 40), (50, ridOf 50)] ∧
    (∃ newPageNum nw, 0 ≠ nw ∧
      rsplit1.bufMgr.hashTable rsplit1.file newPageNum = some nw ∧
      List.Perm (leafEntries (rsplit1.page 0) ++ leafEntries (rsplit1.page nw))
        ((50, ridOf 50) :: leafEntries (rsplit0.page 0)) ∧
      rsplit1.newNonLeafNodePageNum = newPageNum) ∧
    split1.rootPageNum = 4 ∧ split1.allocPage = .ok (5, 4) split2 ∧
    ∃ t', split split1 true 1 3 36 (ridOf 36) = .ok () t' := by
  have hr := (C22_leaf_split rsplit0 0 2 50 (ridOf 50) pb_rsplit0.1 (by decide!) (by decide!)
    (by decide!) (by decide!)
    (by
      have e : rsplit0.leafOccupancy = ((4 : Nat) : Int) := by decide!
      rw [e]
      exact leafSorted_of_nat _ 4 (by decide!))).1 rsplit1 rsplit1_ok
  have hn := (C22_leaf_split split1 1 3 36 (ridOf 36) pb_split1.1 (by decide!) (by decide!)
    (by decide!) (by decide!)
    (by
      have e : split1.leafOccupancy = ((4 : Nat) : Int) := by decide!
      rw [e]
      exact leafSorted_of_nat _ 4 (by decide!))).2 (by decide!) 5 4 split2 split2_ok
  obtain ⟨p, nw, _, hcn, hh, _, _, _, _, _, hperm, _, _, _, _, hk⟩ := hr
  exact ⟨by decide!, by decide!, by decide!, by decide!, rsplit1_ok, by decide!, by decide!,
    ⟨p, nw, hcn, hh, hperm, hk⟩, by decide!, split2_ok, hn⟩

end BadgerDB
